import Mathlib

/-!
Verification development for the MaterialX shader-graph IR core
(source/MaterialXGenShader/SgNode.cpp).

The C++ data model is shallowly embedded: nodes are identified by a
`NodeId` (a stand-in for the C++ object pointer), ports are addressed by
`(node id, positional index)` pairs, and the pointer-valued fields
(`SgInput::connection`, `SgOutput::connections`, `SgNode*` back
references) become such references.  The graph node itself (the `this`
pointer of `SgNodeGraph`) is id 0; interior nodes have positive ids.
C++ `std::set` fields are lists kept duplicate-free by the insert and
erase operations; `std::map`/`unordered_map` fields are association
lists.  Operations that would dereference an invalid pointer or raise a
`MaterialX` exception return `Except String`.
-/

namespace MaterialXSg

/-- Stand-in for an `SgNode*` identity.  Id 0 is the owning `SgNodeGraph`
itself (`this` in the C++ member functions); interior nodes have
positive ids. -/
abbrev NodeId := Nat

/-- Reference to an `SgOutput`: owning node id and position in the
node's `_outputOrder` vector. -/
abbrev OutRef := NodeId × Nat

/-- Reference to an `SgInput`: owning node id and position in the
node's `_inputOrder` vector. -/
abbrev InRef := NodeId × Nat

/-- `TypeDesc` identity is by interned descriptor; descriptors are
determined by their stable name, so the embedding uses the name. -/
abbrev TypeDesc := String

def typeBOOLEAN : TypeDesc := "boolean"

def typeFLOAT : TypeDesc := "float"

def typeINTEGER : TypeDesc := "integer"

/-- A `MaterialX::Value` literal (the tagged union of the value
factory), restricted to the shapes the optimizer touches.  C++ `float`
is represented by `Rat`: the optimizer only compares and truncates
literals, and those operations agree with rational arithmetic on the
represented values. -/
inductive SgValue where
  | boolean (b : Bool)
  | integer (i : Int)
  | float (q : Rat)
  | str (s : String)
deriving DecidableEq

/-- `Value::asA<float>` — raises unless the dynamic type is float. -/
def asFloat : SgValue → Except String Rat
  | .float q => .ok q
  | _ => .error "Value::asA type mismatch"

/-- `Value::asA<bool>`. -/
def asBool : SgValue → Except String Bool
  | .boolean b => .ok b
  | _ => .error "Value::asA type mismatch"

/-- `Value::asA<int>`. -/
def asInt : SgValue → Except String Int
  | .integer i => .ok i
  | _ => .error "Value::asA type mismatch"

/-- C++ `int(float)` truncation toward zero, on the rational model. -/
def truncRat (q : Rat) : Int :=
  if 0 ≤ q then q.floor else -((-q).floor)

/-- `SgNode::ScopeInfo::Type`. -/
inductive ScopeType where
  | UNKNOWN
  | GLOBAL
  | SINGLE
  | MULTIPLE
deriving DecidableEq

/-- `SgNode::ScopeInfo`.  `conditionalNode` is an `SgNode*` in C++,
hence an optional `NodeId` here. -/
structure ScopeInfo where
  type : ScopeType
  conditionalNode : Option NodeId
  conditionBitmask : Nat
  fullConditionMask : Nat
deriving DecidableEq

/-- The default-initialized scope record of a fresh node. -/
def ScopeInfo.unknown : ScopeInfo :=
  { type := .UNKNOWN, conditionalNode := none, conditionBitmask := 0, fullConditionMask := 0 }

/-- `SgNode::ScopeInfo::adjustAtConditionalInput` (SgNode.cpp:98). -/
def ScopeInfo.adjustAtConditionalInput (s : ScopeInfo) (condNode : NodeId) (branch : Nat)
    (fullMask : Nat) : ScopeInfo :=
  if s.type = .GLOBAL ∨ (s.type = .SINGLE ∧ s.conditionBitmask = s.fullConditionMask) then
    { type := .SINGLE, conditionalNode := some condNode,
      conditionBitmask := 1 <<< branch, fullConditionMask := fullMask }
  else if s.type = .SINGLE then
    { s with type := .MULTIPLE, conditionalNode := none }
  else
    s

/-- `SgNode::ScopeInfo::merge` (SgNode.cpp:114). -/
def ScopeInfo.merge (s : ScopeInfo) (fromScope : ScopeInfo) : ScopeInfo :=
  if s.type = .UNKNOWN ∨ fromScope.type = .GLOBAL then
    fromScope
  else if s.type = .GLOBAL then
    s
  else if s.type = .SINGLE ∧ fromScope.type = .SINGLE ∧
      s.conditionalNode = fromScope.conditionalNode then
    let bm := s.conditionBitmask ||| fromScope.conditionBitmask
    if bm = s.fullConditionMask then
      { s with type := .GLOBAL, conditionalNode := none, conditionBitmask := bm }
    else
      { s with conditionBitmask := bm }
  else
    { s with type := .MULTIPLE, conditionalNode := none }

/-- `SgInput`: public fields of the C++ struct.  The `node` back
reference is implicit in the `InRef` addressing. -/
structure SgInput where
  name : String
  type : TypeDesc
  value : Option SgValue
  connection : Option OutRef
deriving DecidableEq

/-- `SgOutput`.  `connections` is the `std::set<SgInput*>` of downstream
inputs, as a duplicate-free list. -/
structure SgOutput where
  name : String
  type : TypeDesc
  connections : List InRef
deriving DecidableEq

/-- Classification bit masks.  Modelled from the spec: the concrete bit
values live in the SgNode.h header (not part of the sources here); the
spec only requires them to be distinct non-exclusive flags, so distinct
powers of two are used. -/
def clTEXTURE : Nat := 1

def clCLOSURE : Nat := 2

def clSHADER : Nat := 4

def clCONSTANT : Nat := 8

def clCONDITIONAL : Nat := 16

def clIFELSE : Nat := 32

def clSWITCH : Nat := 64

def clSAMPLE2D : Nat := 128

def clSAMPLE3D : Nat := 256

def clCONVOLUTION2D : Nat := 512

def clFILETEXTURE : Nat := 1024

def clSURFACE : Nat := 2048

/-- `SgNode`.  `inputMap`/`outputMap` are the C++ name-keyed maps from
port name to the port object; they key into `inputOrder`/`outputOrder`
by position (the C++ maps and vectors alias the same port objects, so
the map values are positions here).  Map keys and the port `name`
members can diverge, exactly as in C++ when a name member is rewritten
without the map being rekeyed. -/
structure SgNode where
  name : String
  classification : Nat
  inputMap : List (String × Nat)
  inputOrder : List SgInput
  outputMap : List (String × Nat)
  outputOrder : List SgOutput
  scopeInfo : ScopeInfo
  usedClosures : List NodeId
deriving DecidableEq

/-- `SgNode::hasClassification` — a bitmask test.  Modelled from the
spec (the accessor lives in the header): true when every bit of `c` is
set. -/
def SgNode.hasClassification (n : SgNode) (c : Nat) : Bool :=
  n.classification &&& c == c

/-- `SgNodeGraph`.  `nodeMap` is `_nodeMap` (the C++ map is keyed by
node name; here entries carry the id standing in for the object pointer
and the node record, whose `name` field is the C++ map key).
`nodeOrder` is `_nodeOrder`.  `colorTransformMap` is
`_colorTransformMap`.  The graph node's own outputs are the input
sockets and its inputs are the output sockets (SgNode.cpp:932-940). -/
structure SgNodeGraph where
  graphNode : SgNode
  nodeMap : List (NodeId × SgNode)
  nodeOrder : List NodeId
  colorTransformMap : List (NodeId × String)
deriving DecidableEq

/-- Association-list lookup for `nodeMap`-style lists. -/
def findMap {α : Type} : List (Nat × α) → Nat → Option α
  | [], _ => none
  | (k, v) :: rest, id => if k = id then some v else findMap rest id

/-- Update the first entry with the given key. -/
def mapUpdate {α : Type} : List (Nat × α) → Nat → (α → α) → List (Nat × α)
  | [], _, _ => []
  | (k, v) :: rest, id, f =>
    if k = id then (k, f v) :: rest else (k, v) :: mapUpdate rest id f

/-- Replace the element at a position, when it exists. -/
def listModify {α : Type} : List α → Nat → (α → α) → List α
  | [], _, _ => []
  | a :: rest, 0, f => f a :: rest
  | a :: rest, i + 1, f => a :: listModify rest i f

/-- Resolve a node id to its record: id 0 is the graph node itself
(`this`), positive ids are looked up in `_nodeMap`. -/
def SgNodeGraph.getAnyNode (g : SgNodeGraph) (id : NodeId) : Option SgNode :=
  if id = 0 then some g.graphNode else findMap g.nodeMap id

/-- Functionally update a node record (a C++ member write through the
node pointer). -/
def SgNodeGraph.updateNode (g : SgNodeGraph) (id : NodeId) (f : SgNode → SgNode) : SgNodeGraph :=
  if id = 0 then { g with graphNode := f g.graphNode }
  else { g with nodeMap := mapUpdate g.nodeMap id f }

/-- Dereference an `SgInput*`. -/
def SgNodeGraph.getInputPort (g : SgNodeGraph) (r : InRef) : Option SgInput := do
  let n ← g.getAnyNode r.1
  n.inputOrder.get? r.2

/-- Dereference an `SgOutput*`. -/
def SgNodeGraph.getOutputPort (g : SgNodeGraph) (r : OutRef) : Option SgOutput := do
  let n ← g.getAnyNode r.1
  n.outputOrder.get? r.2

/-- Write through an `SgInput*`. -/
def SgNodeGraph.setInputPort (g : SgNodeGraph) (r : InRef) (f : SgInput → SgInput) : SgNodeGraph :=
  g.updateNode r.1 (fun n => { n with inputOrder := listModify n.inputOrder r.2 f })

/-- Write through an `SgOutput*`. -/
def SgNodeGraph.setOutputPort (g : SgNodeGraph) (r : OutRef) (f : SgOutput → SgOutput) : SgNodeGraph :=
  g.updateNode r.1 (fun n => { n with outputOrder := listModify n.outputOrder r.2 f })

/-- `std::set` insertion on the connection list. -/
def insertInRef (r : InRef) (l : List InRef) : List InRef :=
  if r ∈ l then l else l ++ [r]

/-- `SgInput::makeConnection` (SgNode.cpp:19): sets `connection` and
inserts itself into the source's `connections` set.  Note: it does not
break any existing connection first. -/
def inputMakeConnection (g : SgNodeGraph) (dst : InRef) (src : OutRef) : SgNodeGraph :=
  let g1 := g.setInputPort dst (fun i => { i with connection := some src })
  g1.setOutputPort src (fun o => { o with connections := insertInRef dst o.connections })

/-- `SgInput::breakConnection` (SgNode.cpp:25). -/
def inputBreakConnection (g : SgNodeGraph) (dst : InRef) : SgNodeGraph :=
  match g.getInputPort dst with
  | some i =>
    match i.connection with
    | some src =>
      let g1 := g.setOutputPort src
        (fun o => { o with connections := o.connections.filter (fun d => d ≠ dst) })
      g1.setInputPort dst (fun i2 => { i2 with connection := none })
    | none => g
  | none => g

/-- `SgOutput::makeConnection` (SgNode.cpp:34): the symmetric
convenience; also does not break an existing connection of `dst`. -/
def outputMakeConnection (g : SgNodeGraph) (src : OutRef) (dst : InRef) : SgNodeGraph :=
  let g1 := g.setInputPort dst (fun i => { i with connection := some src })
  g1.setOutputPort src (fun o => { o with connections := insertInRef dst o.connections })

/-- `SgOutput::breakConnection(SgInput*)` (SgNode.cpp:40): erases `dst`
from the set and clears `dst.connection` unconditionally. -/
def outputBreakConnectionOne (g : SgNodeGraph) (src : OutRef) (dst : InRef) : SgNodeGraph :=
  let g1 := g.setOutputPort src
    (fun o => { o with connections := o.connections.filter (fun d => d ≠ dst) })
  g1.setInputPort dst (fun i => { i with connection := none })

/-- `SgOutput::breakConnection()` (SgNode.cpp:46): clears the
`connection` of every downstream input, then empties the set. -/
def outputBreakConnectionAll (g : SgNodeGraph) (src : OutRef) : SgNodeGraph :=
  match g.getOutputPort src with
  | some o =>
    let g1 := o.connections.foldl
      (fun g2 d => g2.setInputPort d (fun i => { i with connection := none })) g
    g1.setOutputPort src (fun o2 => { o2 with connections := [] })
  | none => g

/-- Node ids present in the structure (graph node plus map entries). -/
def SgNodeGraph.allIds (g : SgNodeGraph) : List NodeId :=
  0 :: g.nodeMap.map Prod.fst

/-- Invariant I1 (connection symmetry), as an executable check over all
ports: every input's `connection` is mirrored in the source output's
`connections` set, and every set entry points back. -/
def connSymB (g : SgNodeGraph) : Bool :=
  g.allIds.all fun nid =>
    (g.getAnyNode nid).all fun n =>
      ((List.range n.inputOrder.length).all fun k =>
        (n.inputOrder.get? k).all fun i =>
          i.connection.all fun src =>
            (g.getOutputPort src).any fun o => decide ((nid, k) ∈ o.connections)) &&
      ((List.range n.outputOrder.length).all fun k =>
        (n.outputOrder.get? k).all fun o =>
          o.connections.all fun d =>
            (g.getInputPort d).any fun i => decide (i.connection = some (nid, k)))

/-- Invariant I1 as a proposition over port references. -/
def ConnSym (g : SgNodeGraph) : Prop :=
  (∀ r i src, g.getInputPort r = some i → i.connection = some src →
     ∃ o, g.getOutputPort src = some o ∧ r ∈ o.connections) ∧
  (∀ s o r, g.getOutputPort s = some o → r ∈ o.connections →
     ∃ i, g.getInputPort r = some i ∧ i.connection = some s)

/-- Option dereference: a null/invalid C++ pointer dereference becomes
an error. -/
def exc {α : Type} : Option α → Except String α
  | some a => .ok a
  | none => .error "null dereference"

/-- String-keyed association lookup (the C++ name-keyed port maps). -/
def strFind : List (String × Nat) → String → Option Nat
  | [], _ => none
  | (k, v) :: rest, s => if k = s then some v else strFind rest s

/-- `std::map::erase(key)`. -/
def strErase : List (String × Nat) → String → List (String × Nat)
  | [], _ => []
  | (k, v) :: rest, s => if k = s then rest else (k, v) :: strErase rest s

/-- `map[key] = value` — overwrites an existing entry or appends. -/
def strInsert (m : List (String × Nat)) (s : String) (idx : Nat) : List (String × Nat) :=
  match strFind m s with
  | some _ => m.map (fun p => if p.1 = s then (s, idx) else p)
  | none => m ++ [(s, idx)]

/-- `SgNode::getInput(name)` (SgNode.cpp:318): map lookup, then the
aliased port object. -/
def SgNode.getInputByName (n : SgNode) (name : String) : Option SgInput := do
  let i ← strFind n.inputMap name
  n.inputOrder.get? i

/-- `SgNode::renameInput` (SgNode.cpp:378): rewrites the port's name
member and rekeys the map (`_inputMap[newName] = port` overwrites any
existing entry, then the old key is erased). -/
def SgNode.renameInput (n : SgNode) (name newName : String) : SgNode :=
  if name = newName then n
  else
    match strFind n.inputMap name with
    | none => n
    | some idx =>
      { n with
        inputOrder := listModify n.inputOrder idx (fun i => { i with name := newName }),
        inputMap := strInsert (strErase n.inputMap name) newName idx }

/-- `SgNode::renameOutput` (SgNode.cpp:392). -/
def SgNode.renameOutput (n : SgNode) (name newName : String) : SgNode :=
  if name = newName then n
  else
    match strFind n.outputMap name with
    | none => n
    | some idx =>
      { n with
        outputOrder := listModify n.outputOrder idx (fun o => { o with name := newName }),
        outputMap := strInsert (strErase n.outputMap name) newName idx }

/-- Total number of outputs in the structure — an upper bound on the
length of any duplicate-free chain of outputs, used as traversal fuel. -/
def SgNodeGraph.totalOutputs (g : SgNodeGraph) : Nat :=
  g.graphNode.outputOrder.length + (g.nodeMap.map (fun p => p.2.outputOrder.length)).sum

/-- The per-input walk of `SgEdgeIterator::operator++` (SgNode.cpp:1314):
follow each input's connection in order, skipping connections whose
driving output belongs to a node graph (`isNodeGraph()`, true exactly
for node id 0 here), raising on a cycle against the path set.  `rec` is
the traversal continuation one fuel level down. -/
def visitList (rec : List OutRef → OutRef → Except String (List OutRef)) :
    List OutRef → List SgInput → Except String (List OutRef)
  | _, [] => pure []
  | path, i :: is =>
    match i.connection with
    | some o =>
      if o.1 = 0 then visitList rec path is
      else if o ∈ path then .error "Encountered cycle"
      else do
        let l1 ← rec (o :: path) o
        let l2 ← visitList rec path is
        pure (l1 ++ l2)
    | none => visitList rec path is

/-- `SgEdgeIterator` (SgNode.cpp:1308-1391), as the list of upstream
outputs it yields, in visit order (each yielded edge also carries the
downstream input, which no caller in this file consumes).  `path` is
the iterator's `_path` cycle-detection set: it holds every output on
the current chain except the starting one (only `extendPathUpstream`
inserts, and it is never called for the start output).  `fuel` bounds
the recursion depth and is spent one unit per upstream step; since the
path grows by one distinct output per step, any fuel larger than the
number of outputs suffices, and exhaustion is reported as an error. -/
def visitUpstream (g : SgNodeGraph) : Nat → List OutRef → OutRef → Except String (List OutRef)
  | 0, _, _ => .error "out of fuel"
  | fuel + 1, path, out =>
    match g.getAnyNode out.1 with
    | none => .error "dangling output reference"
    | some n => do
      let rest ← visitList (visitUpstream g fuel) path n.inputOrder
      pure (out :: rest)

/-- `SgOutput::traverseUpstream` (SgNode.cpp:55), with fuel adequate for
any duplicate-free path. -/
def traverseUpstream (g : SgNodeGraph) (out : OutRef) : Except String (List OutRef) :=
  visitUpstream g (g.totalOutputs + 1) [] out

/-- `SgNodeGraph::bypass` (SgNode.cpp:1103).  When the chosen input has
an upstream connection, every downstream input of the chosen output is
re-routed to it; otherwise the chosen input's value is copied into each
downstream input.  The snapshot of the connection set is iterated, as in
the C++ (which copies the `std::set` before mutating). -/
def bypass (g : SgNodeGraph) (nid : NodeId) (inputIndex : Nat) (outputIndex : Nat := 0) :
    Except String SgNodeGraph := do
  let node ← exc (g.getAnyNode nid)
  let input ← exc (node.inputOrder.get? inputIndex)
  let output ← exc (node.outputOrder.get? outputIndex)
  match input.connection with
  | some upstream =>
    pure (output.connections.foldl (fun g2 d =>
      inputMakeConnection (outputBreakConnectionOne g2 (nid, outputIndex) d) d upstream) g)
  | none =>
    pure (output.connections.foldl (fun g2 d =>
      (outputBreakConnectionOne g2 (nid, outputIndex) d).setInputPort d
        (fun i => { i with value := input.value })) g)

/-- The loop body of `SgNodeGraph::optimize` (SgNode.cpp:1015-1064) for
one node: constant elision and conditional folding.  Returns the edited
graph and whether an edit was counted. -/
def optimizeNodeStep (g : SgNodeGraph) (nid : NodeId) : Except String (SgNodeGraph × Bool) := do
  let node ← exc (g.getAnyNode nid)
  if node.hasClassification clCONSTANT then
    let valueInput ← exc (node.inputOrder.get? 0)
    if valueInput.connection = none then do
      let g2 ← bypass g nid 0
      pure (g2, true)
    else
      pure (g, false)
  else if node.hasClassification clIFELSE then do
    let intest ← exc (node.getInputByName "intest")
    let constDriven ←
      match intest.connection with
      | none => pure true
      | some src => do
        let srcNode ← exc (g.getAnyNode src.1)
        pure (srcNode.hasClassification clCONSTANT)
    if constDriven then do
      let cutoff ← exc (node.getInputByName "cutoff")
      let value ←
        match intest.connection with
        | some src => do
          let srcNode ← exc (g.getAnyNode src.1)
          let srcInput ← exc (srcNode.inputOrder.get? 0)
          pure srcInput.value
        | none => pure intest.value
      let intestValue ←
        match value with
        | some v => asFloat v
        | none => pure (0 : Rat)
      let cutoffValue ← asFloat (← exc cutoff.value)
      let branch := if intestValue ≤ cutoffValue then 2 else 3
      let g2 ← bypass g nid branch
      pure (g2, true)
    else
      pure (g, false)
  else if node.hasClassification clSWITCH then do
    let which ← exc (node.getInputByName "which")
    let constDriven ←
      match which.connection with
      | none => pure true
      | some src => do
        let srcNode ← exc (g.getAnyNode src.1)
        pure (srcNode.hasClassification clCONSTANT)
    if constDriven then do
      let value ←
        match which.connection with
        | some src => do
          let srcNode ← exc (g.getAnyNode src.1)
          let srcInput ← exc (srcNode.inputOrder.get? 0)
          pure srcInput.value
        | none => pure which.value
      let branch ←
        match value with
        | none => pure (0 : Int)
        | some v =>
          if which.type = typeBOOLEAN then do
            let b ← asBool v
            pure (if b then (1 : Int) else 0)
          else if which.type = typeFLOAT then do
            let q ← asFloat v
            pure (truncRat q)
          else do
            let i ← asInt v
            pure i
      if branch < 0 then
        .error "branch index out of range"
      else do
        let g2 ← bypass g nid branch.toNat
        pure (g2, true)
    else
      pure (g, false)
  else
    pure (g, false)

/-- The edit pass of `SgNodeGraph::optimize`: the node order is iterated
(the vector is not touched by the loop body) and edits are counted. -/
def optimizeEdits (g : SgNodeGraph) : Except String (SgNodeGraph × Nat) :=
  g.nodeOrder.foldlM (fun acc nid => do
    let r ← optimizeNodeStep acc.1 nid
    pure (r.1, if r.2 then acc.2 + 1 else acc.2)) (g, 0)

/-- `std::set` insertion on node-id sets. -/
def insertNodeId (n : NodeId) (l : List NodeId) : List NodeId :=
  if n ∈ l then l else l ++ [n]

/-- The live-set recomputation of `SgNodeGraph::optimize`
(SgNode.cpp:1069-1081): traverse upstream from every connected output
socket (the graph node's inputs) and record every visited node. -/
def computeUsedNodes (g : SgNodeGraph) : Except String (List NodeId) :=
  g.graphNode.inputOrder.foldlM (fun acc socket =>
    match socket.connection with
    | some o => do
      let l ← traverseUpstream g o
      pure (l.foldl (fun acc2 e => insertNodeId e.1 acc2) acc)
    | none => pure acc) []

/-- `SgNodeGraph::disconnect` (SgNode.cpp:1000): break every input and
output connection of the node. -/
def disconnectNode (g : SgNodeGraph) (nid : NodeId) : SgNodeGraph :=
  match g.getAnyNode nid with
  | none => g
  | some node =>
    let g1 := (List.range node.inputOrder.length).foldl
      (fun g2 k => inputBreakConnection g2 (nid, k)) g
    (List.range node.outputOrder.length).foldl
      (fun g2 k => outputBreakConnectionAll g2 (nid, k)) g1

/-- `_nodeMap.erase(node->getName())`: the map is keyed by node name. -/
def eraseNodeByName (m : List (NodeId × SgNode)) (name : String) : List (NodeId × SgNode) :=
  match m with
  | [] => []
  | (k, v) :: rest => if v.name = name then rest else (k, v) :: eraseNodeByName rest name

/-- `_colorTransformMap.erase(node)`. -/
def eraseCtm (m : List (NodeId × String)) (nid : NodeId) : List (NodeId × String) :=
  m.filter (fun p => p.1 != nid)

/-- One node of the dead-node sweep of `SgNodeGraph::optimize`
(SgNode.cpp:1085-1097): a node not in the used set is disconnected and
erased from the color-transform map and the node map (the latter keyed
by node name). -/
def cleanupStep (usedNodes : List NodeId) (g2 : SgNodeGraph) (nid : NodeId) : SgNodeGraph :=
  if nid ∈ usedNodes then g2
  else
    match g2.getAnyNode nid with
    | none => g2
    | some node =>
      let g3 := disconnectNode g2 nid
      { g3 with colorTransformMap := eraseCtm g3.colorTransformMap nid,
                nodeMap := eraseNodeByName g3.nodeMap node.name }

/-- The dead-node sweep of `SgNodeGraph::optimize` (SgNode.cpp:1083-1099):
unused nodes are disconnected and erased, then the node order is
reassigned from the used set. -/
def optimizeCleanup (g : SgNodeGraph) (usedNodes : List NodeId) : SgNodeGraph :=
  { g.nodeOrder.foldl (cleanupStep usedNodes) g with nodeOrder := usedNodes }

/-- `SgNodeGraph::optimize` (SgNode.cpp:1012). -/
def optimize (g : SgNodeGraph) : Except String SgNodeGraph := do
  let r ← optimizeEdits g
  if r.2 > 0 then do
    let usedNodes ← computeUsedNodes r.1
    pure (optimizeCleanup r.1 usedNodes)
  else
    pure r.1

/-- The in-degree computed at SgNode.cpp:1150-1157: connected inputs
whose driving output does not belong to the graph node itself. -/
def SgNode.interiorInDegree (n : SgNode) : Nat :=
  (n.inputOrder.filter (fun i =>
    match i.connection with
    | some o => o.1 != 0
    | none => false)).length

/-- `inDegree[v]` — `std::unordered_map::operator[]` semantics with
default 0. -/
def degLookup (degs : List (NodeId × Int)) (nid : NodeId) : Int :=
  match findMap degs nid with
  | some d => d
  | none => 0

/-- `--inDegree[v]`, inserting a fresh entry when absent. -/
def degDecr (degs : List (NodeId × Int)) (nid : NodeId) : List (NodeId × Int) :=
  match findMap degs nid with
  | some _ => mapUpdate degs nid (fun x => x - 1)
  | none => degs ++ [(nid, -1)]

/-- Seeding loop of `topologicalSort` (SgNode.cpp:1144-1165): one pass
over `_nodeMap`, recording in-degrees and enqueueing the zero-degree
nodes. -/
def kahnInit (g : SgNodeGraph) : List (NodeId × Int) × List NodeId :=
  g.nodeMap.foldl (fun st p =>
    let c := p.2.interiorInDegree
    (st.1 ++ [(p.1, (c : Int))], if c = 0 then st.2 ++ [p.1] else st.2)) ([], [])

/-- One decrement of the popped node's downstream (SgNode.cpp:1181-1189):
skip socket inputs, decrement, and enqueue on reaching a non-positive
degree. -/
def kahnDecrOne (st : List (NodeId × Int) × List NodeId) (d : InRef) :
    List (NodeId × Int) × List NodeId :=
  if d.1 = 0 then st
  else
    let degs := degDecr st.1 d.1
    if degLookup degs d.1 ≤ 0 then (degs, st.2 ++ [d.1]) else (degs, st.2)

/-- Process all downstream edges of a popped node. -/
def kahnProcessNode (g : SgNodeGraph) (st : List (NodeId × Int) × List NodeId) (nid : NodeId) :
    List (NodeId × Int) × List NodeId :=
  match g.getAnyNode nid with
  | none => st
  | some node => node.outputOrder.foldl (fun st2 o => o.connections.foldl kahnDecrOne st2) st

/-- The Kahn queue loop (SgNode.cpp:1170-1192).  `fuel` bounds the
number of pops; the caller passes nodes-plus-edges-plus-one, which is an
upper bound on the number of enqueues, so a well-formed run always ends
by queue exhaustion. -/
def kahnLoop (g : SgNodeGraph) :
    Nat → List (NodeId × Int) → List NodeId → List NodeId → List NodeId
  | 0, _, _, order => order
  | fuel + 1, degs, queue, order =>
    match queue with
    | [] => order
    | nid :: rest =>
      let st := kahnProcessNode g (degs, rest) nid
      kahnLoop g fuel st.1 st.2 (order ++ [nid])

/-- Total number of entries in the `connections` sets — an upper bound
on the number of decrements the Kahn loop can perform. -/
def SgNodeGraph.totalConnRefs (g : SgNodeGraph) : Nat :=
  (g.graphNode.outputOrder.map (fun o => o.connections.length)).sum +
  (g.nodeMap.map (fun p => (p.2.outputOrder.map (fun o => o.connections.length)).sum)).sum

/-- `SgNodeGraph::topologicalSort` (SgNode.cpp:1136): runs Kahn's
algorithm and raises `ExceptionFoundCycle` when fewer nodes were ordered
than the node map holds. -/
def topologicalSort (g : SgNodeGraph) : Except String SgNodeGraph :=
  let st := kahnInit g
  let order := kahnLoop g (g.nodeMap.length + g.totalConnRefs + 1) st.1 st.2 []
  if order.length = g.nodeMap.length then .ok { g with nodeOrder := order }
  else .error ("Encountered a cycle in graph: " ++ g.graphNode.name)

/-- One connected input of a visited node during `calculateScopes`
(SgNode.cpp:1239-1266): the candidate scope is the visiting node's
current scope (read live — the C++ binds it by reference), adjusted at
conditional inputs, then merged into the upstream node, which is marked
used. -/
def scopeProcessInput (g : SgNodeGraph) (used : List NodeId) (nid : NodeId)
    (isIfElse isSwitch : Bool) (numInputs : Nat) (inputIndex : Nat) :
    SgNodeGraph × List NodeId :=
  match g.getAnyNode nid with
  | none => (g, used)
  | some node =>
    match node.inputOrder.get? inputIndex with
    | none => (g, used)
    | some input =>
      match input.connection with
      | none => (g, used)
      | some c =>
        let upstreamNode := c.1
        let newScopeInfo :=
          if isIfElse && (inputIndex == 2 || inputIndex == 3) then
            node.scopeInfo.adjustAtConditionalInput nid inputIndex 0x12
          else if isSwitch then
            node.scopeInfo.adjustAtConditionalInput nid inputIndex ((1 <<< numInputs) - 1)
          else
            node.scopeInfo
        let g2 := g.updateNode upstreamNode
          (fun un => { un with scopeInfo := un.scopeInfo.merge newScopeInfo })
        (g2, insertNodeId upstreamNode used)

/-- One node of the reverse-topological pass of `calculateScopes`:
skipped unless already marked used. -/
def scopeProcessNode (g : SgNodeGraph) (used : List NodeId) (nid : NodeId) :
    SgNodeGraph × List NodeId :=
  if nid ∈ used then
    match g.getAnyNode nid with
    | none => (g, used)
    | some node =>
      let isIfElse := node.hasClassification clIFELSE
      let isSwitch := node.hasClassification clSWITCH
      let numInputs := node.inputOrder.length
      (List.range numInputs).foldl
        (fun st idx => scopeProcessInput st.1 st.2 nid isIfElse isSwitch numInputs idx)
        (g, used)
  else (g, used)

/-- One input socket of `validateNames` (SgNode.cpp:1278-1283): the
socket (a graph-node output) is renamed to the made-unique name.
Throughout, `mkUnique` stands for the external syntax service's
`makeUnique(name, uniqueNames)` (modelled from the spec: it renames to
a legal, unique token and records it); it returns the new name and the
updated set. -/
def vnSockOutStep (mkUnique : String → List String → String × List String)
    (st : SgNodeGraph × List String) (idx : Nat) : SgNodeGraph × List String :=
  match st.1.graphNode.outputOrder.get? idx with
  | none => st
  | some sock =>
    let r := mkUnique sock.name st.2
    ({ st.1 with graphNode := st.1.graphNode.renameOutput sock.name r.1 }, r.2)

/-- One output socket of `validateNames` (SgNode.cpp:1284-1289).  Here
the C++ applies `makeUnique` to the socket's `name` member in place and
then calls `renameOutputSocket` with the already-renamed member as the
lookup key and the stale original as the new name — so the member keeps
the unique name while the socket map is left keyed by the stale name
(the rename is a no-op whenever the unique name is not a map key). -/
def vnSockInStep (mkUnique : String → List String → String × List String)
    (st : SgNodeGraph × List String) (idx : Nat) : SgNodeGraph × List String :=
  match st.1.graphNode.inputOrder.get? idx with
  | none => st
  | some sock =>
    let staleName := sock.name
    let r := mkUnique sock.name st.2
    let g3 := st.1.setInputPort (0, idx) (fun i => { i with name := r.1 })
    ({ g3 with graphNode := g3.graphNode.renameInput r.1 staleName }, r.2)

/-- One interior-node output of `validateNames` (SgNode.cpp:1292-1298):
the output is renamed to the made-unique compound
`<nodeName>_<outputName>`. -/
def vnNodeOutStep (mkUnique : String → List String → String × List String)
    (nid : NodeId) (stb : SgNodeGraph × List String) (idx : Nat) :
    SgNodeGraph × List String :=
  match stb.1.getAnyNode nid with
  | none => stb
  | some node2 =>
    match node2.outputOrder.get? idx with
    | none => stb
    | some output =>
      let compound := node2.name ++ "_" ++ output.name
      let r := mkUnique compound stb.2
      (stb.1.updateNode nid (fun n => n.renameOutput output.name r.1), r.2)

/-- One interior node of the third `validateNames` loop. -/
def vnNodeStep (mkUnique : String → List String → String × List String)
    (st : SgNodeGraph × List String) (nid : NodeId) : SgNodeGraph × List String :=
  match st.1.getAnyNode nid with
  | none => st
  | some node =>
    (List.range node.outputOrder.length).foldl (vnNodeOutStep mkUnique nid) st

/-- `SgNodeGraph::validateNames` (SgNode.cpp:1270): three loops over one
shared unique-name set — input sockets, output sockets (with the
stale-rename quirk of `vnSockInStep`), then every interior node's
outputs under compound names. -/
def validateNames (mkUnique : String → List String → String × List String)
    (g : SgNodeGraph) : SgNodeGraph :=
  let st1 := (List.range g.graphNode.outputOrder.length).foldl
    (vnSockOutStep mkUnique) (g, [])
  let st2 := (List.range st1.1.graphNode.inputOrder.length).foldl
    (vnSockInStep mkUnique) st1
  let st3 := st2.1.nodeOrder.foldl (vnNodeStep mkUnique) st2
  st3.1

/-- The per-edge insertion of the closure-tracking loop (SgNode.cpp:987-993):
when the upstream node at the edge's output is CLOSURE-classified, its
id is added to the tracking node's used-closures set. -/
def trackInsert (nid : NodeId) (g3 : SgNodeGraph) (e : OutRef) : SgNodeGraph :=
  match g3.getAnyNode e.1 with
  | some un =>
    if un.hasClassification clCLOSURE then
      g3.updateNode nid
        (fun n => { n with usedClosures := insertNodeId e.1 n.usedClosures })
    else g3
  | none => g3

/-- One iteration of the closure-tracking loop: missing and non-SHADER
nodes are skipped; for a SHADER node the primary output is traversed
upstream and every CLOSURE node found is recorded. -/
def trackStep (g2 : SgNodeGraph) (nid : NodeId) : Except String SgNodeGraph :=
  match g2.getAnyNode nid with
  | none => pure g2
  | some node =>
    if node.hasClassification clSHADER then do
      let edges ← traverseUpstream g2 (nid, 0)
      pure (edges.foldl (trackInsert nid) g2)
    else pure g2

/-- The closure-tracking pass at the end of `SgNodeGraph::finalize`
(SgNode.cpp:981-997): every SHADER-classified node records the
CLOSURE-classified nodes visited by an upstream traversal from its
primary output. -/
def trackClosures (g : SgNodeGraph) : Except String SgNodeGraph :=
  g.nodeOrder.foldlM trackStep g

/-- A geomprop declaration (name plus the optional `space`, `index`,
`attrname` hints; absent hints are empty strings, as in the C++
accessors). -/
structure GeomProp where
  name : String
  space : String
  index : String
  attrname : String

/-- Set a named input's value, when the input exists. -/
def setInputValueByName (n : SgNode) (inputName : String) (v : SgValue) : SgNode :=
  match strFind n.inputMap inputName with
  | some idx =>
    { n with inputOrder := listModify n.inputOrder idx (fun i => { i with value := some v }) }
  | none => n

/-- `SgNodeGraph::getNode` (SgNode.cpp:952): `_nodeMap` lookup by node
name. -/
def SgNodeGraph.getNodeByName (g : SgNodeGraph) (name : String) : Option (NodeId × SgNode) :=
  g.nodeMap.find? (fun p => p.2.name == name)

/-- `SgNodeGraph::addDefaultGeomNode` (SgNode.cpp:532).  Modelled from
the spec for the two external collaborators: `nodeDefLookup` stands for
`_document->getNodeDef` composed with `SgNode::create` (it returns the
node the creation path would build for the nodedef name, or none when
the nodedef is absent), and `freshId` stands for the address of the
newly allocated node.  Everything else follows the C++: reuse the
existing `default_<geomprop>` node when present, otherwise create one,
copy the non-empty hints, and connect the input to the node's primary
output. -/
def addDefaultGeomNode (g : SgNodeGraph) (inputRef : InRef) (geomprop : GeomProp)
    (nodeDefLookup : String → Option SgNode) (freshId : NodeId) : Except String SgNodeGraph := do
  let geomNodeName := "default_" ++ geomprop.name
  match g.getNodeByName geomNodeName with
  | some existing =>
    pure (inputMakeConnection g inputRef (existing.1, 0))
  | none => do
    let input ← exc (g.getInputPort inputRef)
    let geomNodeDefName := "ND_" ++ geomprop.name ++ "_" ++ input.type
    match nodeDefLookup geomNodeDefName with
    | none => .error ("Could not find a nodedef named " ++ geomNodeDefName)
    | some proto => do
      let node0 := { proto with name := geomNodeName }
      let node1 :=
        if geomprop.space = "" then node0
        else setInputValueByName node0 "space" (.str geomprop.space)
      let node2 :=
        if geomprop.index = "" then node1
        else setInputValueByName node1 "index" (.str geomprop.index)
      let node3 :=
        if geomprop.attrname = "" then node2
        else setInputValueByName node2 "attrname" (.str geomprop.attrname)
      let g1 := { g with nodeMap := g.nodeMap ++ [(freshId, node3)],
                         nodeOrder := g.nodeOrder ++ [freshId] }
      pure (inputMakeConnection g1 inputRef (freshId, 0))

/-- `SgNodeGraph::addColorTransformNode` (SgNode.cpp:588).  Modelled
from the spec for the same two collaborators as `addDefaultGeomNode`.
When no nodedef named `ND_<transform>_<outputType>` exists the function
returns the graph unchanged (color transforms are by design not defined
for all types); otherwise the transform node is interposed between the
output and its downstream inputs. -/
def addColorTransformNode (g : SgNodeGraph) (outputRef : OutRef) (colorTransform : String)
    (nodeDefLookup : String → Option SgNode) (freshId : NodeId) : Except String SgNodeGraph := do
  let output ← exc (g.getOutputPort outputRef)
  let outputNode ← exc (g.getAnyNode outputRef.1)
  let nodeDefName := "ND_" ++ colorTransform ++ "_" ++ output.type
  match nodeDefLookup nodeDefName with
  | none =>
    pure g
  | some proto => do
    let nodeName := outputNode.name ++ "_" ++ colorTransform
    let node := { proto with name := nodeName }
    let _ ← exc (node.outputOrder.get? 0)
    let _ ← exc (node.inputOrder.get? 0)
    let g1 := { g with nodeMap := g.nodeMap ++ [(freshId, node)],
                       nodeOrder := g.nodeOrder ++ [freshId] }
    let g2 := output.connections.foldl (fun g3 d =>
      inputMakeConnection (inputBreakConnection g3 d) d (freshId, 0)) g1
    pure (inputMakeConnection g2 (freshId, 0) outputRef)

/-- Well-formedness of the node store: map keys are distinct object
identities, none of them is the graph node, node names are distinct (the
C++ `_nodeMap` is keyed by name), and the graph node's name differs from
every interior name. -/
def wfMapB (g : SgNodeGraph) : Bool :=
  (g.nodeMap.map Prod.fst).Nodup &&
  g.nodeMap.all (fun p => p.1 != 0) &&
  (g.nodeMap.map (fun p => p.2.name)).Nodup &&
  g.nodeMap.all (fun p => p.2.name != g.graphNode.name)

/-- Well-formedness of `_nodeOrder`: it holds exactly the mapped nodes,
without duplicates. -/
def wfOrderB (g : SgNodeGraph) : Bool :=
  g.nodeOrder.Nodup &&
  g.nodeOrder.all (fun nid => decide (nid ∈ g.nodeMap.map Prod.fst)) &&
  g.nodeMap.all (fun p => decide (p.1 ∈ g.nodeOrder))

/-- Well-formedness of the ports: every stored reference dereferences,
and the connection sets are duplicate-free. -/
def wfPortsB (g : SgNodeGraph) : Bool :=
  g.allIds.all fun nid =>
    (g.getAnyNode nid).all fun n =>
      (n.inputOrder.all fun i =>
        i.connection.all fun src => (g.getOutputPort src).isSome) &&
      (n.outputOrder.all fun o =>
        o.connections.Nodup && o.connections.all (fun d => (g.getInputPort d).isSome))

/-- Builder for test fixtures: an input port. -/
def mkInput (nm : String) (ty : TypeDesc) (v : Option SgValue) (c : Option OutRef) : SgInput :=
  { name := nm, type := ty, value := v, connection := c }

/-- Builder for test fixtures: an output port. -/
def mkOutput (nm : String) (ty : TypeDesc) (cs : List InRef) : SgOutput :=
  { name := nm, type := ty, connections := cs }

/-- Builder for test fixtures: a node whose port maps key the ports by
their construction names, as `addInput`/`addOutput` do. -/
def mkNode (nm : String) (cls : Nat) (ins : List SgInput) (outs : List SgOutput) : SgNode :=
  { name := nm, classification := cls,
    inputMap := ins.enum.map (fun p => (p.2.name, p.1)),
    inputOrder := ins,
    outputMap := outs.enum.map (fun p => (p.2.name, p.1)),
    outputOrder := outs,
    scopeInfo := ScopeInfo.unknown,
    usedClosures := [] }

/-- Builder for test fixtures: a graph. -/
def mkGraph (gn : SgNode) (m : List (NodeId × SgNode)) (ord : List NodeId) : SgNodeGraph :=
  { graphNode := gn, nodeMap := m, nodeOrder := ord, colorTransformMap := [] }

/-- Fixture for the connection-mutator claims: node 1 has two outputs,
node 2 one unconnected input. -/
def c1Graph : SgNodeGraph :=
  mkGraph (mkNode "g" 0 [] [])
    [(1, mkNode "n1" 0 [] [mkOutput "o1" "float" [], mkOutput "o2" "float" []]),
     (2, mkNode "n2" 0 [mkInput "i" "float" none none] [])]
    [1, 2]

/-- Fixture for the geomprop-idempotence claim: a `default_texcoord`
node already exists; node 2 has an unbound input `uv`. -/
def c9Graph : SgNodeGraph :=
  mkGraph (mkNode "g" 0 [] [])
    [(1, mkNode "default_texcoord" 0 [] [mkOutput "out" "vector2" []]),
     (2, mkNode "tex" 0 [mkInput "uv" "vector2" none none] [mkOutput "out" "color3" []])]
    [1, 2]

/-- Fixture geomprop declaration. -/
def c9GeomProp : GeomProp :=
  { name := "texcoord", space := "", index := "", attrname := "" }

/-- Fixture for the color-transform claim: one node with a color3
output. -/
def c10Graph : SgNodeGraph :=
  mkGraph (mkNode "g" 0 [] [])
    [(1, mkNode "img" 0 [] [mkOutput "out" "color3" []])]
    [1]

/-- Unwrap an `Except`-valued graph with a fallback (used to name
concrete results in witnesses). -/
def exceptOr (e : Except String SgNodeGraph) (d : SgNodeGraph) : SgNodeGraph :=
  match e with
  | .ok g => g
  | .error _ => d

/-- Fixture for the if/else folding claim: `compare` node 2 with literal
`intest` 1 and `cutoff` 2, branch input 2 driven by node 1, branch
input 3 a literal; its output feeds the single output socket. -/
def c3Graph : SgNodeGraph :=
  mkGraph
    (mkNode "g" 0 [mkInput "out" "color3" none (some (2, 0))] [])
    [(1, mkNode "red" clTEXTURE [] [mkOutput "out" "color3" [(2, 2)]]),
     (2, mkNode "cmp" (clTEXTURE + clCONDITIONAL + clIFELSE)
        [mkInput "intest" "float" (some (.float 1)) none,
         mkInput "cutoff" "float" (some (.float 2)) none,
         mkInput "in1" "color3" none (some (1, 0)),
         mkInput "in2" "color3" (some (.str "green")) none]
        [mkOutput "out" "color3" [(0, 0)]])]
    [1, 2]

/-- The result of bypassing the fixture's compare node on branch 2. -/
def c3Bypassed : SgNodeGraph := exceptOr (bypass c3Graph 2 2 0) c3Graph

/-- Fixture for the switch folding claim: `switch` node 2 whose `which`
input carries a null literal; branch input 0 is driven by node 1. -/
def c4Graph : SgNodeGraph :=
  mkGraph
    (mkNode "g" 0 [mkInput "out" "color3" none (some (2, 0))] [])
    [(1, mkNode "a" clTEXTURE [] [mkOutput "out" "color3" [(2, 0)]]),
     (2, mkNode "sw" (clTEXTURE + clCONDITIONAL + clSWITCH)
        [mkInput "in1" "color3" none (some (1, 0)),
         mkInput "in2" "color3" (some (.str "b")) none,
         mkInput "which" "integer" none none]
        [mkOutput "out" "color3" [(0, 0)]])]
    [1, 2]

/-- The result of bypassing the fixture's switch node on branch 0. -/
def c4Bypassed : SgNodeGraph := exceptOr (bypass c4Graph 2 0 0) c4Graph

/-- Reachability along the edges the iterator follows: from an output,
step through any input of its owning node to the input's driving
output, provided that driver does not belong to the graph node (the
subgraph boundary). -/
inductive Reach (g : SgNodeGraph) : OutRef → OutRef → Prop
  | refl (a : OutRef) : Reach g a a
  | step (a b c : OutRef) (n : SgNode) (i : SgInput) :
      g.getAnyNode a.1 = some n → i ∈ n.inputOrder → i.connection = some b → b.1 ≠ 0 →
      Reach g b c → Reach g a c

/-- A node record with its used-closures set cleared, for stating that
two graphs differ only in used-closures bookkeeping. -/
def eraseUC (n : SgNode) : SgNode := { n with usedClosures := [] }

/-- Whether a node id resolves to a CLOSURE-classified node. -/
def closureB (g : SgNodeGraph) (id : NodeId) : Bool :=
  (g.getAnyNode id).any fun n => n.hasClassification clCLOSURE

/-- Fixture for the closure-tracking claim: shader node 2 draws from
closure node 1, which in turn draws from plain texture node 3; the
shader's output feeds the output socket. -/
def c8Graph : SgNodeGraph :=
  mkGraph
    (mkNode "g" 0 [mkInput "out" "surfaceshader" none (some (2, 0))] [])
    [(3, mkNode "tex" clTEXTURE [] [mkOutput "out" "color3" [(1, 0)]]),
     (1, mkNode "bsdf" clCLOSURE [mkInput "base" "color3" none (some (3, 0))]
        [mkOutput "out" "BSDF" [(2, 0)]]),
     (2, mkNode "srf" clSHADER [mkInput "bsdf" "BSDF" none (some (1, 0))]
        [mkOutput "out" "surfaceshader" [(0, 0)]])]
    [3, 1, 2]

/-- The fixture after the closure-tracking pass. -/
def c8Tracked : SgNodeGraph := exceptOr (trackClosures c8Graph) c8Graph

/-- An executable form of the clean-slate premise of the closure claim:
every node's used-closures set is empty. -/
def cleanUCB (g : SgNodeGraph) : Bool :=
  g.allIds.all fun id => (g.getAnyNode id).all fun n => n.usedClosures.isEmpty

/-- A node record with its scope cleared, for stating that two graphs
differ only in scope bookkeeping. -/
def eraseScope (n : SgNode) : SgNode := { n with scopeInfo := ScopeInfo.unknown }

/-- The scope record that `adjustAtConditionalInput` produces at branch
input 2 of an if/else conditional: SINGLE, that conditional, bitmask
`1 <<< 2` = 0b00100, full mask 0x12. -/
def singleScope (l : NodeId) : ScopeInfo :=
  { type := .SINGLE, conditionalNode := some l,
    conditionBitmask := 1 <<< 2, fullConditionMask := 0x12 }

/-- Fixture for the constant-elision claim: node 1 is a CONSTANT with a
literal value feeding the output socket; node 3 is a CONSTANT whose
value input is upstream-connected (to node 2) and whose output feeds
nothing. -/
def c2Graph : SgNodeGraph :=
  mkGraph (mkNode "g" 0 [mkInput "out" "color3" none (some (1, 0))] [])
    [(1, mkNode "c" (clTEXTURE + clCONSTANT)
        [mkInput "value" "color3" (some (.str "red")) none]
        [mkOutput "out" "color3" [(0, 0)]]),
     (2, mkNode "y" clTEXTURE [] [mkOutput "out" "color3" [(3, 0)]]),
     (3, mkNode "x" (clTEXTURE + clCONSTANT)
        [mkInput "value" "color3" (some (.str "blue")) (some (2, 0))]
        [mkOutput "out" "color3" []])]
    [1, 2, 3]

/-- The constant-elision fixture after `optimize`. -/
def c2Opt : SgNodeGraph := exceptOr (optimize c2Graph) c2Graph

/-- One node's output-name block of the collection the uniqueness claim
ranges over. -/
def nodeOutNameBlock (g : SgNodeGraph) (nid : NodeId) : List String :=
  match g.getAnyNode nid with
  | some n => n.outputOrder.map (fun o => o.name)
  | none => []

/-- The interior part of the collection: every node's output names, in
node order. -/
def interiorOutNames (g : SgNodeGraph) : List String :=
  (g.nodeOrder.map (nodeOutNameBlock g)).join

/-- The names the uniqueness claim ranges over: input sockets (the graph
node's outputs), output sockets (the graph node's inputs), and every
interior node's outputs, in node order. -/
def allPortNames (g : SgNodeGraph) : List String :=
  g.graphNode.outputOrder.map (fun o => o.name) ++
  g.graphNode.inputOrder.map (fun i => i.name) ++
  interiorOutNames g

/-- Executable well-formedness premises for the name claim — store
invariants only, with no restriction on the names themselves (names may
collide across nodes and sockets): the graph node's output map mirrors
its output array, its input-map keys are drawn from its input names,
every order entry resolves to an interior node whose output map mirrors
its output array, and the order is duplicate-free. -/
def wfNamesB (g : SgNodeGraph) : Bool :=
  ((List.range g.graphNode.outputOrder.length).all fun idx =>
    (g.graphNode.outputOrder.get? idx).all fun o =>
      strFind g.graphNode.outputMap o.name == some idx) &&
  (g.graphNode.inputMap.all fun p =>
    decide (p.1 ∈ g.graphNode.inputOrder.map (fun i => i.name))) &&
  decide g.nodeOrder.Nodup &&
  (g.nodeOrder.all fun nid =>
    decide (nid ≠ 0) &&
    (g.getAnyNode nid).isSome &&
    ((g.getAnyNode nid).all fun n =>
      (List.range n.outputOrder.length).all fun idx =>
        (n.outputOrder.get? idx).all fun o =>
          strFind n.outputMap o.name == some idx))

/-- Executable premise: no node carries an output whose
`<nodeName>_<outputName>` compound collides with another output name of
the same node.  Such a self-collision re-keys the node's output map
mid-loop and makes a later `renameOutput` hit the wrong output (see the
counterexample); names may still collide freely across nodes and with
the sockets. -/
def selfCompoundsFreshB (g : SgNodeGraph) : Bool :=
  g.nodeOrder.all fun nid =>
    (g.getAnyNode nid).all fun n =>
      n.outputOrder.all fun o =>
        decide ((n.name ++ "_" ++ o.name) ∉ n.outputOrder.map (fun o2 => o2.name))

/-- Fixture for the name claim: one input socket `uv`, one output
socket `out`, and an interior texture node with outputs `rgb` and `a`. -/
def c7Graph : SgNodeGraph :=
  mkGraph (mkNode "g" 0 [mkInput "out" "color3" none (some (1, 0))]
      [mkOutput "uv" "vector2" []])
    [(1, mkNode "tex" clTEXTURE []
        [mkOutput "rgb" "color3" [(0, 0)], mkOutput "a" "float" []])]
    [1]

/-- A concrete `makeUnique` used to witness the name claim: the result
starts with a `u_` marker and pads past every recorded name, so it is
always fresh for the set and never collides with the fixture's
pre-existing names. -/
def mkUniqueFresh (s : String) (st : List String) : String × List String :=
  let r := String.mk ('u' :: '_' ::
    (s.data ++ List.replicate ((st.map String.length).sum + 1) 'x'))
  (r, st ++ [r])

/-- Counterexample fixture for the name claim: node `A` has outputs
`x` and `A_x`, so the compound name for `x` is exactly the other
output's name — the in-loop re-keying then makes the rename for `A_x`
hit the wrong output. -/
def c7xGraph : SgNodeGraph :=
  mkGraph (mkNode "gx" 0 [] [])
    [(1, mkNode "A" clTEXTURE [] [mkOutput "x" "float" [], mkOutput "A_x" "float" []])]
    [1]

/-- A `makeUnique` model that returns the request itself whenever it is
not yet in the shared set, and otherwise decorates it via
`mkUniqueFresh` — the behaviour the spec describes for an
already-legal, not-yet-used name. -/
def mkUEcho (s : String) (st : List String) : String × List String :=
  if s ∈ st then mkUniqueFresh s st else (s, st ++ [s])

/-- The flattened downstream reference list of a node: every entry of
every output's `connections`, in order — exactly what the Kahn loop
walks for a popped node (SgNode.cpp:1177-1190). -/
def refsOf (n : SgNode) : List InRef :=
  (n.outputOrder.map (fun o => o.connections)).join

/-- The interior node ids, in `_nodeMap` order. -/
def keysOf (g : SgNodeGraph) : List NodeId :=
  g.nodeMap.map Prod.fst

/-- How many of the references target node `v`. -/
def refCnt (R : List InRef) (v : NodeId) : Nat :=
  R.countP (fun d => decide (d.1 = v))

/-- Number of downstream references from interior node `u` to node `v`. -/
def edgeCount (g : SgNodeGraph) (u v : NodeId) : Nat :=
  match findMap g.nodeMap u with
  | none => 0
  | some nu => refCnt (refsOf nu) v

/-- Number of downstream references into `v` from the nodes of `S`. -/
def edgesFrom (g : SgNodeGraph) (S : List NodeId) (v : NodeId) : Nat :=
  (S.map (fun u => edgeCount g u v)).sum

/-- Number of downstream references into `v` from all interior nodes. -/
def totalInto (g : SgNodeGraph) (v : NodeId) : Nat :=
  edgesFrom g (keysOf g) v

/-- The in-degree `topologicalSort` seeds for `v` (0 when absent). -/
def nodeIndeg (g : SgNodeGraph) (v : NodeId) : Nat :=
  match findMap g.nodeMap v with
  | none => 0
  | some nv => nv.interiorInDegree

/-- The order produced by the Kahn run inside `topologicalSort`. -/
def kahnOrder (g : SgNodeGraph) : List NodeId :=
  kahnLoop g (g.nodeMap.length + g.totalConnRefs + 1) (kahnInit g).1 (kahnInit g).2 []

/-- Fixture for the sort claim: node 1 is socket-driven (in-degree 0),
node 2 is driven by node 1 and feeds the output socket. -/
def c5Graph : SgNodeGraph :=
  mkGraph (mkNode "g5" 0 [mkInput "out" "color3" none (some (2, 0))]
      [mkOutput "uv" "vector2" [(1, 0)]])
    [(1, mkNode "a" clTEXTURE [mkInput "uv" "vector2" none (some (0, 0))]
        [mkOutput "o1" "color3" [(2, 0)]]),
     (2, mkNode "b" clTEXTURE [mkInput "in" "color3" none (some (1, 0))]
        [mkOutput "o2" "color3" [(0, 0)]])]
    []

/-! ### Lemmas: association lists and positional updates -/

theorem findMap_mapUpdate_same {α : Type} (m : List (Nat × α)) (id : Nat) (f : α → α) :
    findMap (mapUpdate m id f) id = (findMap m id).map f := by
  induction m with
  | nil => rfl
  | cons p rest ih =>
    obtain ⟨k, v⟩ := p
    by_cases h : k = id
    · simp [mapUpdate, findMap, h]
    · simp [mapUpdate, findMap, h, ih]

theorem findMap_mapUpdate_other {α : Type} (m : List (Nat × α)) (id id' : Nat) (f : α → α)
    (h : id' ≠ id) : findMap (mapUpdate m id f) id' = findMap m id' := by
  induction m with
  | nil => rfl
  | cons p rest ih =>
    obtain ⟨k, v⟩ := p
    by_cases hk : k = id
    · subst hk
      simp [mapUpdate, findMap, Ne.symm h]
    · by_cases hk' : k = id'
      · subst hk'
        simp [mapUpdate, findMap, hk]
      · simp [mapUpdate, findMap, hk, hk', ih]

theorem findMap_mem_keys {α : Type} {m : List (Nat × α)} {id : Nat} {v : α}
    (h : findMap m id = some v) : id ∈ m.map Prod.fst := by
  induction m with
  | nil => simp [findMap] at h
  | cons p rest ih =>
    obtain ⟨k, w⟩ := p
    by_cases hk : k = id
    · simp [hk]
    · simp [findMap, hk] at h
      simp [ih h]

theorem listModify_get? {α : Type} (l : List α) (i j : Nat) (f : α → α) :
    (listModify l i f).get? j = if i = j then (l.get? j).map f else l.get? j := by
  induction l generalizing i j with
  | nil => cases i <;> cases j <;> simp [listModify]
  | cons a rest ih =>
    cases i with
    | zero => cases j <;> simp [listModify]
    | succ i' =>
      cases j with
      | zero => simp [listModify]
      | succ j' => simpa [listModify] using ih i' j'

theorem listModify_getElem? {α : Type} (l : List α) (i j : Nat) (f : α → α) :
    (listModify l i f)[j]? = if i = j then (l[j]?).map f else l[j]? := by
  simpa [List.get?_eq_getElem?] using listModify_get? l i j f

theorem listModify_length {α : Type} (l : List α) (i : Nat) (f : α → α) :
    (listModify l i f).length = l.length := by
  induction l generalizing i with
  | nil => cases i <;> rfl
  | cons a rest ih =>
    cases i with
    | zero => rfl
    | succ i' => simp [listModify, ih]

/-! ### Lemmas: reads after writes on the graph store -/

theorem getAnyNode_updateNode_same (g : SgNodeGraph) (id : NodeId) (f : SgNode → SgNode) :
    (g.updateNode id f).getAnyNode id = (g.getAnyNode id).map f := by
  unfold SgNodeGraph.updateNode SgNodeGraph.getAnyNode
  by_cases h : id = 0
  · simp [h]
  · simp [h, findMap_mapUpdate_same]

theorem getAnyNode_updateNode_other (g : SgNodeGraph) (id id' : NodeId) (f : SgNode → SgNode)
    (h : id' ≠ id) : (g.updateNode id f).getAnyNode id' = g.getAnyNode id' := by
  unfold SgNodeGraph.updateNode SgNodeGraph.getAnyNode
  by_cases h0 : id = 0
  · subst h0
    simp [h]
  · by_cases h1 : id' = 0
    · simp [h0, h1]
    · simp [h0, h1, findMap_mapUpdate_other _ _ _ _ h]

theorem getAnyNode_updateNode (g : SgNodeGraph) (id id' : NodeId) (f : SgNode → SgNode) :
    (g.updateNode id f).getAnyNode id' =
      if id' = id then (g.getAnyNode id').map f else g.getAnyNode id' := by
  by_cases h : id' = id
  · subst h
    simp [getAnyNode_updateNode_same]
  · simp [h, getAnyNode_updateNode_other _ _ _ _ h]

theorem getInputPort_setInputPort (g : SgNodeGraph) (r r' : InRef) (f : SgInput → SgInput) :
    (g.setInputPort r f).getInputPort r' =
      if r' = r then (g.getInputPort r').map f else g.getInputPort r' := by
  obtain ⟨a, b⟩ := r
  obtain ⟨a', b'⟩ := r'
  unfold SgNodeGraph.setInputPort SgNodeGraph.getInputPort
  by_cases ha : a' = a
  · subst ha
    rw [getAnyNode_updateNode_same]
    cases hn : g.getAnyNode a' with
    | none => simp
    | some n =>
      by_cases hb : b' = b
      · subst hb
        simp [listModify_getElem?]
      · have hbb : ¬b = b' := fun hh => hb hh.symm
        simp [listModify_getElem?, hb, hbb]
  · rw [getAnyNode_updateNode_other _ _ _ _ ha]
    have : (a', b') ≠ (a, b) := by simp [ha]
    simp [this]

theorem getOutputPort_setInputPort (g : SgNodeGraph) (r : InRef) (s : OutRef)
    (f : SgInput → SgInput) : (g.setInputPort r f).getOutputPort s = g.getOutputPort s := by
  unfold SgNodeGraph.setInputPort SgNodeGraph.getOutputPort
  by_cases h : s.1 = r.1
  · rw [h, getAnyNode_updateNode_same]
    cases hn : g.getAnyNode r.1 <;> simp
  · rw [getAnyNode_updateNode_other _ _ _ _ h]

theorem getOutputPort_setOutputPort (g : SgNodeGraph) (r r' : OutRef) (f : SgOutput → SgOutput) :
    (g.setOutputPort r f).getOutputPort r' =
      if r' = r then (g.getOutputPort r').map f else g.getOutputPort r' := by
  obtain ⟨a, b⟩ := r
  obtain ⟨a', b'⟩ := r'
  unfold SgNodeGraph.setOutputPort SgNodeGraph.getOutputPort
  by_cases ha : a' = a
  · subst ha
    rw [getAnyNode_updateNode_same]
    cases hn : g.getAnyNode a' with
    | none => simp
    | some n =>
      by_cases hb : b' = b
      · subst hb
        simp [listModify_getElem?]
      · have hbb : ¬b = b' := fun hh => hb hh.symm
        simp [listModify_getElem?, hb, hbb]
  · rw [getAnyNode_updateNode_other _ _ _ _ ha]
    have : (a', b') ≠ (a, b) := by simp [ha]
    simp [this]

theorem getInputPort_setOutputPort (g : SgNodeGraph) (s : OutRef) (r : InRef)
    (f : SgOutput → SgOutput) : (g.setOutputPort s f).getInputPort r = g.getInputPort r := by
  unfold SgNodeGraph.setOutputPort SgNodeGraph.getInputPort
  by_cases h : r.1 = s.1
  · rw [h, getAnyNode_updateNode_same]
    cases hn : g.getAnyNode s.1 <;> simp
  · rw [getAnyNode_updateNode_other _ _ _ _ h]

theorem mem_insertInRef_self (r : InRef) (l : List InRef) : r ∈ insertInRef r l := by
  unfold insertInRef
  by_cases h : r ∈ l <;> simp [h]

theorem mem_insertInRef_of_mem {a : InRef} (b : InRef) {l : List InRef} (h : a ∈ l) :
    a ∈ insertInRef b l := by
  unfold insertInRef
  by_cases hb : b ∈ l <;> simp [hb, h]

theorem mem_insertInRef_iff (a b : InRef) (l : List InRef) :
    a ∈ insertInRef b l ↔ a ∈ l ∨ a = b := by
  unfold insertInRef
  by_cases hb : b ∈ l
  · simp only [if_pos hb]
    constructor
    · exact fun h => Or.inl h
    · rintro (h | h)
      · exact h
      · rwa [h]
  · simp [hb]

/-! ### Lemmas: the executable I1 check agrees with the proposition -/

theorem getAnyNode_mem_allIds {g : SgNodeGraph} {id : NodeId} {n : SgNode}
    (h : g.getAnyNode id = some n) : id ∈ g.allIds := by
  unfold SgNodeGraph.getAnyNode at h
  by_cases h0 : id = 0
  · simp [SgNodeGraph.allIds, h0]
  · rw [if_neg h0] at h
    simp [SgNodeGraph.allIds, findMap_mem_keys h]

theorem getInputPort_parts {g : SgNodeGraph} {r : InRef} {i : SgInput}
    (h : g.getInputPort r = some i) :
    ∃ n, g.getAnyNode r.1 = some n ∧ n.inputOrder.get? r.2 = some i := by
  unfold SgNodeGraph.getInputPort at h
  cases hn : g.getAnyNode r.1 with
  | none => rw [hn] at h; simp at h
  | some n =>
    rw [hn] at h
    simp at h
    exact ⟨n, rfl, by simpa using h⟩

theorem getOutputPort_parts {g : SgNodeGraph} {r : OutRef} {o : SgOutput}
    (h : g.getOutputPort r = some o) :
    ∃ n, g.getAnyNode r.1 = some n ∧ n.outputOrder.get? r.2 = some o := by
  unfold SgNodeGraph.getOutputPort at h
  cases hn : g.getAnyNode r.1 with
  | none => rw [hn] at h; simp at h
  | some n =>
    rw [hn] at h
    simp at h
    exact ⟨n, rfl, by simpa using h⟩

theorem connSym_of_connSymB {g : SgNodeGraph} (h : connSymB g = true) : ConnSym g := by
  unfold connSymB at h
  rw [List.all_eq_true] at h
  constructor
  · intro r i src hi hconn
    obtain ⟨n, hn, hget⟩ := getInputPort_parts hi
    have h1 := h r.1 (getAnyNode_mem_allIds hn)
    rw [hn, Option.all_some] at h1
    simp only [Bool.and_eq_true, List.all_eq_true] at h1
    have hb : r.2 ∈ List.range n.inputOrder.length := by
      rw [List.mem_range]
      exact (List.get?_eq_some.mp hget).1
    have h2 := h1.1 r.2 hb
    rw [hget, Option.all_some, hconn, Option.all_some] at h2
    cases ho : g.getOutputPort src with
    | none => rw [ho] at h2; simp at h2
    | some o =>
      rw [ho] at h2
      simp at h2
      exact ⟨o, rfl, h2⟩
  · intro s o r ho hr
    obtain ⟨n, hn, hget⟩ := getOutputPort_parts ho
    have h1 := h s.1 (getAnyNode_mem_allIds hn)
    rw [hn, Option.all_some] at h1
    simp only [Bool.and_eq_true, List.all_eq_true] at h1
    have hb : s.2 ∈ List.range n.outputOrder.length := by
      rw [List.mem_range]
      exact (List.get?_eq_some.mp hget).1
    have h2 := h1.2 s.2 hb
    rw [hget, Option.all_some, List.all_eq_true] at h2
    have h3 := h2 r hr
    cases hi : g.getInputPort r with
    | none => rw [hi] at h3; simp at h3
    | some i =>
      rw [hi] at h3
      simp at h3
      exact ⟨i, rfl, h3⟩

theorem connSymB_of_connSym {g : SgNodeGraph} (h : ConnSym g) : connSymB g = true := by
  unfold connSymB
  rw [List.all_eq_true]
  intro nid _
  cases hn : g.getAnyNode nid with
  | none => rfl
  | some n =>
    rw [Option.all_some]
    simp only [Bool.and_eq_true, List.all_eq_true]
    constructor
    · intro k _
      cases hget : n.inputOrder.get? k with
      | none => rfl
      | some i =>
        rw [Option.all_some]
        cases hconn : i.connection with
        | none => rfl
        | some src =>
          rw [Option.all_some]
          have hi : g.getInputPort (nid, k) = some i := by
            unfold SgNodeGraph.getInputPort
            rw [hn]
            simpa using hget
          obtain ⟨o, ho, hm⟩ := h.1 (nid, k) i src hi hconn
          rw [ho]
          simpa using hm
    · intro k _
      cases hget : n.outputOrder.get? k with
      | none => rfl
      | some o =>
        rw [Option.all_some, List.all_eq_true]
        intro d hd
        have ho : g.getOutputPort (nid, k) = some o := by
          unfold SgNodeGraph.getOutputPort
          rw [hn]
          simpa using hget
        obtain ⟨i, hi, hc⟩ := h.2 (nid, k) o d ho hd
        rw [hi]
        simpa using hc

/-! ### Lemmas: connection mutators and I1 -/

theorem connSym_inputMakeConnection (g : SgNodeGraph) (dst : InRef) (src : OutRef)
    (hsym : ConnSym g) (i : SgInput) (hi : g.getInputPort dst = some i)
    (hconn : i.connection = none) (o : SgOutput) (ho : g.getOutputPort src = some o) :
    ConnSym (inputMakeConnection g dst src) := by
  obtain ⟨hfwd, hbwd⟩ := hsym
  have hIn : ∀ r, (inputMakeConnection g dst src).getInputPort r =
      if r = dst then (g.getInputPort r).map (fun i2 => { i2 with connection := some src })
      else g.getInputPort r := by
    intro r
    unfold inputMakeConnection
    rw [getInputPort_setOutputPort, getInputPort_setInputPort]
  have hOut : ∀ s, (inputMakeConnection g dst src).getOutputPort s =
      if s = src then (g.getOutputPort s).map
        (fun o2 => { o2 with connections := insertInRef dst o2.connections })
      else g.getOutputPort s := by
    intro s
    unfold inputMakeConnection
    rw [getOutputPort_setOutputPort, getOutputPort_setInputPort]
  constructor
  · intro r i' src' hi' hc'
    rw [hIn] at hi'
    by_cases hr : r = dst
    · rw [if_pos hr, hr, hi] at hi'
      have hi2 : i' = { i with connection := some src } := by
        simpa using hi'.symm
      have hsrc : src' = src := by
        rw [hi2] at hc'
        simpa using hc'.symm
      refine ⟨{ o with connections := insertInRef dst o.connections }, ?_, ?_⟩
      · rw [hOut, hsrc, if_pos rfl, ho]
        rfl
      · rw [hr]
        exact mem_insertInRef_self _ _
    · rw [if_neg hr] at hi'
      obtain ⟨o0, ho0, hm0⟩ := hfwd r i' src' hi' hc'
      by_cases hs : src' = src
      · refine ⟨{ o0 with connections := insertInRef dst o0.connections }, ?_, ?_⟩
        · rw [hOut, if_pos hs, ho0]
          rfl
        · exact mem_insertInRef_of_mem _ hm0
      · exact ⟨o0, by rw [hOut, if_neg hs]; exact ho0, hm0⟩
  · intro s o' r' ho' hm'
    rw [hOut] at ho'
    by_cases hs : s = src
    · rw [if_pos hs, hs, ho] at ho'
      have ho2 : o' = { o with connections := insertInRef dst o.connections } := by
        simpa using ho'.symm
      have hm2 : r' ∈ insertInRef dst o.connections := by
        rw [ho2] at hm'
        exact hm'
      rw [mem_insertInRef_iff] at hm2
      rcases hm2 with hm2 | hm2
      · obtain ⟨i0, hi0, hc0⟩ := hbwd src o r' ho hm2
        have hr' : r' ≠ dst := by
          intro hEq
          rw [hEq, hi] at hi0
          injection hi0 with hh
          rw [← hh, hconn] at hc0
          exact Option.noConfusion hc0
        refine ⟨i0, by rw [hIn, if_neg hr']; exact hi0, by rw [hs]; exact hc0⟩
      · refine ⟨{ i with connection := some src }, ?_, by rw [hs]⟩
        rw [hIn, if_pos hm2, hm2, hi]
        rfl
    · rw [if_neg hs] at ho'
      obtain ⟨i0, hi0, hc0⟩ := hbwd s o' r' ho' hm'
      have hr' : r' ≠ dst := by
        intro hEq
        rw [hEq, hi] at hi0
        injection hi0 with hh
        rw [← hh, hconn] at hc0
        exact Option.noConfusion hc0
      exact ⟨i0, by rw [hIn, if_neg hr']; exact hi0, hc0⟩

theorem connSym_inputBreakConnection (g : SgNodeGraph) (dst : InRef) (hsym : ConnSym g) :
    ConnSym (inputBreakConnection g dst) := by
  obtain ⟨hfwd, hbwd⟩ := hsym
  cases hi : g.getInputPort dst with
  | none =>
    have he : inputBreakConnection g dst = g := by
      unfold inputBreakConnection
      simp only [hi]
    rw [he]
    exact ⟨hfwd, hbwd⟩
  | some i =>
    cases hconn : i.connection with
    | none =>
      have he : inputBreakConnection g dst = g := by
        unfold inputBreakConnection
        simp only [hi, hconn]
      rw [he]
      exact ⟨hfwd, hbwd⟩
    | some src =>
      have he : inputBreakConnection g dst =
          (g.setOutputPort src
            (fun o => { o with connections := o.connections.filter (fun d => d ≠ dst) })).setInputPort
            dst (fun i2 => { i2 with connection := none }) := by
        unfold inputBreakConnection
        simp only [hi, hconn]
      rw [he]
      have hIn : ∀ r, ((g.setOutputPort src
          (fun o => { o with connections := o.connections.filter (fun d => d ≠ dst) })).setInputPort
            dst (fun i2 => { i2 with connection := none })).getInputPort r =
          if r = dst then (g.getInputPort r).map (fun i2 => { i2 with connection := none })
          else g.getInputPort r := by
        intro r
        rw [getInputPort_setInputPort]
        by_cases hr : r = dst <;> simp [hr, getInputPort_setOutputPort]
      have hOut : ∀ s, ((g.setOutputPort src
          (fun o => { o with connections := o.connections.filter (fun d => d ≠ dst) })).setInputPort
            dst (fun i2 => { i2 with connection := none })).getOutputPort s =
          if s = src then (g.getOutputPort s).map
            (fun o => { o with connections := o.connections.filter (fun d => d ≠ dst) })
          else g.getOutputPort s := by
        intro s
        rw [getOutputPort_setInputPort, getOutputPort_setOutputPort]
      constructor
      · intro r i' src' hi' hc'
        rw [hIn] at hi'
        by_cases hr : r = dst
        · rw [if_pos hr, hr, hi] at hi'
          have hi2 : i' = { i with connection := none } := by
            simpa using hi'.symm
          rw [hi2] at hc'
          exact absurd hc' (by simp)
        · rw [if_neg hr] at hi'
          obtain ⟨o0, ho0, hm0⟩ := hfwd r i' src' hi' hc'
          by_cases hs : src' = src
          · refine ⟨{ o0 with connections := o0.connections.filter (fun d => d ≠ dst) }, ?_, ?_⟩
            · rw [hOut, if_pos hs, ho0]
              rfl
            · rw [List.mem_filter]
              exact ⟨hm0, by simp [hr]⟩
          · exact ⟨o0, by rw [hOut, if_neg hs]; exact ho0, hm0⟩
      · intro s o' r' ho' hm'
        rw [hOut] at ho'
        by_cases hs : s = src
        · cases hx : g.getOutputPort src with
          | none =>
            rw [if_pos hs, hs, hx] at ho'
            exact absurd ho' (by simp)
          | some ox =>
            rw [if_pos hs, hs, hx] at ho'
            have ho2 : o' = { ox with connections := ox.connections.filter (fun d => d ≠ dst) } := by
              simpa using ho'.symm
            have hm2 : r' ∈ ox.connections.filter (fun d => d ≠ dst) := by
              rw [ho2] at hm'
              exact hm'
            rw [List.mem_filter] at hm2
            obtain ⟨hm1, hm2b⟩ := hm2
            have hr' : r' ≠ dst := by simpa using hm2b
            obtain ⟨i0, hi0, hc0⟩ := hbwd src ox r' hx hm1
            refine ⟨i0, by rw [hIn, if_neg hr']; exact hi0, by rw [hs]; exact hc0⟩
        · rw [if_neg hs] at ho'
          obtain ⟨i0, hi0, hc0⟩ := hbwd s o' r' ho' hm'
          have hr' : r' ≠ dst := by
            intro hEq
            rw [hEq, hi] at hi0
            injection hi0 with hh
            rw [← hh, hconn] at hc0
            injection hc0 with hh2
            exact hs hh2.symm
          exact ⟨i0, by rw [hIn, if_neg hr']; exact hi0, hc0⟩

theorem outputMakeConnection_eq (g : SgNodeGraph) (src : OutRef) (dst : InRef) :
    outputMakeConnection g src dst = inputMakeConnection g dst src := rfl

theorem foldl_setConnNone_getInput (l : List InRef) (g : SgNodeGraph) (r : InRef) :
    (l.foldl (fun g2 d => g2.setInputPort d (fun i => { i with connection := none }))
        g).getInputPort r =
      if r ∈ l then (g.getInputPort r).map (fun i => { i with connection := none })
      else g.getInputPort r := by
  induction l generalizing g with
  | nil => simp
  | cons d rest ih =>
    rw [List.foldl_cons, ih, getInputPort_setInputPort]
    by_cases hd : r = d
    · by_cases hm : r ∈ rest
      · rw [if_pos hm, if_pos hd, if_pos (by simp [hd])]
        cases g.getInputPort r <;> rfl
      · rw [if_neg hm, if_pos hd, if_pos (by simp [hd])]
    · by_cases hm : r ∈ rest
      · rw [if_pos hm, if_neg hd, if_pos (by simp [hm])]
      · rw [if_neg hm, if_neg hd, if_neg (by simp [hd, hm])]

theorem foldl_setConnNone_getOutput (l : List InRef) (g : SgNodeGraph) (s : OutRef) :
    (l.foldl (fun g2 d => g2.setInputPort d (fun i => { i with connection := none }))
        g).getOutputPort s = g.getOutputPort s := by
  induction l generalizing g with
  | nil => rfl
  | cons d rest ih => rw [List.foldl_cons, ih, getOutputPort_setInputPort]

theorem connSym_outputBreakConnectionAll (g : SgNodeGraph) (src : OutRef) (hsym : ConnSym g) :
    ConnSym (outputBreakConnectionAll g src) := by
  obtain ⟨hfwd, hbwd⟩ := hsym
  cases ho : g.getOutputPort src with
  | none =>
    have he : outputBreakConnectionAll g src = g := by
      unfold outputBreakConnectionAll
      simp only [ho]
    rw [he]
    exact ⟨hfwd, hbwd⟩
  | some o =>
    have he : outputBreakConnectionAll g src =
        (o.connections.foldl
          (fun g2 d => g2.setInputPort d (fun i => { i with connection := none }))
          g).setOutputPort src (fun o2 => { o2 with connections := [] }) := by
      unfold outputBreakConnectionAll
      simp only [ho]
    rw [he]
    have hIn : ∀ r, ((o.connections.foldl
        (fun g2 d => g2.setInputPort d (fun i => { i with connection := none }))
        g).setOutputPort src (fun o2 => { o2 with connections := [] })).getInputPort r =
        if r ∈ o.connections then
          (g.getInputPort r).map (fun i => { i with connection := none })
        else g.getInputPort r := by
      intro r
      rw [getInputPort_setOutputPort, foldl_setConnNone_getInput]
    have hOut : ∀ s, ((o.connections.foldl
        (fun g2 d => g2.setInputPort d (fun i => { i with connection := none }))
        g).setOutputPort src (fun o2 => { o2 with connections := [] })).getOutputPort s =
        if s = src then (g.getOutputPort s).map (fun o2 => { o2 with connections := [] })
        else g.getOutputPort s := by
      intro s
      rw [getOutputPort_setOutputPort]
      by_cases hs : s = src
      · rw [if_pos hs, if_pos hs, foldl_setConnNone_getOutput]
      · rw [if_neg hs, if_neg hs, foldl_setConnNone_getOutput]
    constructor
    · intro r i' src' hi' hc'
      rw [hIn] at hi'
      by_cases hm : r ∈ o.connections
      · rw [if_pos hm] at hi'
        cases hx : g.getInputPort r with
        | none => rw [hx] at hi'; exact absurd hi' (by simp)
        | some ix =>
          rw [hx] at hi'
          have hi2 : i' = { ix with connection := none } := by simpa using hi'.symm
          rw [hi2] at hc'
          exact absurd hc' (by simp)
      · rw [if_neg hm] at hi'
        obtain ⟨o0, ho0, hm0⟩ := hfwd r i' src' hi' hc'
        by_cases hs : src' = src
        · rw [hs, ho] at ho0
          injection ho0 with hh
          rw [← hh] at hm0
          exact absurd hm0 hm
        · exact ⟨o0, by rw [hOut, if_neg hs]; exact ho0, hm0⟩
    · intro s o' r' ho' hm'
      rw [hOut] at ho'
      by_cases hs : s = src
      · rw [if_pos hs, hs, ho] at ho'
        have ho2 : o' = { o with connections := [] } := by simpa using ho'.symm
        rw [ho2] at hm'
        exact absurd hm' (by simp)
      · rw [if_neg hs] at ho'
        obtain ⟨i0, hi0, hc0⟩ := hbwd s o' r' ho' hm'
        have hr' : r' ∉ o.connections := by
          intro hmem
          obtain ⟨i1, hi1, hc1⟩ := hbwd src o r' ho hmem
          rw [hi0] at hi1
          injection hi1 with hh
          rw [← hh, hc0] at hc1
          injection hc1 with hh2
          exact hs hh2
        exact ⟨i0, by rw [hIn, if_neg hr']; exact hi0, hc0⟩

/-- Claim C1 — counterexample.  Starting from a symmetric state, two
successive `SgInput::makeConnection` calls on the same input leave the
first output's `connections` set still holding the input while the input
points at the second output: `makeConnection` does not break the
existing upstream connection first, and I1 is violated. -/
theorem claim1_counterexample :
    connSymB c1Graph = true ∧
    connSymB (inputMakeConnection (inputMakeConnection c1Graph (2, 0) (1, 0)) (2, 0) (1, 1)) =
      false ∧
    (inputMakeConnection (inputMakeConnection c1Graph (2, 0) (1, 0)) (2, 0)
        (1, 1)).getOutputPort (1, 0) = some (mkOutput "o1" "float" [(2, 0)]) :=
  ⟨by decide, by decide, by decide⟩

/-- Claim C1 (amended): `Input.connect` does not break an existing
upstream connection first; connection symmetry (I1) is preserved by
`Input.disconnect` and `Output.disconnectAll` unconditionally, and by
`Input.connect`/`Output.connect` whenever the input being connected is
currently unconnected (as all callers in the file arrange); none of the
four operations fails. -/
theorem claim1_theorem (g : SgNodeGraph) (hsym : connSymB g = true) :
    (∀ dst src i o, g.getInputPort dst = some i → i.connection = none →
        g.getOutputPort src = some o →
        connSymB (inputMakeConnection g dst src) = true ∧
        connSymB (outputMakeConnection g src dst) = true) ∧
    (∀ dst, connSymB (inputBreakConnection g dst) = true) ∧
    (∀ src, connSymB (outputBreakConnectionAll g src) = true) := by
  have h := connSym_of_connSymB hsym
  refine ⟨?_, ?_, ?_⟩
  · intro dst src i o hi hc ho
    constructor
    · exact connSymB_of_connSym (connSym_inputMakeConnection g dst src h i hi hc o ho)
    · rw [outputMakeConnection_eq]
      exact connSymB_of_connSym (connSym_inputMakeConnection g dst src h i hi hc o ho)
  · intro dst
    exact connSymB_of_connSym (connSym_inputBreakConnection g dst h)
  · intro src
    exact connSymB_of_connSym (connSym_outputBreakConnectionAll g src h)

/-- Claim C1 — witness: the amended theorem applied to the concrete
fixture. -/
theorem claim1_witness :
    connSymB c1Graph = true ∧
    connSymB (inputMakeConnection c1Graph (2, 0) (1, 0)) = true ∧
    connSymB (inputBreakConnection c1Graph (2, 0)) = true :=
  ⟨by decide,
   ((claim1_theorem c1Graph (by decide)).1 (2, 0) (1, 0) (mkInput "i" "float" none none)
     (mkOutput "o1" "float" []) (by decide) (by decide) (by decide)).1,
   (claim1_theorem c1Graph (by decide)).2.1 (2, 0)⟩

theorem updateNode_nodeOrder (g : SgNodeGraph) (id : NodeId) (f : SgNode → SgNode) :
    (g.updateNode id f).nodeOrder = g.nodeOrder := by
  unfold SgNodeGraph.updateNode
  by_cases h : id = 0 <;> simp [h]

theorem mapUpdate_keys {α : Type} (m : List (Nat × α)) (id : Nat) (f : α → α) :
    (mapUpdate m id f).map Prod.fst = m.map Prod.fst := by
  induction m with
  | nil => rfl
  | cons p rest ih =>
    obtain ⟨k, v⟩ := p
    by_cases h : k = id <;> simp [mapUpdate, h, ih]

theorem mapUpdate_names (m : List (NodeId × SgNode)) (id : NodeId) (f : SgNode → SgNode)
    (hf : ∀ v, (f v).name = v.name) :
    (mapUpdate m id f).map (fun p => p.2.name) = m.map (fun p => p.2.name) := by
  induction m with
  | nil => rfl
  | cons p rest ih =>
    obtain ⟨k, v⟩ := p
    by_cases h : k = id <;> simp [mapUpdate, h, ih, hf]

theorem updateNode_keys (g : SgNodeGraph) (id : NodeId) (f : SgNode → SgNode) :
    (g.updateNode id f).nodeMap.map Prod.fst = g.nodeMap.map Prod.fst := by
  unfold SgNodeGraph.updateNode
  by_cases h : id = 0 <;> simp [h, mapUpdate_keys]

theorem updateNode_names (g : SgNodeGraph) (id : NodeId) (f : SgNode → SgNode)
    (hf : ∀ v, (f v).name = v.name) :
    (g.updateNode id f).nodeMap.map (fun p => p.2.name) =
      g.nodeMap.map (fun p => p.2.name) := by
  unfold SgNodeGraph.updateNode
  by_cases h : id = 0 <;> simp [h, mapUpdate_names _ _ _ hf]

/-- Claim C9: default-geometry-node insertion is idempotent per geomprop
name.  When a node named `default_<geompropName>` already exists,
`addDefaultGeomNode` connects the input to that node's primary output
and adds no node: the node ids, the node names, and the node order are
unchanged, so the graph never acquires a second default geometry node
for the same geomprop name, and every input handled this way shares the
same upstream output `(nid, 0)`. -/
theorem claim9_theorem (g : SgNodeGraph) (inputRef : InRef) (gp : GeomProp)
    (nodeDefLookup : String → Option SgNode) (freshId : NodeId) (nid : NodeId) (node : SgNode)
    (hex : g.getNodeByName ("default_" ++ gp.name) = some (nid, node)) :
    addDefaultGeomNode g inputRef gp nodeDefLookup freshId =
      Except.ok (inputMakeConnection g inputRef (nid, 0)) ∧
    (inputMakeConnection g inputRef (nid, 0)).nodeMap.map Prod.fst =
      g.nodeMap.map Prod.fst ∧
    (inputMakeConnection g inputRef (nid, 0)).nodeMap.map (fun p => p.2.name) =
      g.nodeMap.map (fun p => p.2.name) ∧
    (inputMakeConnection g inputRef (nid, 0)).nodeOrder = g.nodeOrder ∧
    (∀ i, g.getInputPort inputRef = some i →
      (inputMakeConnection g inputRef (nid, 0)).getInputPort inputRef =
        some { i with connection := some (nid, 0) }) := by
  refine ⟨?_, ?_, ?_, ?_, ?_⟩
  · unfold addDefaultGeomNode
    simp only [hex]
    rfl
  · unfold inputMakeConnection SgNodeGraph.setInputPort SgNodeGraph.setOutputPort
    rw [updateNode_keys, updateNode_keys]
  · unfold inputMakeConnection SgNodeGraph.setInputPort SgNodeGraph.setOutputPort
    rw [updateNode_names, updateNode_names] <;> intro v <;> rfl
  · unfold inputMakeConnection SgNodeGraph.setInputPort SgNodeGraph.setOutputPort
    rw [updateNode_nodeOrder, updateNode_nodeOrder]
  · intro i hi
    unfold inputMakeConnection
    rw [getInputPort_setOutputPort, getInputPort_setInputPort, if_pos rfl, hi]
    rfl

/-- Claim C9 — witness: the theorem applied to the concrete fixture. -/
theorem claim9_witness :
    c9Graph.getNodeByName ("default_" ++ c9GeomProp.name) =
      some (1, mkNode "default_texcoord" 0 [] [mkOutput "out" "vector2" []]) ∧
    addDefaultGeomNode c9Graph (2, 0) c9GeomProp (fun _ => none) 99 =
      Except.ok (inputMakeConnection c9Graph (2, 0) (1, 0)) :=
  ⟨by decide,
   (claim9_theorem c9Graph (2, 0) c9GeomProp (fun _ => none) 99 1
     (mkNode "default_texcoord" 0 [] [mkOutput "out" "vector2" []]) (by decide)).1⟩

/-- Claim C10: color-transform insertion never raises on a missing
transform definition.  When no nodedef named
`ND_<colorTransform>_<outputType>` exists for the driven output's type,
`addColorTransformNode` returns the graph unchanged (no node added, no
connection changed) instead of raising. -/
theorem claim10_theorem (g : SgNodeGraph) (outputRef : OutRef) (colorTransform : String)
    (nodeDefLookup : String → Option SgNode) (freshId : NodeId) (out : SgOutput)
    (ho : g.getOutputPort outputRef = some out) (onode : SgNode)
    (hn : g.getAnyNode outputRef.1 = some onode)
    (hmiss : nodeDefLookup ("ND_" ++ colorTransform ++ "_" ++ out.type) = none) :
    addColorTransformNode g outputRef colorTransform nodeDefLookup freshId = Except.ok g := by
  unfold addColorTransformNode
  simp only [ho, hn, exc, bind, Except.bind, hmiss]
  rfl

/-- Claim C10 — witness: the theorem applied to the concrete fixture. -/
theorem claim10_witness :
    c10Graph.getOutputPort (1, 0) = some (mkOutput "out" "color3" []) ∧
    addColorTransformNode c10Graph (1, 0) "srgb_linear" (fun _ => none) 2 = Except.ok c10Graph :=
  ⟨by decide,
   claim10_theorem c10Graph (1, 0) "srgb_linear" (fun _ => none) 2
     (mkOutput "out" "color3" []) (by decide)
     (mkNode "img" 0 [] [mkOutput "out" "color3" []]) (by decide) (by decide)⟩

/-! ### Lemmas: bypass re-routing -/

theorem foldl_bypassConn_getInput (upstream srcRef : OutRef) (l : List InRef)
    (g : SgNodeGraph) (r : InRef) :
    (l.foldl (fun g2 d =>
        inputMakeConnection (outputBreakConnectionOne g2 srcRef d) d upstream) g).getInputPort r =
      if r ∈ l then (g.getInputPort r).map (fun i => { i with connection := some upstream })
      else g.getInputPort r := by
  induction l generalizing g with
  | nil => simp
  | cons d rest ih =>
    rw [List.foldl_cons, ih]
    have hstep : ∀ r', (inputMakeConnection (outputBreakConnectionOne g srcRef d) d
        upstream).getInputPort r' =
        if r' = d then (g.getInputPort r').map (fun i => { i with connection := some upstream })
        else g.getInputPort r' := by
      intro r'
      unfold inputMakeConnection outputBreakConnectionOne
      simp only [getInputPort_setOutputPort, getInputPort_setInputPort]
      by_cases hd : r' = d
      · simp only [if_pos hd]
        cases g.getInputPort r' <;> rfl
      · simp only [if_neg hd]
    rw [hstep]
    by_cases hd : r = d
    · by_cases hm : r ∈ rest
      · rw [if_pos hm, if_pos hd, if_pos (by simp [hd])]
        cases g.getInputPort r <;> rfl
      · rw [if_neg hm, if_pos hd, if_pos (by simp [hd])]
    · by_cases hm : r ∈ rest
      · rw [if_pos hm, if_neg hd, if_pos (by simp [hm])]
      · rw [if_neg hm, if_neg hd, if_neg (by simp [hd, hm])]

theorem foldl_bypassValue_getInput (v : Option SgValue) (srcRef : OutRef) (l : List InRef)
    (g : SgNodeGraph) (r : InRef) :
    (l.foldl (fun g2 d =>
        (outputBreakConnectionOne g2 srcRef d).setInputPort d
          (fun i => { i with value := v })) g).getInputPort r =
      if r ∈ l then (g.getInputPort r).map (fun i => { i with connection := none, value := v })
      else g.getInputPort r := by
  induction l generalizing g with
  | nil => simp
  | cons d rest ih =>
    rw [List.foldl_cons, ih]
    have hstep : ∀ r', ((outputBreakConnectionOne g srcRef d).setInputPort d
        (fun i => { i with value := v })).getInputPort r' =
        if r' = d then
          (g.getInputPort r').map (fun i => { i with connection := none, value := v })
        else g.getInputPort r' := by
      intro r'
      unfold outputBreakConnectionOne
      simp only [getInputPort_setOutputPort, getInputPort_setInputPort]
      by_cases hd : r' = d
      · simp only [if_pos hd]
        cases g.getInputPort r' <;> rfl
      · simp only [if_neg hd]
    rw [hstep]
    by_cases hd : r = d
    · by_cases hm : r ∈ rest
      · rw [if_pos hm, if_pos hd, if_pos (by simp [hd])]
        cases g.getInputPort r <;> rfl
      · rw [if_neg hm, if_pos hd, if_pos (by simp [hd])]
    · by_cases hm : r ∈ rest
      · rw [if_pos hm, if_neg hd, if_pos (by simp [hm])]
      · rw [if_neg hm, if_neg hd, if_neg (by simp [hd, hm])]

/-- What `bypass` does to each downstream input, packaged for the
optimizer claims.  The bypassed result exists and re-routes every
downstream input of the chosen output: to the branch input's upstream
when connected, otherwise it copies the branch input's value. -/
theorem bypass_spec (g : SgNodeGraph) (nid : NodeId) (inputIndex : Nat) (node : SgNode)
    (hn : g.getAnyNode nid = some node) (input : SgInput)
    (hin : node.inputOrder.get? inputIndex = some input) (output : SgOutput)
    (hout : node.outputOrder.get? 0 = some output) :
    ∃ g', bypass g nid inputIndex 0 = Except.ok g' ∧
      (∀ up, input.connection = some up →
        ∀ d ∈ output.connections,
          g'.getInputPort d =
            (g.getInputPort d).map (fun i => { i with connection := some up })) ∧
      (input.connection = none →
        ∀ d ∈ output.connections,
          g'.getInputPort d =
            (g.getInputPort d).map
              (fun i => { i with connection := none, value := input.value })) := by
  cases hc : input.connection with
  | some up =>
    refine ⟨output.connections.foldl (fun g2 d =>
        inputMakeConnection (outputBreakConnectionOne g2 (nid, 0) d) d up) g, ?_, ?_, ?_⟩
    · unfold bypass
      simp only [hn, exc, bind, Except.bind, hin, hout, hc]
      rfl
    · intro up' hup' d hd
      injection hup' with hup'
      subst hup'
      rw [foldl_bypassConn_getInput, if_pos hd]
    · intro hnone
      exact absurd hnone (by simp)
  | none =>
    refine ⟨output.connections.foldl (fun g2 d =>
        (outputBreakConnectionOne g2 (nid, 0) d).setInputPort d
          (fun i => { i with value := input.value })) g, ?_, ?_, ?_⟩
    · unfold bypass
      simp only [hn, exc, bind, Except.bind, hin, hout, hc]
      rfl
    · intro up' hup'
      exact absurd hup' (by simp)
    · intro _ d hd
      rw [foldl_bypassValue_getInput, if_pos hd]

/-- Claim C3: during `optimize`, an IFELSE (`compare`) node whose
`intest` input is unconnected or driven by a CONSTANT node is bypassed
on branch input index 2 when the literal test value is at most the
`cutoff` literal and on branch input index 3 otherwise (a missing test
literal is treated as 0.0), so every downstream consumer of the node's
output ends up connected to the taken branch's upstream, or valued from
the taken branch's literal. -/
theorem claim3_theorem (g : SgNodeGraph) (nid : NodeId) (node : SgNode)
    (hn : g.getAnyNode nid = some node)
    (hclsC : node.hasClassification clCONSTANT = false)
    (hclsIf : node.hasClassification clIFELSE = true)
    (intest : SgInput) (hintest : node.getInputByName "intest" = some intest)
    (cutoff : SgInput) (hcut : node.getInputByName "cutoff" = some cutoff)
    (c : Rat) (hcutv : cutoff.value = some (.float c))
    (tl : Option SgValue)
    (htl : (intest.connection = none ∧ tl = intest.value) ∨
      (∃ src srcNode, intest.connection = some src ∧ g.getAnyNode src.1 = some srcNode ∧
        srcNode.hasClassification clCONSTANT = true ∧
        ∃ srcInput, srcNode.inputOrder.get? 0 = some srcInput ∧ tl = srcInput.value))
    (t : Rat) (htv : (tl = none ∧ t = 0) ∨ tl = some (.float t))
    (branchInput : SgInput)
    (hbi : node.inputOrder.get? (if t ≤ c then 2 else 3) = some branchInput)
    (output : SgOutput) (hout : node.outputOrder.get? 0 = some output) :
    ∃ g', optimizeNodeStep g nid = Except.ok (g', true) ∧
      bypass g nid (if t ≤ c then 2 else 3) 0 = Except.ok g' ∧
      (∀ up, branchInput.connection = some up →
        ∀ d ∈ output.connections,
          g'.getInputPort d =
            (g.getInputPort d).map (fun i => { i with connection := some up })) ∧
      (branchInput.connection = none →
        ∀ d ∈ output.connections,
          g'.getInputPort d =
            (g.getInputPort d).map
              (fun i => { i with connection := none, value := branchInput.value })) := by
  obtain ⟨g', hbp, hconn', hval'⟩ := bypass_spec g nid (if t ≤ c then 2 else 3) node hn
    branchInput hbi output hout
  refine ⟨g', ?_, hbp, hconn', hval'⟩
  unfold optimizeNodeStep
  rcases htv with ⟨htl0, ht0⟩ | htlf
  · subst ht0
    rcases htl with ⟨hcn, htlv⟩ | ⟨src, srcNode, hcs, hsn, hscls, srcInput, hsi, htlv⟩
    · have hiv : intest.value = none := htlv.symm.trans htl0
      simp only [hn, exc, bind, Except.bind, pure, Except.pure, hclsC, hclsIf, hintest, hcn,
        hcut, hcutv, hiv, asFloat, Bool.false_eq_true, ite_false, ite_true, if_false, if_true]
      rw [hbp]
    · have hsv : srcInput.value = none := htlv.symm.trans htl0
      simp only [hn, exc, bind, Except.bind, pure, Except.pure, hclsC, hclsIf, hintest, hcs,
        hsn, hscls, hsi, hcut, hcutv, hsv, asFloat, Bool.false_eq_true, ite_false, ite_true,
        if_false, if_true]
      rw [hbp]
  · rcases htl with ⟨hcn, htlv⟩ | ⟨src, srcNode, hcs, hsn, hscls, srcInput, hsi, htlv⟩
    · have hiv : intest.value = some (.float t) := htlv.symm.trans htlf
      simp only [hn, exc, bind, Except.bind, pure, Except.pure, hclsC, hclsIf, hintest, hcn,
        hcut, hcutv, hiv, asFloat, Bool.false_eq_true, ite_false, ite_true, if_false, if_true]
      rw [hbp]
    · have hsv : srcInput.value = some (.float t) := htlv.symm.trans htlf
      simp only [hn, exc, bind, Except.bind, pure, Except.pure, hclsC, hclsIf, hintest, hcs,
        hsn, hscls, hsi, hcut, hcutv, hsv, asFloat, Bool.false_eq_true, ite_false, ite_true,
        if_false, if_true]
      rw [hbp]

/-- Claim C3 — witness: the theorem applied to the concrete fixture;
with test literal 1 and cutoff 2 branch 2 is taken, and the output
socket ends up connected to the branch-2 upstream. -/
theorem claim3_witness :
    optimizeNodeStep c3Graph 2 = Except.ok (c3Bypassed, true) ∧
    c3Bypassed.getInputPort (0, 0) = some (mkInput "out" "color3" none (some (1, 0))) := by
  obtain ⟨g', h1, h2, h3, h4⟩ := claim3_theorem c3Graph 2
    (mkNode "cmp" (clTEXTURE + clCONDITIONAL + clIFELSE)
      [mkInput "intest" "float" (some (.float 1)) none,
       mkInput "cutoff" "float" (some (.float 2)) none,
       mkInput "in1" "color3" none (some (1, 0)),
       mkInput "in2" "color3" (some (.str "green")) none]
      [mkOutput "out" "color3" [(0, 0)]])
    (by decide) (by decide) (by decide)
    (mkInput "intest" "float" (some (.float 1)) none) (by decide)
    (mkInput "cutoff" "float" (some (.float 2)) none) (by decide)
    2 (by decide)
    (some (.float 1)) (Or.inl ⟨by decide, by decide⟩)
    1 (Or.inr (by decide))
    (mkInput "in1" "color3" none (some (1, 0))) (by decide)
    (mkOutput "out" "color3" [(0, 0)]) (by decide)
  have hb2 : (if (1 : Rat) ≤ (2 : Rat) then 2 else 3) = 2 := by decide
  rw [hb2] at h2
  have hg : c3Bypassed = g' := by
    unfold c3Bypassed exceptOr
    rw [h2]
  constructor
  · rw [hg]
    exact h1
  · rw [hg, h3 (1, 0) (by decide) (0, 0) (by decide)]
    decide

/-- Claim C4: during `optimize`, a SWITCH node whose `which` input is
unconnected or driven by a CONSTANT node is bypassed on the branch input
whose index equals the literal value of `which`, interpreted as bool,
float, or int according to the input's declared type; a null literal
selects branch index 0 rather than raising.  Every downstream consumer
of the node's output ends up connected to (or valued from) the taken
branch. -/
theorem claim4_theorem (g : SgNodeGraph) (nid : NodeId) (node : SgNode)
    (hn : g.getAnyNode nid = some node)
    (hclsC : node.hasClassification clCONSTANT = false)
    (hclsIf : node.hasClassification clIFELSE = false)
    (hclsSw : node.hasClassification clSWITCH = true)
    (which : SgInput) (hwhich : node.getInputByName "which" = some which)
    (wl : Option SgValue)
    (hwl : (which.connection = none ∧ wl = which.value) ∨
      (∃ src srcNode, which.connection = some src ∧ g.getAnyNode src.1 = some srcNode ∧
        srcNode.hasClassification clCONSTANT = true ∧
        ∃ srcInput, srcNode.inputOrder.get? 0 = some srcInput ∧ wl = srcInput.value))
    (bi : Int)
    (hbid : (wl = none ∧ bi = 0) ∨
      (which.type = typeBOOLEAN ∧ ∃ b, wl = some (.boolean b) ∧ bi = if b then 1 else 0) ∨
      (which.type = typeFLOAT ∧ ∃ q, wl = some (.float q) ∧ bi = truncRat q) ∨
      (which.type ≠ typeBOOLEAN ∧ which.type ≠ typeFLOAT ∧
        ∃ iv, wl = some (.integer iv) ∧ bi = iv))
    (hpos : 0 ≤ bi)
    (branchInput : SgInput) (hbi : node.inputOrder.get? bi.toNat = some branchInput)
    (output : SgOutput) (hout : node.outputOrder.get? 0 = some output) :
    ∃ g', optimizeNodeStep g nid = Except.ok (g', true) ∧
      bypass g nid bi.toNat 0 = Except.ok g' ∧
      (∀ up, branchInput.connection = some up →
        ∀ d ∈ output.connections,
          g'.getInputPort d =
            (g.getInputPort d).map (fun i => { i with connection := some up })) ∧
      (branchInput.connection = none →
        ∀ d ∈ output.connections,
          g'.getInputPort d =
            (g.getInputPort d).map
              (fun i => { i with connection := none, value := branchInput.value })) := by
  obtain ⟨g', hbp, hconn', hval'⟩ := bypass_spec g nid bi.toNat node hn branchInput hbi
    output hout
  refine ⟨g', ?_, hbp, hconn', hval'⟩
  unfold optimizeNodeStep
  rcases hwl with ⟨hcn, hwlv⟩ | ⟨src, srcNode, hcs, hsn, hscls, srcInput, hsi, hwlv⟩
  · simp only [hn, exc, bind, Except.bind, pure, Except.pure, hclsC, hclsIf, hclsSw, hwhich,
      hcn, Bool.false_eq_true, ite_false, ite_true]
    rw [← hwlv]
    rcases hbid with ⟨hwl0, hbi0⟩ | ⟨hty, b, hwlb, hbib⟩ | ⟨hty, q, hwlq, hbiq⟩ |
      ⟨hty1, hty2, iv, hwli, hbii⟩
    · subst hbi0
      simp only [hwl0, bind, Except.bind, pure, Except.pure]
      rw [if_neg (by decide : ¬((0 : Int) < 0)), hbp]
    · subst hbib
      simp only [hwlb, hty, asBool, bind, Except.bind, pure, Except.pure, eq_self_iff_true,
        ite_true]
      rw [if_neg (not_lt.mpr hpos), hbp]
    · subst hbiq
      have hneBF := eq_false (show ¬(typeFLOAT = typeBOOLEAN) by decide)
      simp only [hwlq, hty, hneBF, asFloat, bind, Except.bind, pure, Except.pure,
        eq_self_iff_true, ite_true, ite_false]
      rw [if_neg (not_lt.mpr hpos), hbp]
    · subst hbii
      have hne1 := eq_false hty1
      have hne2 := eq_false hty2
      simp only [hwli, hne1, hne2, asInt, bind, Except.bind, pure, Except.pure, ite_false]
      rw [if_neg (not_lt.mpr hpos), hbp]
  · simp only [hn, exc, bind, Except.bind, pure, Except.pure, hclsC, hclsIf, hclsSw, hwhich,
      hcs, hsn, hscls, hsi, Bool.false_eq_true, ite_false, ite_true]
    rw [← hwlv]
    rcases hbid with ⟨hwl0, hbi0⟩ | ⟨hty, b, hwlb, hbib⟩ | ⟨hty, q, hwlq, hbiq⟩ |
      ⟨hty1, hty2, iv, hwli, hbii⟩
    · subst hbi0
      simp only [hwl0, bind, Except.bind, pure, Except.pure]
      rw [if_neg (by decide : ¬((0 : Int) < 0)), hbp]
    · subst hbib
      simp only [hwlb, hty, asBool, bind, Except.bind, pure, Except.pure, eq_self_iff_true,
        ite_true]
      rw [if_neg (not_lt.mpr hpos), hbp]
    · subst hbiq
      have hneBF := eq_false (show ¬(typeFLOAT = typeBOOLEAN) by decide)
      simp only [hwlq, hty, hneBF, asFloat, bind, Except.bind, pure, Except.pure,
        eq_self_iff_true, ite_true, ite_false]
      rw [if_neg (not_lt.mpr hpos), hbp]
    · subst hbii
      have hne1 := eq_false hty1
      have hne2 := eq_false hty2
      simp only [hwli, hne1, hne2, asInt, bind, Except.bind, pure, Except.pure, ite_false]
      rw [if_neg (not_lt.mpr hpos), hbp]

/-- Claim C4 — witness: the theorem applied to the concrete fixture; a
null `which` literal selects branch 0, and the output socket ends up
connected to the branch-0 upstream. -/
theorem claim4_witness :
    optimizeNodeStep c4Graph 2 = Except.ok (c4Bypassed, true) ∧
    c4Bypassed.getInputPort (0, 0) = some (mkInput "out" "color3" none (some (1, 0))) := by
  obtain ⟨g', h1, h2, h3, h4⟩ := claim4_theorem c4Graph 2
    (mkNode "sw" (clTEXTURE + clCONDITIONAL + clSWITCH)
      [mkInput "in1" "color3" none (some (1, 0)),
       mkInput "in2" "color3" (some (.str "b")) none,
       mkInput "which" "integer" none none]
      [mkOutput "out" "color3" [(0, 0)]])
    (by decide) (by decide) (by decide) (by decide)
    (mkInput "which" "integer" none none) (by decide)
    none (Or.inl ⟨by decide, by decide⟩)
    0 (Or.inl ⟨by decide, by decide⟩) (by decide)
    (mkInput "in1" "color3" none (some (1, 0))) (by decide)
    (mkOutput "out" "color3" [(0, 0)]) (by decide)
  have hg : c4Bypassed = g' := by
    unfold c4Bypassed exceptOr
    rw [show ((0 : Int).toNat) = 0 from rfl] at h2
    rw [h2]
  constructor
  · rw [hg]
    exact h1
  · rw [hg, h3 (1, 0) (by decide) (0, 0) (by decide)]
    decide

/-! ### Lemmas: the edge iterator yields exactly the reachable outputs -/

theorem visitUpstream_sound (g : SgNodeGraph) : ∀ (fuel : Nat) (path : List OutRef)
    (out : OutRef) (l : List OutRef),
    visitUpstream g fuel path out = Except.ok l → ∀ y ∈ l, Reach g out y := by
  intro fuel
  induction fuel with
  | zero =>
    intro path out l h
    exact absurd h (by simp [visitUpstream])
  | succ fuel ih =>
    have ihList : ∀ (inputs : List SgInput) (path : List OutRef) (l : List OutRef),
        visitList (visitUpstream g fuel) path inputs = Except.ok l →
        ∀ y ∈ l, ∃ i ∈ inputs, ∃ b, i.connection = some b ∧ b.1 ≠ 0 ∧ Reach g b y := by
      intro inputs
      induction inputs with
      | nil =>
        intro path l h y hy
        have hl : l = [] := by
          simpa [visitList, pure, Except.pure] using h.symm
        rw [hl] at hy
        simp at hy
      | cons i is ihl =>
        intro path l h y hy
        cases hc : i.connection with
        | none =>
          simp only [visitList, hc] at h
          obtain ⟨i2, hi2, hrest⟩ := ihl path l h y hy
          exact ⟨i2, List.mem_cons_of_mem _ hi2, hrest⟩
        | some b =>
          simp only [visitList, hc] at h
          by_cases hb0 : b.1 = 0
          · rw [if_pos hb0] at h
            obtain ⟨i2, hi2, hrest⟩ := ihl path l h y hy
            exact ⟨i2, List.mem_cons_of_mem _ hi2, hrest⟩
          · rw [if_neg hb0] at h
            by_cases hp : b ∈ path
            · rw [if_pos hp] at h
              exact absurd h (by simp)
            · rw [if_neg hp] at h
              cases hv1 : visitUpstream g fuel (b :: path) b with
              | error e =>
                rw [hv1] at h
                exact absurd h (by simp [bind, Except.bind])
              | ok l1 =>
                cases hv2 : visitList (visitUpstream g fuel) path is with
                | error e =>
                  rw [hv1, hv2] at h
                  exact absurd h (by simp [bind, Except.bind])
                | ok l2 =>
                  rw [hv1, hv2] at h
                  have hl : l = l1 ++ l2 := by
                    simpa [bind, Except.bind, pure, Except.pure] using h.symm
                  rw [hl] at hy
                  rcases List.mem_append.mp hy with hy1 | hy2
                  · exact ⟨i, List.mem_cons_self _ _, b, hc, hb0,
                      ih (b :: path) b l1 hv1 y hy1⟩
                  · obtain ⟨i2, hi2, hrest⟩ := ihl path l2 hv2 y hy2
                    exact ⟨i2, List.mem_cons_of_mem _ hi2, hrest⟩
    intro path out l h
    cases hn : g.getAnyNode out.1 with
    | none => simp [visitUpstream, hn] at h
    | some n =>
      simp only [visitUpstream, hn] at h
      cases hv : visitList (visitUpstream g fuel) path n.inputOrder with
      | error e =>
        rw [hv] at h
        exact absurd h (by simp [bind, Except.bind])
      | ok rest =>
        rw [hv] at h
        have hl : l = out :: rest := by
          simpa [bind, Except.bind, pure, Except.pure] using h.symm
        rw [hl]
        intro y hy
        rcases List.mem_cons.mp hy with hy0 | hyr
        · rw [hy0]
          exact Reach.refl out
        · obtain ⟨i, hi, b, hcb, hb0, hr⟩ := ihList n.inputOrder path rest hv y hyr
          exact Reach.step out b y n i hn hi hcb hb0 hr

theorem visitUpstream_complete (g : SgNodeGraph) : ∀ (fuel : Nat) (path : List OutRef)
    (out : OutRef) (l : List OutRef), visitUpstream g fuel path out = Except.ok l →
    ∀ y, Reach g out y → y ∈ l := by
  intro fuel
  induction fuel with
  | zero =>
    intro path out l h
    exact absurd h (by simp [visitUpstream])
  | succ fuel ih =>
    have ihList : ∀ (inputs : List SgInput) (path : List OutRef) (l : List OutRef),
        visitList (visitUpstream g fuel) path inputs = Except.ok l →
        ∀ i ∈ inputs, ∀ b, i.connection = some b → b.1 ≠ 0 →
        ∀ y, Reach g b y → y ∈ l := by
      intro inputs
      induction inputs with
      | nil =>
        intro path l h i hi
        simp at hi
      | cons i0 is ihl =>
        intro path l h i hi b hcb hb0 y hr
        rcases List.mem_cons.mp hi with hii | hii
        · subst hii
          simp only [visitList, hcb] at h
          rw [if_neg hb0] at h
          by_cases hp : b ∈ path
          · rw [if_pos hp] at h
            exact absurd h (by simp)
          · rw [if_neg hp] at h
            cases hv1 : visitUpstream g fuel (b :: path) b with
            | error e =>
              rw [hv1] at h
              exact absurd h (by simp [bind, Except.bind])
            | ok l1 =>
              cases hv2 : visitList (visitUpstream g fuel) path is with
              | error e =>
                rw [hv1, hv2] at h
                exact absurd h (by simp [bind, Except.bind])
              | ok l2 =>
                rw [hv1, hv2] at h
                have hl : l = l1 ++ l2 := by
                  simpa [bind, Except.bind, pure, Except.pure] using h.symm
                rw [hl]
                exact List.mem_append.mpr (Or.inl (ih (b :: path) b l1 hv1 y hr))
        · cases hc0 : i0.connection with
          | none =>
            simp only [visitList, hc0] at h
            exact ihl path l h i hii b hcb hb0 y hr
          | some b0 =>
            simp only [visitList, hc0] at h
            by_cases hb00 : b0.1 = 0
            · rw [if_pos hb00] at h
              exact ihl path l h i hii b hcb hb0 y hr
            · rw [if_neg hb00] at h
              by_cases hp : b0 ∈ path
              · rw [if_pos hp] at h
                exact absurd h (by simp)
              · rw [if_neg hp] at h
                cases hv1 : visitUpstream g fuel (b0 :: path) b0 with
                | error e =>
                  rw [hv1] at h
                  exact absurd h (by simp [bind, Except.bind])
                | ok l1 =>
                  cases hv2 : visitList (visitUpstream g fuel) path is with
                  | error e =>
                    rw [hv1, hv2] at h
                    exact absurd h (by simp [bind, Except.bind])
                  | ok l2 =>
                    rw [hv1, hv2] at h
                    have hl : l = l1 ++ l2 := by
                      simpa [bind, Except.bind, pure, Except.pure] using h.symm
                    rw [hl]
                    exact List.mem_append.mpr
                      (Or.inr (ihl path l2 hv2 i hii b hcb hb0 y hr))
    intro path out l h y hr
    cases hn : g.getAnyNode out.1 with
    | none => simp [visitUpstream, hn] at h
    | some n =>
      simp only [visitUpstream, hn] at h
      cases hv : visitList (visitUpstream g fuel) path n.inputOrder with
      | error e =>
        rw [hv] at h
        exact absurd h (by simp [bind, Except.bind])
      | ok rest =>
        rw [hv] at h
        have hl : l = out :: rest := by
          simpa [bind, Except.bind, pure, Except.pure] using h.symm
        rw [hl]
        cases hr with
        | refl => exact List.mem_cons_self _ _
        | step a b c n2 i hn2 hi hcb hb0 hrbc =>
          have hnn : n = n2 := by
            rw [hn] at hn2
            injection hn2
          exact List.mem_cons_of_mem _
            (ihList n.inputOrder path rest hv i (by rw [hnn]; exact hi) b hcb hb0 y hrbc)

theorem mem_insertNodeId_iff (a b : NodeId) (l : List NodeId) :
    a ∈ insertNodeId b l ↔ a ∈ l ∨ a = b := by
  unfold insertNodeId
  by_cases hb : b ∈ l
  · simp only [if_pos hb]
    constructor
    · exact fun h => Or.inl h
    · rintro (h | h)
      · exact h
      · rwa [h]
  · simp [hb]

theorem visitList_congr (r1 r2 : List OutRef → OutRef → Except String (List OutRef))
    (hr : ∀ p o, r1 p o = r2 p o) :
    ∀ (path : List OutRef) (inputs : List SgInput),
      visitList r1 path inputs = visitList r2 path inputs := by
  intro path inputs
  induction inputs generalizing path with
  | nil => rfl
  | cons i is ihl =>
    cases hc : i.connection with
    | none =>
      simp only [visitList, hc]
      exact ihl path
    | some b =>
      simp only [visitList, hc]
      by_cases hb : b.1 = 0
      · simp only [if_pos hb]
        exact ihl path
      · simp only [if_neg hb]
        by_cases hp : b ∈ path
        · simp only [if_pos hp]
        · simp only [if_neg hp, hr, ihl]

theorem visitUpstream_congr (g1 g2 : SgNodeGraph)
    (hpv : ∀ id, (g1.getAnyNode id).map eraseUC = (g2.getAnyNode id).map eraseUC) :
    ∀ (fuel : Nat) (path : List OutRef) (out : OutRef),
      visitUpstream g1 fuel path out = visitUpstream g2 fuel path out := by
  intro fuel
  induction fuel with
  | zero => intro path out; rfl
  | succ fuel ih =>
    intro path out
    cases hn1 : g1.getAnyNode out.1 with
    | none =>
      have hn2 : g2.getAnyNode out.1 = none := by
        have hh := hpv out.1
        rw [hn1] at hh
        cases hx : g2.getAnyNode out.1 with
        | none => rfl
        | some n2 => rw [hx] at hh; simp at hh
      simp only [visitUpstream, hn1, hn2]
    | some n1 =>
      have hex : ∃ n2, g2.getAnyNode out.1 = some n2 ∧ n1.inputOrder = n2.inputOrder := by
        have hh := hpv out.1
        rw [hn1] at hh
        cases hx : g2.getAnyNode out.1 with
        | none => rw [hx] at hh; simp at hh
        | some n2 =>
          rw [hx] at hh
          rw [Option.map_some', Option.map_some'] at hh
          injection hh with hh2
          have h4 : (eraseUC n1).inputOrder = (eraseUC n2).inputOrder :=
            congrArg SgNode.inputOrder hh2
          exact ⟨n2, rfl, h4⟩
      obtain ⟨n2, hn2, hio⟩ := hex
      simp only [visitUpstream, hn1, hn2]
      rw [← hio, visitList_congr (visitUpstream g1 fuel) (visitUpstream g2 fuel)
        (fun p o => ih p o) path n1.inputOrder]

theorem closureB_congr (g1 g2 : SgNodeGraph) (id : NodeId)
    (h : (g1.getAnyNode id).map eraseUC = (g2.getAnyNode id).map eraseUC) :
    closureB g1 id = closureB g2 id := by
  unfold closureB
  cases h1 : g1.getAnyNode id with
  | none =>
    rw [h1] at h
    cases h2 : g2.getAnyNode id with
    | none => rfl
    | some n2 => rw [h2] at h; simp at h
  | some n1 =>
    rw [h1] at h
    cases h2 : g2.getAnyNode id with
    | none => rw [h2] at h; simp at h
    | some n2 =>
      rw [h2] at h
      rw [Option.map_some', Option.map_some'] at h
      injection h with h3
      have h4 : (eraseUC n1).classification = (eraseUC n2).classification :=
        congrArg SgNode.classification h3
      have hcc : n1.hasClassification clCLOSURE = n2.hasClassification clCLOSURE := by
        unfold SgNode.hasClassification
        rw [show n1.classification = n2.classification from h4]
      simp [hcc]

theorem trackFold_spec (nid : NodeId) (edges : List OutRef) :
    ∀ (gacc : SgNodeGraph),
    (∀ id, ((edges.foldl (trackInsert nid) gacc).getAnyNode id).map eraseUC =
        (gacc.getAnyNode id).map eraseUC) ∧
    (∀ id, id ≠ nid → (edges.foldl (trackInsert nid) gacc).getAnyNode id =
        gacc.getAnyNode id) ∧
    (∀ nacc, gacc.getAnyNode nid = some nacc →
      ∃ nres, (edges.foldl (trackInsert nid) gacc).getAnyNode nid = some nres ∧
        ∀ m, (m ∈ nres.usedClosures ↔ m ∈ nacc.usedClosures ∨
          ∃ e ∈ edges, e.1 = m ∧ closureB gacc e.1 = true)) := by
  induction edges with
  | nil =>
    intro gacc
    refine ⟨fun id => rfl, fun id _ => rfl, fun nacc hnacc => ⟨nacc, hnacc, fun m => ?_⟩⟩
    simp
  | cons e rest ih =>
    intro gacc
    have hshape : ∀ id, ((trackInsert nid gacc e).getAnyNode id).map eraseUC =
        (gacc.getAnyNode id).map eraseUC := by
      intro id
      unfold trackInsert
      cases hu : gacc.getAnyNode e.1 with
      | none => rfl
      | some un =>
        by_cases hcl : un.hasClassification clCLOSURE
        · simp only [hcl, if_true]
          rw [getAnyNode_updateNode]
          by_cases hid : id = nid
          · rw [if_pos hid, hid]
            cases gacc.getAnyNode nid <;> rfl
          · rw [if_neg hid]
        · simp [hcl]
    have hother : ∀ id, id ≠ nid →
        (trackInsert nid gacc e).getAnyNode id = gacc.getAnyNode id := by
      intro id hid
      unfold trackInsert
      cases hu : gacc.getAnyNode e.1 with
      | none => rfl
      | some un =>
        by_cases hcl : un.hasClassification clCLOSURE
        · simp only [hcl, if_true]
          exact getAnyNode_updateNode_other _ _ _ _ hid
        · simp [hcl]
    have hstep : ∀ nacc, gacc.getAnyNode nid = some nacc →
        ∃ n3, (trackInsert nid gacc e).getAnyNode nid = some n3 ∧
          ∀ m, (m ∈ n3.usedClosures ↔ m ∈ nacc.usedClosures ∨
            (e.1 = m ∧ closureB gacc e.1 = true)) := by
      intro nacc hnacc
      unfold trackInsert
      cases hu : gacc.getAnyNode e.1 with
      | none =>
        refine ⟨nacc, hnacc, fun m => ?_⟩
        simp [closureB, hu]
      | some un =>
        by_cases hcl : un.hasClassification clCLOSURE
        · simp only [hcl, if_true]
          refine ⟨{ nacc with usedClosures := insertNodeId e.1 nacc.usedClosures }, ?_, ?_⟩
          · rw [getAnyNode_updateNode_same, hnacc]
            rfl
          · intro m
            simp only [mem_insertNodeId_iff, closureB, hu]
            constructor
            · rintro (hm | hm)
              · exact Or.inl hm
              · exact Or.inr ⟨hm.symm, by simp [hcl]⟩
            · rintro (hm | ⟨hm1, _⟩)
              · exact Or.inl hm
              · exact Or.inr hm1.symm
        · simp only [hcl, if_false]
          refine ⟨nacc, hnacc, fun m => ?_⟩
          have : closureB gacc e.1 = false := by
            simp [closureB, hu, hcl]
          simp [this]
    obtain ⟨ih1, ih2, ih3⟩ := ih (trackInsert nid gacc e)
    refine ⟨?_, ?_, ?_⟩
    · intro id
      rw [List.foldl_cons, ih1 id, hshape id]
    · intro id hid
      rw [List.foldl_cons, ih2 id hid, hother id hid]
    · intro nacc hnacc
      obtain ⟨n3, hn3, hm3⟩ := hstep nacc hnacc
      obtain ⟨nres, hnres, hmres⟩ := ih3 n3 hn3
      refine ⟨nres, by rw [List.foldl_cons]; exact hnres, fun m => ?_⟩
      rw [hmres m]
      constructor
      · rintro (hm | ⟨e2, he2, hm1, hm2⟩)
        · rcases (hm3 m).mp hm with hm' | ⟨hm1', hm2'⟩
          · exact Or.inl hm'
          · exact Or.inr ⟨e, List.mem_cons_self _ _, hm1', hm2'⟩
        · rw [closureB_congr (trackInsert nid gacc e) gacc e2.1 (hshape e2.1)] at hm2
          exact Or.inr ⟨e2, List.mem_cons_of_mem _ he2, hm1, hm2⟩
      · rintro (hm | ⟨e2, he2, hm1, hm2⟩)
        · exact Or.inl ((hm3 m).mpr (Or.inl hm))
        · rcases List.mem_cons.mp he2 with he2' | he2'
          · rw [he2'] at hm1 hm2
            exact Or.inl ((hm3 m).mpr (Or.inr ⟨hm1, hm2⟩))
          · rw [← closureB_congr (trackInsert nid gacc e) gacc e2.1 (hshape e2.1)] at hm2
            exact Or.inr ⟨e2, he2', hm1, hm2⟩

theorem mapUpdate_outLens (m : List (NodeId × SgNode)) (id : NodeId) (f : SgNode → SgNode)
    (hf : ∀ n, (f n).outputOrder = n.outputOrder) :
    (mapUpdate m id f).map (fun p => p.2.outputOrder.length) =
      m.map (fun p => p.2.outputOrder.length) := by
  induction m with
  | nil => rfl
  | cons p rest ih =>
    obtain ⟨k, v⟩ := p
    by_cases hk : k = id
    · simp [mapUpdate, hk, hf]
    · simp [mapUpdate, hk, ih]

theorem totalOutputs_updateNode (g : SgNodeGraph) (id : NodeId) (f : SgNode → SgNode)
    (hf : ∀ n, (f n).outputOrder = n.outputOrder) :
    (g.updateNode id f).totalOutputs = g.totalOutputs := by
  unfold SgNodeGraph.updateNode
  by_cases h0 : id = 0
  · rw [if_pos h0]
    show (f g.graphNode).outputOrder.length +
        (g.nodeMap.map (fun p => p.2.outputOrder.length)).sum =
      g.graphNode.outputOrder.length +
        (g.nodeMap.map (fun p => p.2.outputOrder.length)).sum
    rw [hf]
  · rw [if_neg h0]
    show g.graphNode.outputOrder.length +
        ((mapUpdate g.nodeMap id f).map (fun p => p.2.outputOrder.length)).sum =
      g.graphNode.outputOrder.length +
        (g.nodeMap.map (fun p => p.2.outputOrder.length)).sum
    rw [mapUpdate_outLens g.nodeMap id f hf]

theorem trackInsert_totalOutputs (nid : NodeId) (gacc : SgNodeGraph) (e : OutRef) :
    (trackInsert nid gacc e).totalOutputs = gacc.totalOutputs := by
  unfold trackInsert
  cases hu : gacc.getAnyNode e.1 with
  | none => rfl
  | some un =>
    by_cases hcl : un.hasClassification clCLOSURE
    · simp only [hcl, if_true]
      exact totalOutputs_updateNode _ _ _ (fun n => rfl)
    · simp [hcl]

theorem trackFold_totalOutputs (nid : NodeId) (edges : List OutRef) :
    ∀ gacc : SgNodeGraph,
      (edges.foldl (trackInsert nid) gacc).totalOutputs = gacc.totalOutputs := by
  induction edges with
  | nil => intro gacc; rfl
  | cons e rest ih =>
    intro gacc
    rw [List.foldl_cons, ih (trackInsert nid gacc e), trackInsert_totalOutputs]

theorem traverseUpstream_congr (g1 g2 : SgNodeGraph)
    (hpv : ∀ id, (g1.getAnyNode id).map eraseUC = (g2.getAnyNode id).map eraseUC)
    (ht : g1.totalOutputs = g2.totalOutputs) (out : OutRef) :
    traverseUpstream g1 out = traverseUpstream g2 out := by
  unfold traverseUpstream
  rw [ht, visitUpstream_congr g1 g2 hpv (g2.totalOutputs + 1) [] out]

theorem usedClosures_nil_of_cleanUCB (g : SgNodeGraph) (hb : cleanUCB g = true) :
    ∀ id n, g.getAnyNode id = some n → n.usedClosures = [] := by
  intro id n h
  have hid := getAnyNode_mem_allIds h
  have h2 := List.all_eq_true.mp hb id hid
  rw [h] at h2
  simpa using h2

theorem trackClosures_fold_spec (g : SgNodeGraph) :
    ∀ (l : List NodeId) (g2 : SgNodeGraph),
    (∀ id, (g2.getAnyNode id).map eraseUC = (g.getAnyNode id).map eraseUC) →
    g2.totalOutputs = g.totalOutputs →
    ∀ g3, l.foldlM trackStep g2 = Except.ok g3 →
      (∀ id, (g3.getAnyNode id).map eraseUC = (g.getAnyNode id).map eraseUC) ∧
      g3.totalOutputs = g.totalOutputs ∧
      (∀ nid n2, g2.getAnyNode nid = some n2 →
        ∃ n3, g3.getAnyNode nid = some n3 ∧
        ∀ m, (m ∈ n3.usedClosures ↔ m ∈ n2.usedClosures ∨
          (nid ∈ l ∧ n2.hasClassification clSHADER = true ∧ closureB g m = true ∧
           ∃ j, Reach g (nid, 0) (m, j)))) := by
  intro l
  induction l with
  | nil =>
    intro g2 hsh ht g3 hf
    rw [List.foldlM_nil] at hf
    have hseq : (Except.ok g2 : Except String SgNodeGraph) = Except.ok g3 := hf
    have hg : g2 = g3 := by injection hseq
    subst hg
    exact ⟨hsh, ht, fun nid n2 hn2 => ⟨n2, hn2, fun m => by simp⟩⟩
  | cons a rest ih =>
    intro g2 hsh ht g3 hf
    rw [List.foldlM_cons] at hf
    cases hstep : trackStep g2 a with
    | error err =>
      rw [hstep] at hf
      exact Except.noConfusion hf
    | ok gmid =>
      rw [hstep] at hf
      have hf' : rest.foldlM trackStep gmid = Except.ok g3 := hf
      unfold trackStep at hstep
      cases hn0 : g2.getAnyNode a with
      | none =>
        rw [hn0] at hstep
        have hseq : (Except.ok g2 : Except String SgNodeGraph) = Except.ok gmid := hstep
        have hg : g2 = gmid := by injection hseq
        subst hg
        obtain ⟨c1, c2, c3⟩ := ih g2 hsh ht g3 hf'
        refine ⟨c1, c2, fun nid n2 hn2 => ?_⟩
        obtain ⟨n3, hn3, hiff⟩ := c3 nid n2 hn2
        refine ⟨n3, hn3, fun m => ?_⟩
        have hne : nid ≠ a := fun he => by rw [he, hn0] at hn2; cases hn2
        rw [hiff m]
        simp [List.mem_cons, hne]
      | some node =>
        rw [hn0] at hstep
        have hstep2 : (if node.hasClassification clSHADER = true then
              traverseUpstream g2 (a, 0) >>= fun edges =>
                pure (List.foldl (trackInsert a) g2 edges)
            else pure g2) = Except.ok gmid := hstep
        by_cases hcls : node.hasClassification clSHADER = true
        · rw [if_pos hcls] at hstep2
          cases he : traverseUpstream g2 (a, 0) with
          | error err2 =>
            rw [he] at hstep2
            exact Except.noConfusion hstep2
          | ok edges =>
            rw [he] at hstep2
            have hseq : (Except.ok (edges.foldl (trackInsert a) g2) :
                Except String SgNodeGraph) = Except.ok gmid := hstep2
            have hgmid : gmid = edges.foldl (trackInsert a) g2 := by
              have h := hseq
              injection h with h2
              exact h2.symm
            obtain ⟨tf1, tf2, tf3⟩ := trackFold_spec a edges g2
            have hshape2 : ∀ id, (gmid.getAnyNode id).map eraseUC =
                (g.getAnyNode id).map eraseUC := by
              intro id
              rw [hgmid, tf1 id, hsh id]
            have ht2 : gmid.totalOutputs = g.totalOutputs := by
              rw [hgmid, trackFold_totalOutputs, ht]
            have heg : traverseUpstream g (a, 0) = Except.ok edges := by
              rw [← he]
              exact traverseUpstream_congr g g2 (fun id => (hsh id).symm) ht.symm (a, 0)
            have hedge : ∀ m : NodeId,
                (∃ e ∈ edges, e.1 = m) ↔ ∃ j, Reach g (a, 0) (m, j) := by
              intro m
              constructor
              · rintro ⟨e, hein, he1⟩
                refine ⟨e.2, ?_⟩
                have hr := visitUpstream_sound g (g.totalOutputs + 1) [] (a, 0) edges
                  heg e hein
                rw [← he1, Prod.mk.eta]
                exact hr
              · rintro ⟨j, hr⟩
                exact ⟨(m, j),
                  visitUpstream_complete g (g.totalOutputs + 1) [] (a, 0) edges heg
                    (m, j) hr, rfl⟩
            have hcb : ∀ m2, closureB g2 m2 = closureB g m2 :=
              fun m2 => closureB_congr g2 g m2 (hsh m2)
            obtain ⟨c1, c2, c3⟩ := ih gmid hshape2 ht2 g3 hf'
            refine ⟨c1, c2, fun nid n2 hn2 => ?_⟩
            by_cases hna : nid = a
            · subst hna
              have hn2e : n2 = node := by
                rw [hn0] at hn2
                injection hn2 with h
                exact h.symm
              have hcls2 : n2.hasClassification clSHADER = true := by
                rw [hn2e]; exact hcls
              obtain ⟨nmid, hnmid, hmmid⟩ := tf3 n2 hn2
              have hnmid2 : gmid.getAnyNode nid = some nmid := by
                rw [hgmid]; exact hnmid
              obtain ⟨n3, hn3, hiff⟩ := c3 nid nmid hnmid2
              refine ⟨n3, hn3, fun m => ?_⟩
              rw [hiff m, hmmid m]
              constructor
              · rintro ((hm | ⟨e0, he0, he1, hcb0⟩) | ⟨hmemr, hclm, hC, hR⟩)
                · exact Or.inl hm
                · refine Or.inr ⟨List.mem_cons_self _ _, hcls2, ?_, ?_⟩
                  · rw [he1] at hcb0
                    rw [← hcb m]
                    exact hcb0
                  · exact (hedge m).mp ⟨e0, he0, he1⟩
                · exact Or.inr ⟨List.mem_cons_self _ _, hcls2, hC, hR⟩
              · rintro (hm | ⟨hmemc, hclm, hC, hR⟩)
                · exact Or.inl (Or.inl hm)
                · obtain ⟨e0, he0, he1⟩ := (hedge m).mpr hR
                  refine Or.inl (Or.inr ⟨e0, he0, he1, ?_⟩)
                  rw [he1, hcb m]
                  exact hC
            · have hmido : gmid.getAnyNode nid = g2.getAnyNode nid := by
                rw [hgmid]; exact tf2 nid hna
              obtain ⟨n3, hn3, hiff⟩ := c3 nid n2 (by rw [hmido]; exact hn2)
              refine ⟨n3, hn3, fun m => ?_⟩
              rw [hiff m]
              simp [List.mem_cons, hna]
        · rw [if_neg hcls] at hstep2
          have hseq : (Except.ok g2 : Except String SgNodeGraph) = Except.ok gmid := hstep2
          have hg : g2 = gmid := by injection hseq
          subst hg
          obtain ⟨c1, c2, c3⟩ := ih g2 hsh ht g3 hf'
          refine ⟨c1, c2, fun nid n2 hn2 => ?_⟩
          obtain ⟨n3, hn3, hiff⟩ := c3 nid n2 hn2
          refine ⟨n3, hn3, fun m => ?_⟩
          rw [hiff m]
          by_cases hna : nid = a
          · subst hna
            have hn2e : n2 = node := by
              rw [hn0] at hn2
              injection hn2 with h
              exact h.symm
            have hcls2 : ¬ n2.hasClassification clSHADER = true := by
              rw [hn2e]; exact hcls
            simp [List.mem_cons, hcls2]
          · simp [List.mem_cons, hna]

/-- **C8**: after the closure-tracking pass of `finalize`, every
SHADER-classified node's used-closures set holds exactly the ids of the
CLOSURE-classified nodes whose outputs are reachable upstream from the
node's primary output (the traversal stopping at the subgraph
boundary): every reachable closure node is recorded, and every recorded
id is a reachable closure node. -/
theorem claim8_theorem (g g2 : SgNodeGraph)
    (hok : trackClosures g = Except.ok g2)
    (hclean : ∀ id n, g.getAnyNode id = some n → n.usedClosures = [])
    (nid : NodeId) (n n2 : SgNode)
    (hmem : nid ∈ g.nodeOrder)
    (hn : g.getAnyNode nid = some n)
    (hn2 : g2.getAnyNode nid = some n2)
    (hsh : n.hasClassification clSHADER = true) :
    ∀ m, m ∈ n2.usedClosures ↔
      (closureB g m = true ∧ ∃ j, Reach g (nid, 0) (m, j)) := by
  have hfold : g.nodeOrder.foldlM trackStep g = Except.ok g2 := hok
  obtain ⟨-, -, c3⟩ := trackClosures_fold_spec g g.nodeOrder g (fun id => rfl) rfl g2 hfold
  obtain ⟨n3, hn3, hiff⟩ := c3 nid n hn
  have hne : n2 = n3 := by
    rw [hn2] at hn3
    injection hn3
  intro m
  rw [hne, hiff m, hclean nid n hn]
  simp [hmem, hsh]

/-- Witness for C8 on the concrete fixture: the tracked shader node 2
records closure node 1, which is indeed a reachable closure. -/
theorem claim8_witness :
    ∃ n2, c8Tracked.getAnyNode 2 = some n2 ∧
      (1 ∈ n2.usedClosures ↔
        (closureB c8Graph 1 = true ∧ ∃ j, Reach c8Graph (2, 0) (1, j))) := by
  have hclean := usedClosures_nil_of_cleanUCB c8Graph (by decide)
  exact ⟨{ mkNode "srf" clSHADER [mkInput "bsdf" "BSDF" none (some (1, 0))]
      [mkOutput "out" "surfaceshader" [(0, 0)]] with usedClosures := [1] },
    rfl,
    claim8_theorem c8Graph c8Tracked rfl hclean 2
      (mkNode "srf" clSHADER [mkInput "bsdf" "BSDF" none (some (1, 0))]
        [mkOutput "out" "surfaceshader" [(0, 0)]])
      ({ mkNode "srf" clSHADER [mkInput "bsdf" "BSDF" none (some (1, 0))]
        [mkOutput "out" "surfaceshader" [(0, 0)]] with usedClosures := [1] })
      (by decide) rfl rfl (by decide) 1⟩

theorem merge_type_global (s f : ScopeInfo) (h : s.type = ScopeType.GLOBAL) :
    (s.merge f).type = ScopeType.GLOBAL := by
  unfold ScopeInfo.merge
  by_cases hf : f.type = ScopeType.GLOBAL
  · simp [h, hf]
  · simp [h, hf]

theorem merge_unknown_left (f : ScopeInfo) : ScopeInfo.unknown.merge f = f := by
  simp [ScopeInfo.merge, ScopeInfo.unknown]

theorem merge_single_self (l : NodeId) :
    (singleScope l).merge (singleScope l) = singleScope l := by
  have h4 : (1 <<< 2 : Nat) ||| (1 <<< 2) = 1 <<< 2 := by decide
  simp [ScopeInfo.merge, singleScope, h4]

theorem adjust_global (s : ScopeInfo) (h : s.type = ScopeType.GLOBAL) (l : NodeId) :
    s.adjustAtConditionalInput l 2 0x12 = singleScope l := by
  simp [ScopeInfo.adjustAtConditionalInput, singleScope, h]

theorem mapScopeType_some {g : SgNodeGraph} {L : NodeId} {n : SgNode}
    (hL : g.getAnyNode L = some n)
    (hG : ((g.getAnyNode L).map fun n2 => n2.scopeInfo.type) = some ScopeType.GLOBAL) :
    n.scopeInfo.type = ScopeType.GLOBAL := by
  rw [hL] at hG
  simpa using hG

theorem scopeProcessInput_noNode (g3 : SgNodeGraph) (used : List NodeId) (nid : NodeId)
    (iE iS : Bool) (nI idx : Nat) (h1 : g3.getAnyNode nid = none) :
    scopeProcessInput g3 used nid iE iS nI idx = (g3, used) := by
  unfold scopeProcessInput
  simp only [h1]

theorem scopeProcessInput_noInput (g3 : SgNodeGraph) (used : List NodeId) (nid : NodeId)
    (iE iS : Bool) (nI idx : Nat) (node : SgNode)
    (h1 : g3.getAnyNode nid = some node) (h2 : node.inputOrder.get? idx = none) :
    scopeProcessInput g3 used nid iE iS nI idx = (g3, used) := by
  unfold scopeProcessInput
  simp only [h1, h2]

theorem scopeProcessInput_noConn (g3 : SgNodeGraph) (used : List NodeId) (nid : NodeId)
    (iE iS : Bool) (nI idx : Nat) (node : SgNode) (input : SgInput)
    (h1 : g3.getAnyNode nid = some node) (h2 : node.inputOrder.get? idx = some input)
    (h3 : input.connection = none) :
    scopeProcessInput g3 used nid iE iS nI idx = (g3, used) := by
  unfold scopeProcessInput
  simp only [h1, h2, h3]

theorem scopeProcessInput_conn (g3 : SgNodeGraph) (used : List NodeId) (nid : NodeId)
    (iE iS : Bool) (nI idx : Nat) (node : SgNode) (input : SgInput) (c : OutRef)
    (h1 : g3.getAnyNode nid = some node) (h2 : node.inputOrder.get? idx = some input)
    (h3 : input.connection = some c) :
    scopeProcessInput g3 used nid iE iS nI idx =
      (g3.updateNode c.1 fun un => { un with scopeInfo := un.scopeInfo.merge (if iE && (idx == 2 || idx == 3) then node.scopeInfo.adjustAtConditionalInput nid idx 0x12 else if iS then node.scopeInfo.adjustAtConditionalInput nid idx ((1 <<< nI) - 1) else node.scopeInfo) }, insertNodeId c.1 used) := by
  unfold scopeProcessInput
  simp only [h1, h2, h3]

theorem scopeProcessNode_notMem (g3 : SgNodeGraph) (used : List NodeId) (nid : NodeId)
    (hm : nid ∉ used) : scopeProcessNode g3 used nid = (g3, used) := by
  unfold scopeProcessNode
  rw [if_neg hm]

theorem scopeProcessNode_noNode (g3 : SgNodeGraph) (used : List NodeId) (nid : NodeId)
    (hm : nid ∈ used) (hn : g3.getAnyNode nid = none) :
    scopeProcessNode g3 used nid = (g3, used) := by
  unfold scopeProcessNode
  rw [if_pos hm]
  simp only [hn]

theorem scopeProcessNode_mem (g3 : SgNodeGraph) (used : List NodeId) (nid : NodeId)
    (node : SgNode) (hm : nid ∈ used) (hn : g3.getAnyNode nid = some node) :
    scopeProcessNode g3 used nid =
      (List.range node.inputOrder.length).foldl
        (fun st idx => scopeProcessInput st.1 st.2 nid (node.hasClassification clIFELSE)
          (node.hasClassification clSWITCH) node.inputOrder.length idx) (g3, used) := by
  unfold scopeProcessNode
  rw [if_pos hm]
  simp only [hn]

theorem scopeInput_global (g3 : SgNodeGraph) (used : List NodeId) (L nid : NodeId)
    (iE iS : Bool) (nI idx : Nat)
    (hG : ((g3.getAnyNode L).map fun n => n.scopeInfo.type) = some ScopeType.GLOBAL) :
    (((scopeProcessInput g3 used nid iE iS nI idx).1.getAnyNode L).map
      fun n => n.scopeInfo.type) = some ScopeType.GLOBAL := by
  cases h1 : g3.getAnyNode nid with
  | none => rw [scopeProcessInput_noNode g3 used nid iE iS nI idx h1]; exact hG
  | some node =>
    cases h2 : node.inputOrder.get? idx with
    | none => rw [scopeProcessInput_noInput g3 used nid iE iS nI idx node h1 h2]; exact hG
    | some input =>
      cases h3 : input.connection with
      | none =>
        rw [scopeProcessInput_noConn g3 used nid iE iS nI idx node input h1 h2 h3]
        exact hG
      | some c =>
        rw [scopeProcessInput_conn g3 used nid iE iS nI idx node input c h1 h2 h3]
        show (((g3.updateNode c.1 _).getAnyNode L).map fun n => n.scopeInfo.type) =
          some ScopeType.GLOBAL
        rw [getAnyNode_updateNode]
        by_cases hcl : L = c.1
        · rw [if_pos hcl]
          cases hL : g3.getAnyNode L with
          | none => rw [hL] at hG; simp at hG
          | some nL2 =>
            have hGt := mapScopeType_some hL hG
            simp only [Option.map_some', Option.some.injEq]
            exact merge_type_global _ _ hGt
        · rw [if_neg hcl]
          exact hG

theorem scopeInput_shape (g g3 : SgNodeGraph) (used : List NodeId) (nid : NodeId)
    (iE iS : Bool) (nI idx : Nat)
    (hsh : ∀ id, ((g3.getAnyNode id).map eraseScope) = (g.getAnyNode id).map eraseScope) :
    ∀ id, (((scopeProcessInput g3 used nid iE iS nI idx).1.getAnyNode id).map eraseScope) =
      (g.getAnyNode id).map eraseScope := by
  intro id
  cases h1 : g3.getAnyNode nid with
  | none => rw [scopeProcessInput_noNode g3 used nid iE iS nI idx h1]; exact hsh id
  | some node =>
    cases h2 : node.inputOrder.get? idx with
    | none =>
      rw [scopeProcessInput_noInput g3 used nid iE iS nI idx node h1 h2]
      exact hsh id
    | some input =>
      cases h3 : input.connection with
      | none =>
        rw [scopeProcessInput_noConn g3 used nid iE iS nI idx node input h1 h2 h3]
        exact hsh id
      | some c =>
        rw [scopeProcessInput_conn g3 used nid iE iS nI idx node input c h1 h2 h3]
        show (((g3.updateNode c.1 _).getAnyNode id).map eraseScope) =
          (g.getAnyNode id).map eraseScope
        rw [getAnyNode_updateNode]
        by_cases hid : id = c.1
        · rw [if_pos hid, ← hsh id]
          cases g3.getAnyNode id <;> rfl
        · rw [if_neg hid]
          exact hsh id

theorem shape_transfer {g g3 : SgNodeGraph}
    (hsh : ∀ id, ((g3.getAnyNode id).map eraseScope) = (g.getAnyNode id).map eraseScope)
    {id : NodeId} {n3 : SgNode} (h : g3.getAnyNode id = some n3) :
    ∃ n, g.getAnyNode id = some n ∧ n3.inputOrder = n.inputOrder ∧
      n3.classification = n.classification := by
  have hh := hsh id
  rw [h] at hh
  cases hx : g.getAnyNode id with
  | none => rw [hx] at hh; simp at hh
  | some n =>
    rw [hx] at hh
    rw [Option.map_some', Option.map_some'] at hh
    injection hh with h2
    have hio : (eraseScope n3).inputOrder = (eraseScope n).inputOrder :=
      congrArg SgNode.inputOrder h2
    have hcl : (eraseScope n3).classification = (eraseScope n).classification :=
      congrArg SgNode.classification h2
    exact ⟨n, rfl, hio, hcl⟩

theorem scopeInput_U (g g3 : SgNodeGraph) (used : List NodeId) (L U : NodeId)
    (honly : ∀ id n, g.getAnyNode id = some n → ∀ k i, n.inputOrder.get? k = some i →
      ∀ r, i.connection = some (U, r) → id = L ∧ k = 2)
    (hsh : ∀ id, ((g3.getAnyNode id).map eraseScope) = (g.getAnyNode id).map eraseScope)
    (hG : ((g3.getAnyNode L).map fun n => n.scopeInfo.type) = some ScopeType.GLOBAL)
    (nid : NodeId) (iE iS : Bool) (nI idx : Nat)
    (hiE : nid = L → iE = true)
    (S : ScopeInfo) (hU : ((g3.getAnyNode U).map fun n => n.scopeInfo) = some S)
    (hS : S = ScopeInfo.unknown ∨ S = singleScope L) :
    ∃ S2, (((scopeProcessInput g3 used nid iE iS nI idx).1.getAnyNode U).map
        fun n => n.scopeInfo) = some S2 ∧ (S2 = S ∨ S2 = singleScope L) := by
  cases h1 : g3.getAnyNode nid with
  | none =>
    rw [scopeProcessInput_noNode g3 used nid iE iS nI idx h1]
    exact ⟨S, hU, Or.inl rfl⟩
  | some node =>
    cases h2 : node.inputOrder.get? idx with
    | none =>
      rw [scopeProcessInput_noInput g3 used nid iE iS nI idx node h1 h2]
      exact ⟨S, hU, Or.inl rfl⟩
    | some input =>
      cases h3 : input.connection with
      | none =>
        rw [scopeProcessInput_noConn g3 used nid iE iS nI idx node input h1 h2 h3]
        exact ⟨S, hU, Or.inl rfl⟩
      | some c =>
        rw [scopeProcessInput_conn g3 used nid iE iS nI idx node input c h1 h2 h3]
        by_cases hcu : c.1 = U
        · obtain ⟨n0, hn0, hio, hcl0⟩ := shape_transfer hsh h1
          have hcU : input.connection = some (U, c.2) := by
            rw [h3, ← hcu, Prod.mk.eta]
          have hk := honly nid n0 hn0 idx input (by rw [← hio]; exact h2) c.2 hcU
          obtain ⟨hkL, hk2⟩ := hk
          subst hkL
          subst hk2
          have hiEt := hiE rfl
          subst hiEt
          have hGt : node.scopeInfo.type = ScopeType.GLOBAL := mapScopeType_some h1 hG
          refine ⟨singleScope nid, ?_, Or.inr rfl⟩
          rw [getAnyNode_updateNode, if_pos hcu.symm]
          cases hu : g3.getAnyNode U with
          | none => rw [hu] at hU; simp at hU
          | some nU0 =>
            rw [hu] at hU
            rw [Option.map_some'] at hU
            have hUs : nU0.scopeInfo = S := by injection hU
            rw [Option.map_some', Option.map_some']
            refine congrArg some ?_
            show nU0.scopeInfo.merge _ = singleScope nid
            have hcond : (true && (((2:Nat) == 2) || ((2:Nat) == 3))) = true := by decide
            rw [if_pos hcond, adjust_global node.scopeInfo hGt nid, hUs]
            rcases hS with h | h
            · rw [h, merge_unknown_left]
            · rw [h, merge_single_self]
        · rw [getAnyNode_updateNode, if_neg (fun he => hcu he.symm)]
          exact ⟨S, hU, Or.inl rfl⟩

theorem scopeInner_U (g : SgNodeGraph) (L U : NodeId)
    (honly : ∀ id n, g.getAnyNode id = some n → ∀ k i, n.inputOrder.get? k = some i →
      ∀ r, i.connection = some (U, r) → id = L ∧ k = 2)
    (nid : NodeId) (iE iS : Bool) (nI : Nat) (hiE : nid = L → iE = true) :
    ∀ (idxs : List Nat) (st : SgNodeGraph × List NodeId),
      (∀ id, ((st.1.getAnyNode id).map eraseScope) = (g.getAnyNode id).map eraseScope) →
      ((st.1.getAnyNode L).map fun n => n.scopeInfo.type) = some ScopeType.GLOBAL →
      ∀ S, ((st.1.getAnyNode U).map fun n => n.scopeInfo) = some S →
      (S = ScopeInfo.unknown ∨ S = singleScope L) →
      (∀ id, (((idxs.foldl (fun st2 idx => scopeProcessInput st2.1 st2.2 nid iE iS nI idx)
          st).1.getAnyNode id).map eraseScope) = (g.getAnyNode id).map eraseScope) ∧
      (((idxs.foldl (fun st2 idx => scopeProcessInput st2.1 st2.2 nid iE iS nI idx)
          st).1.getAnyNode L).map fun n => n.scopeInfo.type) = some ScopeType.GLOBAL ∧
      ∃ S2, (((idxs.foldl (fun st2 idx => scopeProcessInput st2.1 st2.2 nid iE iS nI idx)
          st).1.getAnyNode U).map fun n => n.scopeInfo) = some S2 ∧
        (S2 = S ∨ S2 = singleScope L) := by
  intro idxs
  induction idxs with
  | nil =>
    intro st hsh hG S hU hS
    exact ⟨hsh, hG, S, hU, Or.inl rfl⟩
  | cons i is ih =>
    intro st hsh hG S hU hS
    obtain ⟨S1, hU1, hS1⟩ := scopeInput_U g st.1 st.2 L U honly hsh hG nid iE iS nI i hiE S hU hS
    have hS1d : S1 = ScopeInfo.unknown ∨ S1 = singleScope L := by
      rcases hS1 with h | h
      · rw [h]; exact hS
      · exact Or.inr h
    have hsh1 := scopeInput_shape g st.1 st.2 nid iE iS nI i hsh
    have hG1 := scopeInput_global st.1 st.2 L nid iE iS nI i hG
    obtain ⟨c1, c2, S2, hU2, hS2⟩ :=
      ih (scopeProcessInput st.1 st.2 nid iE iS nI i) hsh1 hG1 S1 hU1 hS1d
    rw [List.foldl_cons]
    refine ⟨c1, c2, S2, hU2, ?_⟩
    rcases hS2 with h | h
    · rw [h]; exact hS1
    · exact Or.inr h

theorem hasClassification_congr {n m : SgNode} (h : n.classification = m.classification)
    (c : Nat) : n.hasClassification c = m.hasClassification c := by
  unfold SgNode.hasClassification
  rw [h]

theorem scopeNode_U (g : SgNodeGraph) (L U : NodeId)
    (honly : ∀ id n, g.getAnyNode id = some n → ∀ k i, n.inputOrder.get? k = some i →
      ∀ r, i.connection = some (U, r) → id = L ∧ k = 2)
    (nL : SgNode) (hnL : g.getAnyNode L = some nL)
    (hIF : nL.hasClassification clIFELSE = true)
    (nid : NodeId) (g3 : SgNodeGraph) (used : List NodeId)
    (hsh : ∀ id, ((g3.getAnyNode id).map eraseScope) = (g.getAnyNode id).map eraseScope)
    (hG : ((g3.getAnyNode L).map fun n => n.scopeInfo.type) = some ScopeType.GLOBAL)
    (S : ScopeInfo) (hU : ((g3.getAnyNode U).map fun n => n.scopeInfo) = some S)
    (hS : S = ScopeInfo.unknown ∨ S = singleScope L) :
    (∀ id, (((scopeProcessNode g3 used nid).1.getAnyNode id).map eraseScope) =
      (g.getAnyNode id).map eraseScope) ∧
    (((scopeProcessNode g3 used nid).1.getAnyNode L).map fun n => n.scopeInfo.type) =
      some ScopeType.GLOBAL ∧
    ∃ S2, (((scopeProcessNode g3 used nid).1.getAnyNode U).map fun n => n.scopeInfo) =
      some S2 ∧ (S2 = S ∨ S2 = singleScope L) := by
  by_cases hm : nid ∈ used
  · cases hn : g3.getAnyNode nid with
    | none =>
      rw [scopeProcessNode_noNode g3 used nid hm hn]
      exact ⟨hsh, hG, S, hU, Or.inl rfl⟩
    | some node =>
      rw [scopeProcessNode_mem g3 used nid node hm hn]
      refine scopeInner_U g L U honly nid (node.hasClassification clIFELSE)
        (node.hasClassification clSWITCH) node.inputOrder.length ?_
        (List.range node.inputOrder.length) (g3, used) hsh hG S hU hS
      intro he
      subst he
      obtain ⟨n0, hn0, _, hcl0⟩ := shape_transfer hsh hn
      have he0 : n0 = nL := by
        rw [hnL] at hn0
        injection hn0 with h
        exact h.symm
      rw [hasClassification_congr hcl0, he0]
      exact hIF
  · rw [scopeProcessNode_notMem g3 used nid hm]
    exact ⟨hsh, hG, S, hU, Or.inl rfl⟩

theorem scopeFold_U (g : SgNodeGraph) (L U : NodeId)
    (honly : ∀ id n, g.getAnyNode id = some n → ∀ k i, n.inputOrder.get? k = some i →
      ∀ r, i.connection = some (U, r) → id = L ∧ k = 2)
    (nL : SgNode) (hnL : g.getAnyNode L = some nL)
    (hIF : nL.hasClassification clIFELSE = true) :
    ∀ (ls : List NodeId) (st : SgNodeGraph × List NodeId),
      (∀ id, ((st.1.getAnyNode id).map eraseScope) = (g.getAnyNode id).map eraseScope) →
      ((st.1.getAnyNode L).map fun n => n.scopeInfo.type) = some ScopeType.GLOBAL →
      ∀ S, ((st.1.getAnyNode U).map fun n => n.scopeInfo) = some S →
      (S = ScopeInfo.unknown ∨ S = singleScope L) →
      ∃ S2, (((ls.foldl (fun st2 nid => scopeProcessNode st2.1 st2.2 nid) st).1.getAnyNode
          U).map fun n => n.scopeInfo) = some S2 ∧ (S2 = S ∨ S2 = singleScope L) := by
  intro ls
  induction ls with
  | nil =>
    intro st hsh hG S hU hS
    exact ⟨S, hU, Or.inl rfl⟩
  | cons a as ih =>
    intro st hsh hG S hU hS
    obtain ⟨c1, c2, S1, hU1, hS1⟩ :=
      scopeNode_U g L U honly nL hnL hIF a st.1 st.2 hsh hG S hU hS
    have hS1d : S1 = ScopeInfo.unknown ∨ S1 = singleScope L := by
      rcases hS1 with h | h
      · rw [h]; exact hS
      · exact Or.inr h
    obtain ⟨S2, hU2, hS2⟩ := ih (scopeProcessNode st.1 st.2 a) c1 c2 S1 hU1 hS1d
    rw [List.foldl_cons]
    refine ⟨S2, hU2, ?_⟩
    rcases hS2 with h | h
    · rw [h]; exact hS1
    · exact Or.inr h

theorem optimizeStep_constant (g : SgNodeGraph) (nid : NodeId) (node : SgNode)
    (hn : g.getAnyNode nid = some node)
    (hcls : node.hasClassification clCONSTANT = true)
    (vi : SgInput) (hvi : node.inputOrder.get? 0 = some vi)
    (hvc : vi.connection = none)
    (output : SgOutput) (hout : node.outputOrder.get? 0 = some output) :
    ∃ g2, optimizeNodeStep g nid = Except.ok (g2, true) ∧
      ∀ d ∈ output.connections,
        g2.getInputPort d = (g.getInputPort d).map
          (fun i => { i with connection := none, value := vi.value }) := by
  obtain ⟨g2, hbp, _, hval⟩ := bypass_spec g nid 0 node hn vi hvi output hout
  refine ⟨g2, ?_, hval hvc⟩
  unfold optimizeNodeStep
  simp only [hn, exc, bind, Except.bind, pure, Except.pure, hcls, hvi, hvc, ite_true, if_true]
  rw [hbp]

theorem optimizeStep_constantSkip (g : SgNodeGraph) (nid : NodeId) (node : SgNode)
    (hn : g.getAnyNode nid = some node)
    (hcls : node.hasClassification clCONSTANT = true)
    (vi : SgInput) (hvi : node.inputOrder.get? 0 = some vi)
    (src : OutRef) (hvc : vi.connection = some src) :
    optimizeNodeStep g nid = Except.ok (g, false) := by
  unfold optimizeNodeStep
  simp only [hn, exc, bind, Except.bind, pure, Except.pure, hcls, hvi, hvc]
  simp

theorem optimize_pipeline (g g1 : SgNodeGraph) (e : Nat) (used : List NodeId)
    (h1 : optimizeEdits g = Except.ok (g1, e)) (he : 0 < e)
    (h2 : computeUsedNodes g1 = Except.ok used) :
    optimize g = Except.ok (optimizeCleanup g1 used) := by
  unfold optimize
  rw [h1]
  simp only [bind, Except.bind]
  show (if e > 0 then (computeUsedNodes g1 >>= fun usedNodes =>
      pure (optimizeCleanup g1 usedNodes)) else pure g1) = Except.ok (optimizeCleanup g1 used)
  rw [if_pos he, h2]
  rfl

theorem mapUpdate_kn (m : List (NodeId × SgNode)) (id : NodeId) (f : SgNode → SgNode)
    (hf : ∀ v, (f v).name = v.name) :
    (mapUpdate m id f).map (fun p => (p.1, p.2.name)) =
      m.map (fun p => (p.1, p.2.name)) := by
  induction m with
  | nil => rfl
  | cons p rest ih =>
    obtain ⟨k, v⟩ := p
    by_cases h : k = id <;> simp [mapUpdate, h, ih, hf]

theorem kn_updateNode (g : SgNodeGraph) (id : NodeId) (f : SgNode → SgNode)
    (hf : ∀ v, (f v).name = v.name) :
    (g.updateNode id f).nodeMap.map (fun p => (p.1, p.2.name)) =
      g.nodeMap.map (fun p => (p.1, p.2.name)) := by
  unfold SgNodeGraph.updateNode
  by_cases h : id = 0 <;> simp [h, mapUpdate_kn _ _ _ hf]

theorem kn_setInputPort (g : SgNodeGraph) (r : InRef) (f : SgInput → SgInput) :
    (g.setInputPort r f).nodeMap.map (fun p => (p.1, p.2.name)) =
      g.nodeMap.map (fun p => (p.1, p.2.name)) :=
  kn_updateNode g r.1 _ (fun v => rfl)

theorem kn_setOutputPort (g : SgNodeGraph) (r : OutRef) (f : SgOutput → SgOutput) :
    (g.setOutputPort r f).nodeMap.map (fun p => (p.1, p.2.name)) =
      g.nodeMap.map (fun p => (p.1, p.2.name)) :=
  kn_updateNode g r.1 _ (fun v => rfl)

theorem inputBreakConnection_none (g : SgNodeGraph) (dst : InRef)
    (hi : g.getInputPort dst = none) : inputBreakConnection g dst = g := by
  unfold inputBreakConnection
  simp only [hi]

theorem inputBreakConnection_noConn (g : SgNodeGraph) (dst : InRef) (i : SgInput)
    (hi : g.getInputPort dst = some i) (hc : i.connection = none) :
    inputBreakConnection g dst = g := by
  unfold inputBreakConnection
  simp only [hi, hc]

theorem inputBreakConnection_conn (g : SgNodeGraph) (dst : InRef) (i : SgInput) (src : OutRef)
    (hi : g.getInputPort dst = some i) (hc : i.connection = some src) :
    inputBreakConnection g dst =
      (g.setOutputPort src
        (fun o => { o with connections := o.connections.filter (fun d => d ≠ dst) })).setInputPort
        dst (fun i2 => { i2 with connection := none }) := by
  unfold inputBreakConnection
  simp only [hi, hc]

theorem kn_inputBreakConnection (g : SgNodeGraph) (dst : InRef) :
    (inputBreakConnection g dst).nodeMap.map (fun p => (p.1, p.2.name)) =
      g.nodeMap.map (fun p => (p.1, p.2.name)) := by
  cases hi : g.getInputPort dst with
  | none => rw [inputBreakConnection_none g dst hi]
  | some i =>
    cases hc : i.connection with
    | none => rw [inputBreakConnection_noConn g dst i hi hc]
    | some src =>
      rw [inputBreakConnection_conn g dst i src hi hc, kn_setInputPort, kn_setOutputPort]

theorem outputBreakConnectionAll_charNone (g : SgNodeGraph) (src : OutRef)
    (ho : g.getOutputPort src = none) : outputBreakConnectionAll g src = g := by
  unfold outputBreakConnectionAll
  simp only [ho]

theorem outputBreakConnectionAll_char (g : SgNodeGraph) (src : OutRef) (o : SgOutput)
    (ho : g.getOutputPort src = some o) :
    outputBreakConnectionAll g src =
      (o.connections.foldl
        (fun g2 d => g2.setInputPort d (fun i => { i with connection := none })) g).setOutputPort
        src (fun o2 => { o2 with connections := [] }) := by
  unfold outputBreakConnectionAll
  simp only [ho]

theorem kn_foldl_setInputNone (l : List InRef) :
    ∀ g : SgNodeGraph,
      ((l.foldl (fun g2 d => g2.setInputPort d (fun i => { i with connection := none }))
          g).nodeMap.map (fun p => (p.1, p.2.name))) =
        g.nodeMap.map (fun p => (p.1, p.2.name)) := by
  induction l with
  | nil => intro g; rfl
  | cons d rest ih =>
    intro g
    rw [List.foldl_cons, ih, kn_setInputPort]

theorem kn_outputBreakConnectionAll (g : SgNodeGraph) (src : OutRef) :
    (outputBreakConnectionAll g src).nodeMap.map (fun p => (p.1, p.2.name)) =
      g.nodeMap.map (fun p => (p.1, p.2.name)) := by
  cases ho : g.getOutputPort src with
  | none => rw [outputBreakConnectionAll_charNone g src ho]
  | some o =>
    rw [outputBreakConnectionAll_char g src o ho, kn_setOutputPort, kn_foldl_setInputNone]

theorem disconnectNode_charNone (g : SgNodeGraph) (nid : NodeId)
    (hn : g.getAnyNode nid = none) : disconnectNode g nid = g := by
  unfold disconnectNode
  simp only [hn]

theorem disconnectNode_char (g : SgNodeGraph) (nid : NodeId) (node : SgNode)
    (hn : g.getAnyNode nid = some node) :
    disconnectNode g nid = (List.range node.outputOrder.length).foldl
      (fun g2 k => outputBreakConnectionAll g2 (nid, k))
      ((List.range node.inputOrder.length).foldl
        (fun g2 k => inputBreakConnection g2 (nid, k)) g) := by
  unfold disconnectNode
  simp only [hn]

theorem kn_foldl_inputBreak (nid : NodeId) (l : List Nat) :
    ∀ g : SgNodeGraph,
      ((l.foldl (fun g2 k => inputBreakConnection g2 (nid, k)) g).nodeMap.map
        (fun p => (p.1, p.2.name))) = g.nodeMap.map (fun p => (p.1, p.2.name)) := by
  induction l with
  | nil => intro g; rfl
  | cons d rest ih =>
    intro g
    rw [List.foldl_cons, ih, kn_inputBreakConnection]

theorem kn_foldl_outputBreak (nid : NodeId) (l : List Nat) :
    ∀ g : SgNodeGraph,
      ((l.foldl (fun g2 k => outputBreakConnectionAll g2 (nid, k)) g).nodeMap.map
        (fun p => (p.1, p.2.name))) = g.nodeMap.map (fun p => (p.1, p.2.name)) := by
  induction l with
  | nil => intro g; rfl
  | cons d rest ih =>
    intro g
    rw [List.foldl_cons, ih, kn_outputBreakConnectionAll]

theorem kn_disconnectNode (g : SgNodeGraph) (nid : NodeId) :
    (disconnectNode g nid).nodeMap.map (fun p => (p.1, p.2.name)) =
      g.nodeMap.map (fun p => (p.1, p.2.name)) := by
  cases hn : g.getAnyNode nid with
  | none => rw [disconnectNode_charNone g nid hn]
  | some node =>
    rw [disconnectNode_char g nid node hn, kn_foldl_outputBreak, kn_foldl_inputBreak]

theorem keys_of_kn (m m2 : List (NodeId × SgNode))
    (h : m2.map (fun p => (p.1, p.2.name)) = m.map (fun p => (p.1, p.2.name))) :
    m2.map Prod.fst = m.map Prod.fst := by
  have h2 := congrArg (List.map Prod.fst) h
  rw [List.map_map, List.map_map] at h2
  exact h2

theorem names_of_kn (m m2 : List (NodeId × SgNode))
    (h : m2.map (fun p => (p.1, p.2.name)) = m.map (fun p => (p.1, p.2.name))) :
    m2.map (fun p => p.2.name) = m.map (fun p => p.2.name) := by
  have h2 := congrArg (List.map Prod.snd) h
  rw [List.map_map, List.map_map] at h2
  exact h2

theorem findMap_mem {α : Type} : ∀ (m : List (Nat × α)) (id : Nat) (v : α),
    findMap m id = some v → (id, v) ∈ m := by
  intro m
  induction m with
  | nil => intro id v h; cases h
  | cons p rest ih =>
    obtain ⟨k, w⟩ := p
    intro id v h
    simp only [findMap] at h
    by_cases hk : k = id
    · rw [if_pos hk] at h
      injection h with h2
      subst hk
      subst h2
      exact List.mem_cons_self _ _
    · rw [if_neg hk] at h
      exact List.mem_cons_of_mem _ (ih id v h)

theorem findMap_isSome_of_mem_keys {α : Type} : ∀ (m : List (Nat × α)) (id : Nat),
    id ∈ m.map Prod.fst → ∃ v, findMap m id = some v := by
  intro m
  induction m with
  | nil => intro id h; simp at h
  | cons p rest ih =>
    obtain ⟨k, w⟩ := p
    intro id h
    simp only [findMap]
    by_cases hk : k = id
    · rw [if_pos hk]
      exact ⟨w, rfl⟩
    · rw [if_neg hk]
      refine ih id ?_
      simp only [List.map_cons, List.mem_cons] at h
      rcases h with h | h
      · exact absurd h.symm hk
      · exact h

theorem findMap_none_mono {α : Type} (m m2 : List (Nat × α)) (nid : Nat)
    (hsub : ∀ k, k ∈ m2.map Prod.fst → k ∈ m.map Prod.fst)
    (h : findMap m nid = none) : findMap m2 nid = none := by
  cases hx : findMap m2 nid with
  | none => rfl
  | some v =>
    have hmem := findMap_mem m2 nid v hx
    have hk : nid ∈ m2.map Prod.fst := by
      have := List.mem_map_of_mem Prod.fst hmem
      exact this
    obtain ⟨w, hw⟩ := findMap_isSome_of_mem_keys m nid (hsub nid hk)
    rw [h] at hw
    cases hw

theorem eraseNodeByName_sublist (m : List (NodeId × SgNode)) (nm : String) :
    (eraseNodeByName m nm).Sublist m := by
  induction m with
  | nil => exact List.Sublist.refl _
  | cons p rest ih =>
    obtain ⟨k, v⟩ := p
    simp only [eraseNodeByName]
    by_cases h : v.name = nm
    · rw [if_pos h]
      exact List.sublist_cons_self _ _
    · rw [if_neg h]
      exact List.Sublist.cons₂ _ ih

theorem findMap_of_kn_eq : ∀ (m m2 : List (NodeId × SgNode)),
    m2.map (fun p => (p.1, p.2.name)) = m.map (fun p => (p.1, p.2.name)) →
    ∀ nid v, findMap m nid = some v →
      ∃ v2, findMap m2 nid = some v2 ∧ v2.name = v.name := by
  intro m
  induction m with
  | nil => intro m2 h nid v hf; cases hf
  | cons p rest ih =>
    obtain ⟨k, w⟩ := p
    intro m2 h nid v hf
    cases m2 with
    | nil => simp at h
    | cons q rest2 =>
      obtain ⟨k2, w2⟩ := q
      simp only [List.map_cons, List.cons.injEq, Prod.mk.injEq] at h
      obtain ⟨⟨hk2, hn2⟩, hrest⟩ := h
      simp only [findMap] at hf ⊢
      by_cases hkid : k = nid
      · rw [if_pos hkid] at hf
        injection hf with hv
        rw [if_pos (hk2.trans hkid)]
        exact ⟨w2, rfl, by rw [hn2, hv]⟩
      · rw [if_neg hkid] at hf
        rw [if_neg (by rw [hk2]; exact hkid)]
        exact ih rest2 hrest nid v hf

theorem eraseNodeByName_findMap_none :
    ∀ (m : List (NodeId × SgNode)) (nid : NodeId) (v : SgNode),
    (m.map Prod.fst).Nodup → (m.map (fun p => p.2.name)).Nodup →
    findMap m nid = some v →
    findMap (eraseNodeByName m v.name) nid = none := by
  intro m
  induction m with
  | nil => intro nid v _ _ h; cases h
  | cons p rest ih =>
    obtain ⟨k, w⟩ := p
    intro nid v hk hn hf
    simp only [List.map_cons, List.nodup_cons] at hk hn
    simp only [findMap] at hf
    simp only [eraseNodeByName]
    by_cases hkid : k = nid
    · rw [if_pos hkid] at hf
      injection hf with hv
      rw [if_pos (by rw [hv])]
      cases hx : findMap rest nid with
      | none => rfl
      | some y =>
        have := findMap_mem rest nid y hx
        have hmemk : nid ∈ rest.map Prod.fst := List.mem_map_of_mem Prod.fst this
        rw [hkid] at hk
        exact absurd hmemk hk.1
    · rw [if_neg hkid] at hf
      by_cases hnm : w.name = v.name
      · have hmem := findMap_mem rest nid v hf
        have : v.name ∈ rest.map (fun p => p.2.name) :=
          List.mem_map_of_mem (fun p => p.2.name) hmem
        rw [← hnm] at this
        exact absurd this hn.1
      · rw [if_neg hnm]
        simp only [findMap]
        rw [if_neg hkid]
        exact ih nid v hk.2 hn.2 hf

theorem cleanupStep_mem (used : List NodeId) (g2 : SgNodeGraph) (nid : NodeId)
    (hm : nid ∈ used) : cleanupStep used g2 nid = g2 := by
  unfold cleanupStep
  rw [if_pos hm]

theorem cleanupStep_noNode (used : List NodeId) (g2 : SgNodeGraph) (nid : NodeId)
    (hm : nid ∉ used) (hn : g2.getAnyNode nid = none) : cleanupStep used g2 nid = g2 := by
  unfold cleanupStep
  rw [if_neg hm]
  simp only [hn]

theorem cleanupStep_erase (used : List NodeId) (g2 : SgNodeGraph) (nid : NodeId)
    (node : SgNode) (hm : nid ∉ used) (hn : g2.getAnyNode nid = some node) :
    cleanupStep used g2 nid = { disconnectNode g2 nid with
      colorTransformMap := eraseCtm (disconnectNode g2 nid).colorTransformMap nid,
      nodeMap := eraseNodeByName (disconnectNode g2 nid).nodeMap node.name } := by
  unfold cleanupStep
  rw [if_neg hm]
  simp only [hn]

theorem cleanupStep_R (used : List NodeId) (g2 : SgNodeGraph) (a : NodeId)
    (hkeys : (g2.nodeMap.map Prod.fst).Nodup)
    (hnames : (g2.nodeMap.map (fun p => p.2.name)).Nodup) :
    ((cleanupStep used g2 a).nodeMap.map Prod.fst).Nodup ∧
    ((cleanupStep used g2 a).nodeMap.map (fun p => p.2.name)).Nodup := by
  by_cases hm : a ∈ used
  · rw [cleanupStep_mem used g2 a hm]
    exact ⟨hkeys, hnames⟩
  · cases hn : g2.getAnyNode a with
    | none =>
      rw [cleanupStep_noNode used g2 a hm hn]
      exact ⟨hkeys, hnames⟩
    | some node =>
      rw [cleanupStep_erase used g2 a node hm hn]
      have hkn := kn_disconnectNode g2 a
      have hkeys2 : ((disconnectNode g2 a).nodeMap.map Prod.fst).Nodup := by
        rw [keys_of_kn _ _ hkn]
        exact hkeys
      have hnames2 : ((disconnectNode g2 a).nodeMap.map (fun p => p.2.name)).Nodup := by
        rw [names_of_kn _ _ hkn]
        exact hnames
      constructor
      · exact List.Nodup.sublist ((eraseNodeByName_sublist _ _).map Prod.fst) hkeys2
      · exact List.Nodup.sublist
          ((eraseNodeByName_sublist _ _).map (fun p => p.2.name)) hnames2

theorem cleanupStep_Q (used : List NodeId) (g2 : SgNodeGraph) (a nid : NodeId)
    (h : findMap g2.nodeMap nid = none) :
    findMap (cleanupStep used g2 a).nodeMap nid = none := by
  by_cases hm : a ∈ used
  · rw [cleanupStep_mem used g2 a hm]
    exact h
  · cases hn : g2.getAnyNode a with
    | none =>
      rw [cleanupStep_noNode used g2 a hm hn]
      exact h
    | some node =>
      rw [cleanupStep_erase used g2 a node hm hn]
      have hd : findMap (disconnectNode g2 a).nodeMap nid = none := by
        refine findMap_none_mono g2.nodeMap _ nid ?_ h
        intro k hk
        rw [keys_of_kn _ _ (kn_disconnectNode g2 a)] at hk
        exact hk
      refine findMap_none_mono (disconnectNode g2 a).nodeMap _ nid ?_ hd
      intro k hk
      exact ((eraseNodeByName_sublist _ _).map Prod.fst).subset hk

theorem cleanupStep_kill (used : List NodeId) (g2 : SgNodeGraph) (nid : NodeId)
    (hnu : nid ∉ used) (h0 : nid ≠ 0)
    (hkeys : (g2.nodeMap.map Prod.fst).Nodup)
    (hnames : (g2.nodeMap.map (fun p => p.2.name)).Nodup) :
    findMap (cleanupStep used g2 nid).nodeMap nid = none := by
  cases hn : g2.getAnyNode nid with
  | none =>
    rw [cleanupStep_noNode used g2 nid hnu hn]
    unfold SgNodeGraph.getAnyNode at hn
    rw [if_neg h0] at hn
    exact hn
  | some node =>
    rw [cleanupStep_erase used g2 nid node hnu hn]
    show findMap (eraseNodeByName (disconnectNode g2 nid).nodeMap node.name) nid = none
    have hkn := kn_disconnectNode g2 nid
    have hkeys2 : ((disconnectNode g2 nid).nodeMap.map Prod.fst).Nodup := by
      rw [keys_of_kn _ _ hkn]
      exact hkeys
    have hnames2 : ((disconnectNode g2 nid).nodeMap.map (fun p => p.2.name)).Nodup := by
      rw [names_of_kn _ _ hkn]
      exact hnames
    have hfm : findMap g2.nodeMap nid = some node := by
      unfold SgNodeGraph.getAnyNode at hn
      rw [if_neg h0] at hn
      exact hn
    obtain ⟨node2, hfm2, hname2⟩ := findMap_of_kn_eq g2.nodeMap _ hkn nid node hfm
    rw [← hname2]
    exact eraseNodeByName_findMap_none _ nid node2 hkeys2 hnames2 hfm2

theorem cleanupFold_R (used : List NodeId) :
    ∀ (ls : List NodeId) (g2 : SgNodeGraph),
    (g2.nodeMap.map Prod.fst).Nodup → (g2.nodeMap.map (fun p => p.2.name)).Nodup →
    ((ls.foldl (cleanupStep used) g2).nodeMap.map Prod.fst).Nodup ∧
    ((ls.foldl (cleanupStep used) g2).nodeMap.map (fun p => p.2.name)).Nodup := by
  intro ls
  induction ls with
  | nil => intro g2 h1 h2; exact ⟨h1, h2⟩
  | cons a as ih =>
    intro g2 h1 h2
    rw [List.foldl_cons]
    obtain ⟨h1', h2'⟩ := cleanupStep_R used g2 a h1 h2
    exact ih _ h1' h2'

theorem cleanupFold_Q (used : List NodeId) :
    ∀ (ls : List NodeId) (g2 : SgNodeGraph) (nid : NodeId),
    findMap g2.nodeMap nid = none →
    findMap ((ls.foldl (cleanupStep used) g2).nodeMap) nid = none := by
  intro ls
  induction ls with
  | nil => intro g2 nid h; exact h
  | cons a as ih =>
    intro g2 nid h
    rw [List.foldl_cons]
    exact ih _ nid (cleanupStep_Q used g2 a nid h)

theorem cleanup_removes (g1 : SgNodeGraph) (used : List NodeId) (nid : NodeId)
    (hkeys : (g1.nodeMap.map Prod.fst).Nodup)
    (hnames : (g1.nodeMap.map (fun p => p.2.name)).Nodup)
    (h0 : nid ≠ 0)
    (hmem : nid ∈ g1.nodeOrder) (hnu : nid ∉ used) :
    (optimizeCleanup g1 used).getAnyNode nid = none ∧
    (optimizeCleanup g1 used).nodeOrder = used := by
  obtain ⟨A, B, horder⟩ := List.append_of_mem hmem
  constructor
  · show (if nid = 0 then some (optimizeCleanup g1 used).graphNode
      else findMap (optimizeCleanup g1 used).nodeMap nid) = none
    rw [if_neg h0]
    show findMap (g1.nodeOrder.foldl (cleanupStep used) g1).nodeMap nid = none
    rw [horder, List.foldl_append, List.foldl_cons]
    obtain ⟨hkA, hnA⟩ := cleanupFold_R used A g1 hkeys hnames
    exact cleanupFold_Q used B _ nid (cleanupStep_kill used _ nid hnu h0 hkA hnA)
  · rfl

/-- **C2** (amended): the `optimize` edit loop bypasses every
CONSTANT-classified node whose value input (index 0) is unconnected —
each downstream consumer of its primary output receives the constant's
literal value and is disconnected from it — and counts the edit.  A
CONSTANT node whose value input is upstream-connected is skipped by the
edit loop, but it is *not* necessarily left in place: whenever at least
one edit was made the dead-node sweep runs, and the sweep removes every
node absent from the recomputed used set from both the node map and the
node order (see the counterexample, where an upstream-connected
constant is swept away). -/
theorem claim2_theorem (g : SgNodeGraph) (nid : NodeId) (node : SgNode)
    (hn : g.getAnyNode nid = some node)
    (hcls : node.hasClassification clCONSTANT = true)
    (vi : SgInput) (hvi : node.inputOrder.get? 0 = some vi) :
    (∀ output, vi.connection = none → node.outputOrder.get? 0 = some output →
      ∃ g2, optimizeNodeStep g nid = Except.ok (g2, true) ∧
        ∀ d ∈ output.connections,
          g2.getInputPort d = (g.getInputPort d).map
            (fun i => { i with connection := none, value := vi.value })) ∧
    (∀ src, vi.connection = some src → optimizeNodeStep g nid = Except.ok (g, false)) ∧
    (∀ g1 e used, optimizeEdits g = Except.ok (g1, e) → 0 < e →
      computeUsedNodes g1 = Except.ok used →
      optimize g = Except.ok (optimizeCleanup g1 used)) ∧
    (∀ g1 used m, (g1.nodeMap.map Prod.fst).Nodup →
      (g1.nodeMap.map (fun p => p.2.name)).Nodup →
      m ≠ 0 → m ∈ g1.nodeOrder → m ∉ used →
      (optimizeCleanup g1 used).getAnyNode m = none ∧
      (optimizeCleanup g1 used).nodeOrder = used) := by
  refine ⟨?_, ?_, ?_, ?_⟩
  · intro output hvc hout
    exact optimizeStep_constant g nid node hn hcls vi hvi hvc output hout
  · intro src hvc
    exact optimizeStep_constantSkip g nid node hn hcls vi hvi src hvc
  · intro g1 e used h1 he h2
    exact optimize_pipeline g g1 e used h1 he h2
  · intro g1 used m hk hm h0 hmem hnu
    exact cleanup_removes g1 used m hk hm h0 hmem hnu

/-- Counterexample to C2's "left in place" clause: node 3 is a CONSTANT
whose value input is upstream-connected, yet after `optimize` it is gone
from both the node map and the node order — the bypass of node 1 counted
an edit, the recomputed used set is empty (the socket was disconnected
by the bypass), and the sweep removed every node.  The true part of the
claim is also visible: the downstream socket received the literal and
was disconnected. -/
theorem claim2_counterexample :
    ((c2Graph.getAnyNode 3).map fun n => n.hasClassification clCONSTANT) = some true ∧
    ((c2Graph.getAnyNode 3).map fun n => (n.inputOrder.get? 0).map (fun i => i.connection)) =
      some (some (some (2, 0))) ∧
    optimize c2Graph = Except.ok c2Opt ∧
    c2Opt.getAnyNode 3 = none ∧
    (3 : NodeId) ∉ c2Opt.nodeOrder ∧
    (c2Opt.graphNode.inputOrder.get? 0).map (fun i => (i.value, i.connection)) =
      some (some (.str "red"), none) :=
  ⟨by decide, by decide, rfl, by decide, by decide, by decide⟩

/-- Witness for C2 on the fixture: node 1's step bypasses (the socket
gets the literal and is disconnected), node 3's step is a skip, and the
sweep with an empty used set removes node 3. -/
theorem claim2_witness :
    (∃ g2, optimizeNodeStep c2Graph 1 = Except.ok (g2, true) ∧
      g2.getInputPort (0, 0) = some (mkInput "out" "color3" (some (.str "red")) none)) ∧
    optimizeNodeStep c2Graph 3 = Except.ok (c2Graph, false) ∧
    (optimizeCleanup c2Graph []).getAnyNode 3 = none := by
  have h1 := claim2_theorem c2Graph 1
    (mkNode "c" (clTEXTURE + clCONSTANT)
      [mkInput "value" "color3" (some (.str "red")) none]
      [mkOutput "out" "color3" [(0, 0)]]) rfl (by decide)
    (mkInput "value" "color3" (some (.str "red")) none) rfl
  have h3 := claim2_theorem c2Graph 3
    (mkNode "x" (clTEXTURE + clCONSTANT)
      [mkInput "value" "color3" (some (.str "blue")) (some (2, 0))]
      [mkOutput "out" "color3" []]) rfl (by decide)
    (mkInput "value" "color3" (some (.str "blue")) (some (2, 0))) rfl
  refine ⟨?_, ?_, ?_⟩
  · obtain ⟨g2, hstep, hvals⟩ := h1.1 (mkOutput "out" "color3" [(0, 0)]) rfl rfl
    refine ⟨g2, hstep, ?_⟩
    rw [hvals (0, 0) (by decide)]
    decide
  · exact h3.2.1 (2, 0) rfl
  · exact (h3.2.2.2 c2Graph [] 3 (by decide) (by decide) (by decide) (by decide)
      (by decide)).1

theorem strFind_strErase_ne : ∀ (m : List (String × Nat)) (s s' : String), s' ≠ s →
    strFind (strErase m s) s' = strFind m s' := by
  intro m s s' hne
  induction m with
  | nil => rfl
  | cons p rest ih =>
    obtain ⟨k, v⟩ := p
    simp only [strErase, strFind]
    by_cases hk : k = s
    · rw [if_pos hk, if_neg (fun he => hne (by rw [← he, hk]))]
    · rw [if_neg hk]
      simp only [strFind]
      by_cases hk' : k = s'
      · rw [if_pos hk', if_pos hk']
      · rw [if_neg hk', if_neg hk']
        exact ih

theorem strFind_append_ne (s s' : String) (idx : Nat) (hne : s' ≠ s) :
    ∀ m : List (String × Nat), strFind (m ++ [(s, idx)]) s' = strFind m s' := by
  intro m
  induction m with
  | nil =>
    simp only [List.nil_append, strFind]
    rw [if_neg (fun he => hne (by rw [← he]))]
  | cons p rest ih =>
    obtain ⟨k, v⟩ := p
    simp only [List.cons_append, strFind]
    by_cases hk' : k = s'
    · rw [if_pos hk', if_pos hk']
    · rw [if_neg hk', if_neg hk']
      exact ih

theorem strFind_overwrite_ne (s s' : String) (idx : Nat) (hne : s' ≠ s) :
    ∀ m : List (String × Nat),
      strFind (m.map (fun p => if p.1 = s then (s, idx) else p)) s' = strFind m s' := by
  intro m
  induction m with
  | nil => rfl
  | cons p rest ih =>
    obtain ⟨k, v⟩ := p
    simp only [List.map_cons]
    by_cases hk : k = s
    · simp only [hk, if_pos rfl]
      show strFind ((s, idx) :: _) s' = strFind ((s, v) :: rest) s'
      simp only [strFind]
      rw [if_neg (fun he => hne (by rw [← he])), if_neg (fun he => hne (by rw [← he]))]
      exact ih
    · simp only [if_neg hk]
      show strFind ((k, v) :: _) s' = strFind ((k, v) :: rest) s'
      simp only [strFind]
      by_cases hk' : k = s'
      · rw [if_pos hk', if_pos hk']
      · rw [if_neg hk', if_neg hk']
        exact ih

theorem strFind_strInsert_ne (m : List (String × Nat)) (s s' : String) (idx : Nat)
    (hne : s' ≠ s) : strFind (strInsert m s idx) s' = strFind m s' := by
  unfold strInsert
  cases h : strFind m s with
  | none => exact strFind_append_ne s s' idx hne m
  | some v => exact strFind_overwrite_ne s s' idx hne m

theorem strFind_none_of_no_key (m : List (String × Nat)) (s : String)
    (h : ∀ p ∈ m, p.1 ≠ s) : strFind m s = none := by
  induction m with
  | nil => rfl
  | cons p rest ih =>
    obtain ⟨k, v⟩ := p
    simp only [strFind]
    rw [if_neg (h (k, v) (List.mem_cons_self _ _))]
    exact ih (fun q hq => h q (List.mem_cons_of_mem _ hq))

theorem listModify_oob {α : Type} : ∀ (l : List α) (k : Nat) (f : α → α),
    l.length ≤ k → listModify l k f = l := by
  intro l
  induction l with
  | nil => intro k f h; rfl
  | cons a rest ih =>
    intro k f h
    cases k with
    | zero => simp at h
    | succ k2 =>
      show a :: listModify rest k2 f = a :: rest
      rw [ih k2 f (by simpa using h)]

theorem listModify_map_outName : ∀ (l : List SgOutput) (k : Nat) (r : String),
    (listModify l k (fun o => { o with name := r })).map (fun o => o.name) =
      (l.map (fun o => o.name)).set k r := by
  intro l
  induction l with
  | nil => intro k r; cases k <;> rfl
  | cons a rest ih =>
    intro k r
    cases k with
    | zero => rfl
    | succ k2 =>
      show a.name :: (listModify rest k2 _).map _ = a.name :: (rest.map _).set k2 r
      rw [ih k2 r]

theorem listModify_map_inName : ∀ (l : List SgInput) (k : Nat) (r : String),
    (listModify l k (fun i => { i with name := r })).map (fun i => i.name) =
      (l.map (fun i => i.name)).set k r := by
  intro l
  induction l with
  | nil => intro k r; cases k <;> rfl
  | cons a rest ih =>
    intro k r
    cases k with
    | zero => rfl
    | succ k2 =>
      show a.name :: (listModify rest k2 _).map _ = a.name :: (rest.map _).set k2 r
      rw [ih k2 r]

theorem set_eq_take_cons_drop {α : Type} : ∀ (l : List α) (k : Nat) (a : α), k < l.length →
    l.set k a = l.take k ++ a :: l.drop (k + 1) := by
  intro l
  induction l with
  | nil => intro k a h; simp at h
  | cons x xs ih =>
    intro k a h
    cases k with
    | zero => rfl
    | succ k2 =>
      show x :: xs.set k2 a = x :: (xs.take k2 ++ a :: xs.drop (k2 + 1))
      rw [ih k2 a (by simpa using h)]

theorem eq_take_cons_drop {α : Type} : ∀ (l : List α) (k : Nat) (a : α), l.get? k = some a →
    l = l.take k ++ a :: l.drop (k + 1) := by
  intro l
  induction l with
  | nil => intro k a h; cases h
  | cons x xs ih =>
    intro k a h
    cases k with
    | zero =>
      have h2 : x = a := by injection h
      rw [← h2]
      rfl
    | succ k2 =>
      show x :: xs = x :: (xs.take k2 ++ a :: xs.drop (k2 + 1))
      rw [← ih k2 a h]

theorem set_same {α : Type} : ∀ (l : List α) (k : Nat) (a : α), l.get? k = some a →
    l.set k a = l := by
  intro l
  induction l with
  | nil => intro k a h; cases h
  | cons x xs ih =>
    intro k a h
    cases k with
    | zero =>
      have h2 : x = a := by injection h
      rw [← h2]
      rfl
    | succ k2 =>
      show x :: xs.set k2 a = x :: xs
      rw [ih k2 a h]

theorem nodup_replaceOne (pre post : List String) (a b : String)
    (h : (pre ++ a :: post).Nodup) (hb1 : b ∉ pre) (hb2 : b ∉ post) :
    (pre ++ b :: post).Nodup := by
  rw [List.nodup_append] at h ⊢
  obtain ⟨h1, h2, h3⟩ := h
  rw [List.nodup_cons] at h2 ⊢
  refine ⟨h1, ⟨hb2, h2.2⟩, ?_⟩
  intro x hx hy
  rcases List.mem_cons.mp hy with rfl | hy2
  · exact hb1 hx
  · exact h3 hx (List.mem_cons_of_mem _ hy2)

theorem renameOutput_self (n : SgNode) (name : String) : n.renameOutput name name = n := by
  unfold SgNode.renameOutput
  rw [if_pos rfl]

theorem renameOutput_char (n : SgNode) (name newName : String) (k : Nat)
    (hne : name ≠ newName) (hf : strFind n.outputMap name = some k) :
    n.renameOutput name newName = { n with
      outputOrder := listModify n.outputOrder k (fun o => { o with name := newName }),
      outputMap := strInsert (strErase n.outputMap name) newName k } := by
  unfold SgNode.renameOutput
  rw [if_neg hne]
  simp only [hf]

theorem renameOutput_noHit (n : SgNode) (name newName : String)
    (hne : name ≠ newName) (hf : strFind n.outputMap name = none) :
    n.renameOutput name newName = n := by
  unfold SgNode.renameOutput
  rw [if_neg hne]
  simp only [hf]

theorem renameInput_self (n : SgNode) (name : String) : n.renameInput name name = n := by
  unfold SgNode.renameInput
  rw [if_pos rfl]

theorem renameInput_noHit (n : SgNode) (name newName : String)
    (hne : name ≠ newName) (hf : strFind n.inputMap name = none) :
    n.renameInput name newName = n := by
  unfold SgNode.renameInput
  rw [if_neg hne]
  simp only [hf]

theorem vnSockOutStep_none (mkU : String → List String → String × List String)
    (st : SgNodeGraph × List String) (idx : Nat)
    (h : st.1.graphNode.outputOrder.get? idx = none) : vnSockOutStep mkU st idx = st := by
  unfold vnSockOutStep
  simp only [h]

theorem vnSockOutStep_char (mkU : String → List String → String × List String)
    (st : SgNodeGraph × List String) (idx : Nat) (sock : SgOutput)
    (h : st.1.graphNode.outputOrder.get? idx = some sock) :
    vnSockOutStep mkU st idx =
      ({ st.1 with graphNode := st.1.graphNode.renameOutput sock.name (mkU sock.name st.2).1 },
       (mkU sock.name st.2).2) := by
  unfold vnSockOutStep
  simp only [h]

theorem vnSockInStep_none (mkU : String → List String → String × List String)
    (st : SgNodeGraph × List String) (idx : Nat)
    (h : st.1.graphNode.inputOrder.get? idx = none) : vnSockInStep mkU st idx = st := by
  unfold vnSockInStep
  simp only [h]

theorem vnSockInStep_char (mkU : String → List String → String × List String)
    (st : SgNodeGraph × List String) (idx : Nat) (sock : SgInput)
    (h : st.1.graphNode.inputOrder.get? idx = some sock) :
    vnSockInStep mkU st idx =
      ({ st.1.setInputPort (0, idx) (fun i => { i with name := (mkU sock.name st.2).1 }) with
          graphNode := (st.1.setInputPort (0, idx)
            (fun i => { i with name := (mkU sock.name st.2).1 })).graphNode.renameInput
            (mkU sock.name st.2).1 sock.name },
       (mkU sock.name st.2).2) := by
  unfold vnSockInStep
  simp only [h]

theorem vnNodeOutStep_noNode (mkU : String → List String → String × List String)
    (nid : NodeId) (stb : SgNodeGraph × List String) (idx : Nat)
    (h : stb.1.getAnyNode nid = none) : vnNodeOutStep mkU nid stb idx = stb := by
  unfold vnNodeOutStep
  simp only [h]

theorem vnNodeOutStep_noOut (mkU : String → List String → String × List String)
    (nid : NodeId) (stb : SgNodeGraph × List String) (idx : Nat) (node2 : SgNode)
    (h : stb.1.getAnyNode nid = some node2) (h2 : node2.outputOrder.get? idx = none) :
    vnNodeOutStep mkU nid stb idx = stb := by
  unfold vnNodeOutStep
  simp only [h, h2]

theorem vnNodeOutStep_char (mkU : String → List String → String × List String)
    (nid : NodeId) (stb : SgNodeGraph × List String) (idx : Nat) (node2 : SgNode)
    (output : SgOutput)
    (h : stb.1.getAnyNode nid = some node2) (h2 : node2.outputOrder.get? idx = some output) :
    vnNodeOutStep mkU nid stb idx =
      (stb.1.updateNode nid (fun n => n.renameOutput output.name
          (mkU (node2.name ++ "_" ++ output.name) stb.2).1),
       (mkU (node2.name ++ "_" ++ output.name) stb.2).2) := by
  unfold vnNodeOutStep
  simp only [h, h2]

theorem vnNodeStep_noNode (mkU : String → List String → String × List String)
    (st : SgNodeGraph × List String) (nid : NodeId)
    (h : st.1.getAnyNode nid = none) : vnNodeStep mkU st nid = st := by
  unfold vnNodeStep
  simp only [h]

theorem vnNodeStep_char (mkU : String → List String → String × List String)
    (st : SgNodeGraph × List String) (nid : NodeId) (node : SgNode)
    (h : st.1.getAnyNode nid = some node) :
    vnNodeStep mkU st nid =
      (List.range node.outputOrder.length).foldl (vnNodeOutStep mkU nid) st := by
  unfold vnNodeStep
  simp only [h]

theorem interiorOutNames_congr (g1 g2 : SgNodeGraph)
    (hm : g1.nodeMap = g2.nodeMap) (ho : g1.nodeOrder = g2.nodeOrder)
    (h0 : ∀ nid ∈ g1.nodeOrder, nid ≠ 0) :
    interiorOutNames g1 = interiorOutNames g2 := by
  unfold interiorOutNames
  rw [ho]
  congr 1
  refine List.map_congr_left ?_
  intro nid hmem
  have h0' : nid ≠ 0 := h0 nid (by rw [ho]; exact hmem)
  unfold nodeOutNameBlock SgNodeGraph.getAnyNode
  rw [if_neg h0', if_neg h0', hm]

theorem allPortNames_setGraphNode (g : SgNodeGraph) (gn : SgNode)
    (h0 : ∀ nid ∈ g.nodeOrder, nid ≠ 0) :
    allPortNames { g with graphNode := gn } =
      gn.outputOrder.map (fun o => o.name) ++ gn.inputOrder.map (fun i => i.name) ++
      interiorOutNames g := by
  unfold allPortNames
  rw [interiorOutNames_congr { g with graphNode := gn } g rfl rfl h0]

theorem mem_allPortNames_out {g : SgNodeGraph} {x : String}
    (h : x ∈ g.graphNode.outputOrder.map (fun o => o.name)) : x ∈ allPortNames g :=
  List.mem_append_left _ (List.mem_append_left _ h)

theorem mem_allPortNames_in {g : SgNodeGraph} {x : String}
    (h : x ∈ g.graphNode.inputOrder.map (fun i => i.name)) : x ∈ allPortNames g :=
  List.mem_append_left _ (List.mem_append_right _ h)

theorem mem_allPortNames_int {g : SgNodeGraph} {x : String}
    (h : x ∈ interiorOutNames g) : x ∈ allPortNames g :=
  List.mem_append_right _ h

theorem nodup_setBlock1 (OUT inN int : List String) (k : Nat) (r : String)
    (hnd : ((OUT ++ inN) ++ int).Nodup)
    (hfr : ∀ x, x ∈ OUT ∨ x ∈ inN ∨ x ∈ int → r ≠ x) :
    ((OUT.set k r ++ inN) ++ int).Nodup := by
  by_cases hk : k < OUT.length
  · obtain ⟨a, ha⟩ : ∃ a, OUT.get? k = some a := by
      cases hx : OUT.get? k with
      | none =>
        rw [List.get?_eq_none] at hx
        omega
      | some a => exact ⟨a, rfl⟩
    have hold : (OUT.take k ++ a :: (OUT.drop (k + 1) ++ (inN ++ int))).Nodup := by
      have h1 : ((OUT ++ inN) ++ int).Nodup := hnd
      rw [eq_take_cons_drop OUT k a ha, List.append_assoc, List.append_assoc,
        List.cons_append] at h1
      exact h1
    have hr1 : r ∉ OUT.take k := fun hmem =>
      hfr r (Or.inl (List.take_subset _ _ hmem)) rfl
    have hr2 : r ∉ OUT.drop (k + 1) ++ (inN ++ int) := by
      intro hmem
      rcases List.mem_append.mp hmem with h | h
      · exact hfr r (Or.inl (List.drop_subset _ _ h)) rfl
      · rcases List.mem_append.mp h with h | h
        · exact hfr r (Or.inr (Or.inl h)) rfl
        · exact hfr r (Or.inr (Or.inr h)) rfl
    have hnew := nodup_replaceOne _ _ a r hold hr1 hr2
    rw [List.append_assoc, set_eq_take_cons_drop OUT k r hk, List.append_assoc,
      List.cons_append]
    exact hnew
  · rw [List.set_eq_of_length_le (Nat.le_of_not_lt hk)]
    exact hnd

theorem subset_setBlock1 (OUT inN int : List String) (k : Nat) (r : String) (x : String)
    (h : x ∈ (OUT.set k r ++ inN) ++ int) :
    (x ∈ OUT ∨ x ∈ inN ∨ x ∈ int) ∨ x = r := by
  rcases List.mem_append.mp h with h | h
  · rcases List.mem_append.mp h with h | h
    · rcases List.mem_or_eq_of_mem_set h with h | h
      · exact Or.inl (Or.inl h)
      · exact Or.inr h
    · exact Or.inl (Or.inr (Or.inl h))
  · exact Or.inl (Or.inr (Or.inr h))

theorem nodup_set_mid (PRE NN POST : List String) (k : Nat) (r : String)
    (hnd : (PRE ++ (NN ++ POST)).Nodup)
    (hfr : ∀ x, x ∈ PRE ∨ x ∈ NN ∨ x ∈ POST → r ≠ x) :
    (PRE ++ (NN.set k r ++ POST)).Nodup := by
  by_cases hk : k < NN.length
  · obtain ⟨a, ha⟩ : ∃ a, NN.get? k = some a := by
      cases hx : NN.get? k with
      | none =>
        rw [List.get?_eq_none] at hx
        omega
      | some a => exact ⟨a, rfl⟩
    have hold : ((PRE ++ NN.take k) ++ a :: (NN.drop (k + 1) ++ POST)).Nodup := by
      have h1 := hnd
      rw [eq_take_cons_drop NN k a ha] at h1
      rw [List.append_assoc, List.cons_append, ← List.append_assoc] at h1
      exact h1
    have hr1 : r ∉ PRE ++ NN.take k := by
      intro hmem
      rcases List.mem_append.mp hmem with h | h
      · exact hfr r (Or.inl h) rfl
      · exact hfr r (Or.inr (Or.inl (List.take_subset _ _ h))) rfl
    have hr2 : r ∉ NN.drop (k + 1) ++ POST := by
      intro hmem
      rcases List.mem_append.mp hmem with h | h
      · exact hfr r (Or.inr (Or.inl (List.drop_subset _ _ h))) rfl
      · exact hfr r (Or.inr (Or.inr h)) rfl
    have hnew := nodup_replaceOne _ _ a r hold hr1 hr2
    rw [set_eq_take_cons_drop NN k r hk, List.append_assoc, List.cons_append,
      ← List.append_assoc]
    exact hnew
  · rw [List.set_eq_of_length_le (Nat.le_of_not_lt hk)]
    exact hnd

theorem mem_set_mid_cases (PRE NN POST : List String) (k : Nat) (r x : String)
    (h : x ∈ PRE ++ (NN.set k r ++ POST)) : x ∈ PRE ++ (NN ++ POST) ∨ x = r := by
  rcases List.mem_append.mp h with h | h
  · exact Or.inl (List.mem_append_left _ h)
  · rcases List.mem_append.mp h with h | h
    · rcases List.mem_or_eq_of_mem_set h with h | h
      · exact Or.inl (List.mem_append_right _ (List.mem_append_left _ h))
      · exact Or.inr h
    · exact Or.inl (List.mem_append_right _ (List.mem_append_right _ h))

theorem nodup_snoc {α : Type} (l : List α) (a : α) (h : l.Nodup) (ha : a ∉ l) :
    (l ++ [a]).Nodup := by
  rw [List.nodup_append]
  exact ⟨h, List.nodup_singleton a, fun x hx hy => ha ((List.mem_singleton.mp hy) ▸ hx)⟩

theorem drop_cons_of_get? {α : Type} : ∀ (l : List α) (k : Nat) (a : α),
    l.get? k = some a → l.drop k = a :: l.drop (k + 1) := by
  intro l
  induction l with
  | nil =>
    intro k a h
    cases h
  | cons x xs ih =>
    intro k a h
    cases k with
    | zero =>
      have h2 : x = a := by injection h
      rw [h2]
      rfl
    | succ k2 =>
      show xs.drop k2 = a :: xs.drop (k2 + 1)
      exact ih k2 a h

theorem set_append_length {α : Type} : ∀ (l1 : List α) (a b : α) (l2 : List α),
    (l1 ++ a :: l2).set l1.length b = l1 ++ b :: l2 := by
  intro l1
  induction l1 with
  | nil =>
    intro a b l2
    rfl
  | cons x xs ih =>
    intro a b l2
    show x :: (xs ++ a :: l2).set xs.length b = x :: (xs ++ b :: l2)
    rw [ih a b l2]

/-- First `validateNames` loop (input sockets): processed left to right,
every socket's final name is the `mkUnique` result of its call, the
result list extends the shared set in order, and the shared set stays
duplicate-free — with no assumption on the original names. -/
theorem vnSockOut_fold_inv (mkU : String → List String → String × List String)
    (g : SgNodeGraph)
    (hfresh : ∀ s st, (mkU s st).1 ∉ st)
    (hset : ∀ s st, (mkU s st).2 = st ++ [(mkU s st).1])
    (horig : ∀ s st, (mkU s st).1 = s ∨ (mkU s st).1 ∉ allPortNames g)
    (hgmap : ∀ j o, g.graphNode.outputOrder.get? j = some o →
      strFind g.graphNode.outputMap o.name = some j) :
    ∀ (k s : Nat) (st : SgNodeGraph × List String) (PREV NEW : List String),
    s + k = g.graphNode.outputOrder.length →
    st.1.graphNode.inputOrder = g.graphNode.inputOrder →
    st.1.graphNode.inputMap = g.graphNode.inputMap →
    st.1.nodeMap = g.nodeMap →
    st.1.nodeOrder = g.nodeOrder →
    st.1.graphNode.outputOrder.length = g.graphNode.outputOrder.length →
    (∀ j, s ≤ j → st.1.graphNode.outputOrder.get? j = g.graphNode.outputOrder.get? j) →
    (∀ j o, s ≤ j → g.graphNode.outputOrder.get? j = some o →
      strFind st.1.graphNode.outputMap o.name = some j) →
    st.1.graphNode.outputOrder.map (fun o => o.name) =
      NEW ++ (g.graphNode.outputOrder.map (fun o => o.name)).drop s →
    st.2 = PREV ++ NEW →
    st.2.Nodup →
    ∃ NEW2,
      ((List.range' s k).foldl (vnSockOutStep mkU) st).2 = PREV ++ (NEW ++ NEW2) ∧
      ((List.range' s k).foldl (vnSockOutStep mkU) st).1.graphNode.outputOrder.map
        (fun o => o.name) = NEW ++ NEW2 ∧
      ((List.range' s k).foldl (vnSockOutStep mkU) st).2.Nodup ∧
      ((List.range' s k).foldl (vnSockOutStep mkU) st).1.graphNode.inputOrder =
        g.graphNode.inputOrder ∧
      ((List.range' s k).foldl (vnSockOutStep mkU) st).1.graphNode.inputMap =
        g.graphNode.inputMap ∧
      ((List.range' s k).foldl (vnSockOutStep mkU) st).1.nodeMap = g.nodeMap ∧
      ((List.range' s k).foldl (vnSockOutStep mkU) st).1.nodeOrder = g.nodeOrder := by
  intro k
  induction k with
  | zero =>
    intro s st PREV NEW hsk hin hinm hnm hno hlenO hge hmap hnames hst2 hnd
    rw [List.range'_zero, List.foldl_nil]
    refine ⟨[], ?_, ?_, hnd, hin, hinm, hnm, hno⟩
    · rw [List.append_nil]
      exact hst2
    · rw [List.append_nil, hnames]
      have hnil : (g.graphNode.outputOrder.map (fun o => o.name)).drop s = [] := by
        apply List.drop_eq_nil_of_le
        rw [List.length_map]
        omega
      rw [hnil, List.append_nil]
  | succ k ihk =>
    intro s st PREV NEW hsk hin hinm hnm hno hlenO hge hmap hnames hst2 hnd
    obtain ⟨o_s, hOs⟩ : ∃ o, g.graphNode.outputOrder.get? s = some o := by
      cases hx : g.graphNode.outputOrder.get? s with
      | none =>
        rw [List.get?_eq_none] at hx
        omega
      | some o => exact ⟨o, rfl⟩
    have hcur : st.1.graphNode.outputOrder.get? s = some o_s := by
      rw [hge s (Nat.le_refl s)]
      exact hOs
    have hNlen : NEW.length = s := by
      have h2 := congrArg List.length hnames
      rw [List.length_map, List.length_append, List.length_drop, List.length_map, hlenO] at h2
      omega
    have hdropc : (g.graphNode.outputOrder.map (fun o => o.name)).drop s =
        o_s.name :: (g.graphNode.outputOrder.map (fun o => o.name)).drop (s + 1) := by
      apply drop_cons_of_get?
      rw [List.get?_map, hOs]
      rfl
    have hst2' : (mkU o_s.name st.2).2 = PREV ++ (NEW ++ [(mkU o_s.name st.2).1]) := by
      rw [hset, hst2, List.append_assoc]
    have hnd' : (mkU o_s.name st.2).2.Nodup := by
      rw [hset]
      exact nodup_snoc st.2 (mkU o_s.name st.2).1 hnd (hfresh _ _)
    rw [List.range'_succ, List.foldl_cons, vnSockOutStep_char mkU st s o_s hcur]
    by_cases hid : (mkU o_s.name st.2).1 = o_s.name
    · have hgr : st.1.graphNode.renameOutput o_s.name (mkU o_s.name st.2).1 =
          st.1.graphNode := by
        rw [hid]
        exact renameOutput_self _ _
      rw [hgr]
      obtain ⟨NEW2, e1, e2, e3, e4, e5, e6, e7⟩ := ihk (s + 1)
        ({ st.1 with graphNode := st.1.graphNode }, (mkU o_s.name st.2).2)
        PREV (NEW ++ [(mkU o_s.name st.2).1]) (by omega) hin hinm hnm hno hlenO
        (fun j hj => hge j (by omega)) (fun j o hj hO => hmap j o (by omega) hO)
        (by
          show st.1.graphNode.outputOrder.map (fun o => o.name) = _
          rw [hnames, hdropc, hid, List.append_cons])
        hst2' hnd'
      refine ⟨[(mkU o_s.name st.2).1] ++ NEW2, ?_, ?_, e3, e4, e5, e6, e7⟩
      · rw [← List.append_assoc NEW [(mkU o_s.name st.2).1] NEW2]
        exact e1
      · rw [← List.append_assoc NEW [(mkU o_s.name st.2).1] NEW2]
        exact e2
    · have hfr : (mkU o_s.name st.2).1 ∉ allPortNames g := by
        rcases horig o_s.name st.2 with h | h
        · exact absurd h hid
        · exact h
      have hosg : o_s.name ∈ allPortNames g :=
        mem_allPortNames_out (List.mem_map_of_mem _ (List.get?_mem hOs))
      have hne : o_s.name ≠ (mkU o_s.name st.2).1 := by
        intro he
        exact hfr (he ▸ hosg)
      have hfind : strFind st.1.graphNode.outputMap o_s.name = some s :=
        hmap s o_s (Nat.le_refl s) hOs
      rw [renameOutput_char st.1.graphNode o_s.name (mkU o_s.name st.2).1 s hne hfind]
      obtain ⟨NEW2, e1, e2, e3, e4, e5, e6, e7⟩ := ihk (s + 1)
        ({ st.1 with graphNode := { st.1.graphNode with
            outputOrder := listModify st.1.graphNode.outputOrder s
              (fun o => { o with name := (mkU o_s.name st.2).1 }),
            outputMap := strInsert (strErase st.1.graphNode.outputMap o_s.name)
              (mkU o_s.name st.2).1 s } }, (mkU o_s.name st.2).2)
        PREV (NEW ++ [(mkU o_s.name st.2).1]) (by omega) hin hinm hnm hno
        (by
          show (listModify st.1.graphNode.outputOrder s
            (fun o => { o with name := (mkU o_s.name st.2).1 })).length = _
          rw [listModify_length]
          exact hlenO)
        (by
          intro j hj
          show (listModify st.1.graphNode.outputOrder s
            (fun o => { o with name := (mkU o_s.name st.2).1 })).get? j = _
          rw [listModify_get?, if_neg (by omega : ¬ s = j)]
          exact hge j (by omega))
        (by
          intro j o hj hO
          show strFind (strInsert (strErase st.1.graphNode.outputMap o_s.name)
            (mkU o_s.name st.2).1 s) o.name = some j
          have hne1 : o.name ≠ (mkU o_s.name st.2).1 := by
            intro he
            exact hfr (he ▸ mem_allPortNames_out (List.mem_map_of_mem _ (List.get?_mem hO)))
          have hne2 : o.name ≠ o_s.name := by
            intro he
            have h1 := hgmap j o hO
            rw [he, hgmap s o_s hOs] at h1
            injection h1 with h2
            omega
          rw [strFind_strInsert_ne _ _ _ _ hne1, strFind_strErase_ne _ _ _ hne2]
          exact hmap j o (by omega) hO)
        (by
          show (listModify st.1.graphNode.outputOrder s
            (fun o => { o with name := (mkU o_s.name st.2).1 })).map (fun o => o.name) = _
          rw [listModify_map_outName, hnames, hdropc, ← hNlen, set_append_length,
            List.append_cons])
        hst2' hnd'
      refine ⟨[(mkU o_s.name st.2).1] ++ NEW2, ?_, ?_, e3, e4, e5, e6, e7⟩
      · rw [← List.append_assoc NEW [(mkU o_s.name st.2).1] NEW2]
        exact e1
      · rw [← List.append_assoc NEW [(mkU o_s.name st.2).1] NEW2]
        exact e2

theorem setInputPort0_char (g : SgNodeGraph) (idx : Nat) (f : SgInput → SgInput) :
    g.setInputPort (0, idx) f =
      { g with graphNode :=
        { g.graphNode with inputOrder := listModify g.graphNode.inputOrder idx f } } := by
  unfold SgNodeGraph.setInputPort SgNodeGraph.updateNode
  rw [if_pos rfl]

/-- Second `validateNames` loop (output sockets): each socket's array
entry takes the `mkUnique` result of its call while the in-place
`makeUnique` + stale-keyed rename leaves the socket map untouched; the
shared set extends by the results in order and stays duplicate-free. -/
theorem vnSockIn_fold_inv (mkU : String → List String → String × List String)
    (g : SgNodeGraph)
    (hfresh : ∀ s st, (mkU s st).1 ∉ st)
    (hset : ∀ s st, (mkU s st).2 = st ++ [(mkU s st).1])
    (horig : ∀ s st, (mkU s st).1 = s ∨ (mkU s st).1 ∉ allPortNames g)
    (hkeys : ∀ p ∈ g.graphNode.inputMap,
      p.1 ∈ g.graphNode.inputOrder.map (fun i => i.name)) :
    ∀ (k s : Nat) (st : SgNodeGraph × List String) (PREV NEW : List String),
    s + k = g.graphNode.inputOrder.length →
    st.1.graphNode.inputMap = g.graphNode.inputMap →
    st.1.nodeMap = g.nodeMap →
    st.1.nodeOrder = g.nodeOrder →
    st.1.graphNode.inputOrder.length = g.graphNode.inputOrder.length →
    (∀ j, s ≤ j → st.1.graphNode.inputOrder.get? j = g.graphNode.inputOrder.get? j) →
    st.1.graphNode.inputOrder.map (fun i => i.name) =
      NEW ++ (g.graphNode.inputOrder.map (fun i => i.name)).drop s →
    st.2 = PREV ++ NEW →
    st.2.Nodup →
    ∃ NEW2,
      ((List.range' s k).foldl (vnSockInStep mkU) st).2 = PREV ++ (NEW ++ NEW2) ∧
      ((List.range' s k).foldl (vnSockInStep mkU) st).1.graphNode.inputOrder.map
        (fun i => i.name) = NEW ++ NEW2 ∧
      ((List.range' s k).foldl (vnSockInStep mkU) st).2.Nodup ∧
      ((List.range' s k).foldl (vnSockInStep mkU) st).1.graphNode.outputOrder =
        st.1.graphNode.outputOrder ∧
      ((List.range' s k).foldl (vnSockInStep mkU) st).1.graphNode.inputMap =
        g.graphNode.inputMap ∧
      ((List.range' s k).foldl (vnSockInStep mkU) st).1.nodeMap = g.nodeMap ∧
      ((List.range' s k).foldl (vnSockInStep mkU) st).1.nodeOrder = g.nodeOrder := by
  intro k
  induction k with
  | zero =>
    intro s st PREV NEW hsk hinm hnm hno hlenI hge hnames hst2 hnd
    rw [List.range'_zero, List.foldl_nil]
    refine ⟨[], ?_, ?_, hnd, rfl, hinm, hnm, hno⟩
    · rw [List.append_nil]
      exact hst2
    · rw [List.append_nil, hnames]
      have hnil : (g.graphNode.inputOrder.map (fun i => i.name)).drop s = [] := by
        apply List.drop_eq_nil_of_le
        rw [List.length_map]
        omega
      rw [hnil, List.append_nil]
  | succ k ihk =>
    intro s st PREV NEW hsk hinm hnm hno hlenI hge hnames hst2 hnd
    obtain ⟨i_s, hIs⟩ : ∃ i, g.graphNode.inputOrder.get? s = some i := by
      cases hx : g.graphNode.inputOrder.get? s with
      | none =>
        rw [List.get?_eq_none] at hx
        omega
      | some i => exact ⟨i, rfl⟩
    have hcur : st.1.graphNode.inputOrder.get? s = some i_s := by
      rw [hge s (Nat.le_refl s)]
      exact hIs
    have hNlen : NEW.length = s := by
      have h2 := congrArg List.length hnames
      rw [List.length_map, List.length_append, List.length_drop, List.length_map, hlenI] at h2
      omega
    have hdropc : (g.graphNode.inputOrder.map (fun i => i.name)).drop s =
        i_s.name :: (g.graphNode.inputOrder.map (fun i => i.name)).drop (s + 1) := by
      apply drop_cons_of_get?
      rw [List.get?_map, hIs]
      rfl
    have hst2' : (mkU i_s.name st.2).2 = PREV ++ (NEW ++ [(mkU i_s.name st.2).1]) := by
      rw [hset, hst2, List.append_assoc]
    have hnd' : (mkU i_s.name st.2).2.Nodup := by
      rw [hset]
      exact nodup_snoc st.2 (mkU i_s.name st.2).1 hnd (hfresh _ _)
    have hm3 : (st.1.setInputPort (0, s)
        (fun i => { i with name := (mkU i_s.name st.2).1 })).graphNode.inputMap =
        g.graphNode.inputMap := by
      rw [setInputPort0_char]
      exact hinm
    have hren : (st.1.setInputPort (0, s)
        (fun i => { i with name := (mkU i_s.name st.2).1 })).graphNode.renameInput
        (mkU i_s.name st.2).1 i_s.name =
        (st.1.setInputPort (0, s)
          (fun i => { i with name := (mkU i_s.name st.2).1 })).graphNode := by
      by_cases hid : (mkU i_s.name st.2).1 = i_s.name
      · rw [hid]
        exact renameInput_self _ _
      · have hfr : (mkU i_s.name st.2).1 ∉ allPortNames g := by
          rcases horig i_s.name st.2 with h | h
          · exact absurd h hid
          · exact h
        apply renameInput_noHit _ _ _ hid
        rw [hm3]
        apply strFind_none_of_no_key
        intro p hp he
        exact hfr (he ▸ mem_allPortNames_in (hkeys p hp))
    have hstep : vnSockInStep mkU st s =
        ({ st.1 with graphNode := { st.1.graphNode with
            inputOrder := listModify st.1.graphNode.inputOrder s
              (fun i => { i with name := (mkU i_s.name st.2).1 }) } },
         (mkU i_s.name st.2).2) := by
      rw [vnSockInStep_char mkU st s i_s hcur, hren, setInputPort0_char]
    rw [List.range'_succ, List.foldl_cons, hstep]
    obtain ⟨NEW2, e1, e2, e3, e4, e5, e6, e7⟩ := ihk (s + 1)
      ({ st.1 with graphNode := { st.1.graphNode with
          inputOrder := listModify st.1.graphNode.inputOrder s
            (fun i => { i with name := (mkU i_s.name st.2).1 }) } },
       (mkU i_s.name st.2).2)
      PREV (NEW ++ [(mkU i_s.name st.2).1]) (by omega) hinm hnm hno
      (by
        show (listModify st.1.graphNode.inputOrder s
          (fun i => { i with name := (mkU i_s.name st.2).1 })).length = _
        rw [listModify_length]
        exact hlenI)
      (by
        intro j hj
        show (listModify st.1.graphNode.inputOrder s
          (fun i => { i with name := (mkU i_s.name st.2).1 })).get? j = _
        rw [listModify_get?, if_neg (by omega : ¬ s = j)]
        exact hge j (by omega))
      (by
        show (listModify st.1.graphNode.inputOrder s
          (fun i => { i with name := (mkU i_s.name st.2).1 })).map (fun i => i.name) = _
        rw [listModify_map_inName, hnames, hdropc, ← hNlen, set_append_length,
          List.append_cons])
      hst2' hnd'
    refine ⟨[(mkU i_s.name st.2).1] ++ NEW2, ?_, ?_, e3, e4, e5, e6, e7⟩
    · rw [← List.append_assoc NEW [(mkU i_s.name st.2).1] NEW2]
      exact e1
    · rw [← List.append_assoc NEW [(mkU i_s.name st.2).1] NEW2]
      exact e2

theorem join_cons_eq {α : Type} (a : List α) (L : List (List α)) :
    (a :: L).join = a ++ L.join := by
  simp [List.join]

theorem join_append_eq {α : Type} (L1 L2 : List (List α)) :
    (L1 ++ L2).join = L1.join ++ L2.join := by
  induction L1 with
  | nil => simp
  | cons a rest ih =>
    rw [List.cons_append, join_cons_eq, join_cons_eq, ih, List.append_assoc]

theorem updateNode_ne0_char (g : SgNodeGraph) (id : NodeId) (f : SgNode → SgNode)
    (h : id ≠ 0) :
    g.updateNode id f = { g with nodeMap := mapUpdate g.nodeMap id f } := by
  unfold SgNodeGraph.updateNode
  rw [if_neg h]

theorem nodeOutNameBlock_updateNode_other (g' : SgNodeGraph) (nid id : NodeId)
    (f : SgNode → SgNode) (h : id ≠ nid) :
    nodeOutNameBlock (g'.updateNode nid f) id = nodeOutNameBlock g' id := by
  unfold nodeOutNameBlock
  rw [getAnyNode_updateNode_other _ _ _ _ h]

theorem nodeOutNameBlock_of_get (g' : SgNodeGraph) (nid : NodeId) (n : SgNode)
    (h : g'.getAnyNode nid = some n) :
    nodeOutNameBlock g' nid = n.outputOrder.map (fun o => o.name) := by
  unfold nodeOutNameBlock
  rw [h]

theorem interiorOutNames_decomp (g' : SgNodeGraph) (P F : List NodeId) (nid : NodeId)
    (ho : g'.nodeOrder = P ++ nid :: F) :
    interiorOutNames g' = (P.map (nodeOutNameBlock g')).join ++
      (nodeOutNameBlock g' nid ++ (F.map (nodeOutNameBlock g')).join) := by
  unfold interiorOutNames
  rw [ho, List.map_append, List.map_cons, join_append_eq, join_cons_eq]

theorem allPortNames_updateNode (g' : SgNodeGraph) (nid : NodeId) (f : SgNode → SgNode)
    (P F : List NodeId) (ho : g'.nodeOrder = P ++ nid :: F)
    (hnid0 : nid ≠ 0) (hPn : nid ∉ P) (hFn : nid ∉ F) :
    allPortNames (g'.updateNode nid f) =
      g'.graphNode.outputOrder.map (fun o => o.name) ++
      g'.graphNode.inputOrder.map (fun i => i.name) ++
      ((P.map (nodeOutNameBlock g')).join ++
        (nodeOutNameBlock (g'.updateNode nid f) nid ++ (F.map (nodeOutNameBlock g')).join)) := by
  have hgn : (g'.updateNode nid f).graphNode = g'.graphNode := by
    rw [updateNode_ne0_char g' nid f hnid0]
  have ho' : (g'.updateNode nid f).nodeOrder = P ++ nid :: F := by
    rw [updateNode_ne0_char g' nid f hnid0]
    exact ho
  have hP2 : P.map (nodeOutNameBlock (g'.updateNode nid f)) = P.map (nodeOutNameBlock g') :=
    List.map_congr_left (fun id hid =>
      nodeOutNameBlock_updateNode_other g' nid id f (fun he => hPn (he ▸ hid)))
  have hF2 : F.map (nodeOutNameBlock (g'.updateNode nid f)) = F.map (nodeOutNameBlock g') :=
    List.map_congr_left (fun id hid =>
      nodeOutNameBlock_updateNode_other g' nid id f (fun he => hFn (he ▸ hid)))
  unfold allPortNames
  rw [hgn, interiorOutNames_decomp _ P F nid ho', hP2, hF2]

theorem allPortNames_decomp (g' : SgNodeGraph) (P F : List NodeId) (nid : NodeId)
    (ho : g'.nodeOrder = P ++ nid :: F) :
    allPortNames g' =
      g'.graphNode.outputOrder.map (fun o => o.name) ++
      g'.graphNode.inputOrder.map (fun i => i.name) ++
      ((P.map (nodeOutNameBlock g')).join ++
        (nodeOutNameBlock g' nid ++ (F.map (nodeOutNameBlock g')).join)) := by
  unfold allPortNames
  rw [interiorOutNames_decomp g' P F nid ho]

theorem nodup_of_mem_join {α : Type} :
    ∀ (L : List (List α)), L.join.Nodup → ∀ l ∈ L, l.Nodup := by
  intro L
  induction L with
  | nil =>
    intro _ l hl
    cases hl
  | cons a rest ih =>
    intro h l hl
    rw [join_cons_eq, List.nodup_append] at h
    rcases List.mem_cons.mp hl with rfl | hl2
    · exact h.1
    · exact ih h.2.1 l hl2

theorem nodup_get?_ne {α : Type} (l : List α) (h : l.Nodup) (i j : Nat) (hij : i ≠ j)
    (a b : α) (ha : l.get? i = some a) (hb : l.get? j = some b) : a ≠ b := by
  obtain ⟨hi, hgi⟩ := List.get?_eq_some.mp ha
  obtain ⟨hj, hgj⟩ := List.get?_eq_some.mp hb
  intro he
  apply hij
  have hg : l.get ⟨i, hi⟩ = l.get ⟨j, hj⟩ := by
    rw [hgi, hgj, he]
  have := (List.Nodup.get_inj_iff h).mp hg
  exact congrArg Fin.val this

/-- Inner third-loop fold of `validateNames` over one interior node's
outputs: processed left to right, each output takes the made-unique
compound name, the node's output map keeps targeting the still
unprocessed outputs (this needs the node's compounds to avoid its own
output names), and the shared set extends by the results in order. -/
theorem vnNodeOut_fold_inv (mkU : String → List String → String × List String)
    (g : SgNodeGraph) (nid : NodeId) (N : SgNode)
    (hfresh : ∀ s st, (mkU s st).1 ∉ st)
    (hset : ∀ s st, (mkU s st).2 = st ++ [(mkU s st).1])
    (horig : ∀ s st, (mkU s st).1 = s ∨ (mkU s st).1 ∉ allPortNames g)
    (hnid0 : nid ≠ 0)
    (hNnames : ∀ o ∈ N.outputOrder, o.name ∈ allPortNames g)
    (hmapN : ∀ j o, N.outputOrder.get? j = some o → strFind N.outputMap o.name = some j)
    (hscfN : ∀ o ∈ N.outputOrder,
      (N.name ++ "_" ++ o.name) ∉ N.outputOrder.map (fun o2 => o2.name)) :
    ∀ (k s : Nat) (stb : SgNodeGraph × List String) (node2 : SgNode)
      (PREV NEW : List String),
    s + k ≤ N.outputOrder.length →
    stb.1.getAnyNode nid = some node2 →
    node2.name = N.name →
    node2.outputOrder.length = N.outputOrder.length →
    (∀ j, s ≤ j → node2.outputOrder.get? j = N.outputOrder.get? j) →
    (∀ j, j < s → ∀ o, N.outputOrder.get? j = some o →
      ∃ st0, node2.outputOrder.get? j =
        some { o with name := (mkU (N.name ++ "_" ++ o.name) st0).1 }) →
    (∀ j o, s ≤ j → N.outputOrder.get? j = some o → strFind node2.outputMap o.name = some j) →
    node2.outputOrder.map (fun o => o.name) =
      NEW ++ (N.outputOrder.map (fun o => o.name)).drop s →
    stb.2 = PREV ++ NEW →
    stb.2.Nodup →
    ∃ NEW2,
      ((List.range' s k).foldl (vnNodeOutStep mkU nid) stb).2 = PREV ++ (NEW ++ NEW2) ∧
      ((List.range' s k).foldl (vnNodeOutStep mkU nid) stb).2.Nodup ∧
      (∀ id, id ≠ nid →
        ((List.range' s k).foldl (vnNodeOutStep mkU nid) stb).1.getAnyNode id =
          stb.1.getAnyNode id) ∧
      ((List.range' s k).foldl (vnNodeOutStep mkU nid) stb).1.nodeOrder = stb.1.nodeOrder ∧
      ((List.range' s k).foldl (vnNodeOutStep mkU nid) stb).1.graphNode = stb.1.graphNode ∧
      (∃ node3,
        ((List.range' s k).foldl (vnNodeOutStep mkU nid) stb).1.getAnyNode nid = some node3 ∧
        node3.name = N.name ∧
        node3.outputOrder.length = N.outputOrder.length ∧
        node3.outputOrder.map (fun o => o.name) =
          (NEW ++ NEW2) ++ (N.outputOrder.map (fun o => o.name)).drop (s + k) ∧
        (∀ j, s + k ≤ j → node3.outputOrder.get? j = N.outputOrder.get? j) ∧
        (∀ j, j < s + k → ∀ o, N.outputOrder.get? j = some o →
          ∃ st0, node3.outputOrder.get? j =
            some { o with name := (mkU (N.name ++ "_" ++ o.name) st0).1 }) ∧
        (∀ j o, s + k ≤ j → N.outputOrder.get? j = some o →
          strFind node3.outputMap o.name = some j)) := by
  intro k
  induction k with
  | zero =>
    intro s stb node2 PREV NEW hsk hnode2 hname hlen hge hlt hmap hnames hst2 hnd
    rw [List.range'_zero, List.foldl_nil]
    refine ⟨[], ?_, hnd, fun id _ => rfl, rfl, rfl,
      node2, hnode2, hname, hlen, ?_, ?_, ?_, ?_⟩
    · rw [List.append_nil]
      exact hst2
    · rw [List.append_nil]
      exact hnames
    · intro j hj
      exact hge j (by omega)
    · intro j hj o hN
      exact hlt j (by omega) o hN
    · intro j o hj hN
      exact hmap j o (by omega) hN
  | succ k ihk =>
    intro s stb node2 PREV NEW hsk hnode2 hname hlen hge hlt hmap hnames hst2 hnd
    obtain ⟨o_s, hNs⟩ : ∃ o, N.outputOrder.get? s = some o := by
      cases hx : N.outputOrder.get? s with
      | none =>
        rw [List.get?_eq_none] at hx
        omega
      | some o => exact ⟨o, rfl⟩
    have hosmem : o_s ∈ N.outputOrder := List.get?_mem hNs
    have hget2 : node2.outputOrder.get? s = some o_s := by
      rw [hge s (Nat.le_refl s)]
      exact hNs
    have hchar := vnNodeOutStep_char mkU nid stb s node2 o_s hnode2 hget2
    rw [hname] at hchar
    have hne : o_s.name ≠ (mkU (N.name ++ "_" ++ o_s.name) stb.2).1 := by
      intro he
      rcases horig (N.name ++ "_" ++ o_s.name) stb.2 with h | h
      · exact hscfN o_s hosmem (by rw [← h, ← he]; exact List.mem_map_of_mem _ hosmem)
      · exact h (he ▸ hNnames o_s hosmem)
    have hfindS : strFind node2.outputMap o_s.name = some s := hmap s o_s (Nat.le_refl s) hNs
    have hrc := renameOutput_char node2 o_s.name (mkU (N.name ++ "_" ++ o_s.name) stb.2).1 s
      hne hfindS
    have hlive : (stb.1.updateNode nid (fun n => n.renameOutput o_s.name
        (mkU (N.name ++ "_" ++ o_s.name) stb.2).1)).getAnyNode nid =
        some (node2.renameOutput o_s.name (mkU (N.name ++ "_" ++ o_s.name) stb.2).1) := by
      rw [getAnyNode_updateNode_same, hnode2]
      rfl
    rw [hrc] at hlive
    have hNlen : NEW.length = s := by
      have h2 := congrArg List.length hnames
      rw [List.length_map, List.length_append, List.length_drop, List.length_map, hlen] at h2
      have hslt : s < N.outputOrder.length := by omega
      omega
    have hdropc : (N.outputOrder.map (fun o => o.name)).drop s =
        o_s.name :: (N.outputOrder.map (fun o => o.name)).drop (s + 1) := by
      apply drop_cons_of_get?
      rw [List.get?_map, hNs]
      rfl
    have hlen2 : (listModify node2.outputOrder s
        (fun o => { o with name := (mkU (N.name ++ "_" ++ o_s.name) stb.2).1 })).length =
        N.outputOrder.length := by
      rw [listModify_length]
      exact hlen
    have hge2 : ∀ j, s + 1 ≤ j → (listModify node2.outputOrder s
        (fun o => { o with name := (mkU (N.name ++ "_" ++ o_s.name) stb.2).1 })).get? j =
        N.outputOrder.get? j := by
      intro j hj
      rw [listModify_get?, if_neg (by omega : ¬ s = j)]
      exact hge j (by omega)
    have hlt2 : ∀ j, j < s + 1 → ∀ o, N.outputOrder.get? j = some o →
        ∃ st0, (listModify node2.outputOrder s
          (fun o => { o with name := (mkU (N.name ++ "_" ++ o_s.name) stb.2).1 })).get? j =
          some { o with name := (mkU (N.name ++ "_" ++ o.name) st0).1 } := by
      intro j hj o hN
      by_cases hjs : j = s
      · subst hjs
        refine ⟨stb.2, ?_⟩
        rw [listModify_get?, if_pos rfl, hget2]
        rw [hN] at hNs
        injection hNs with hOO
        subst hOO
        rfl
      · have hj2 : j < s := by omega
        obtain ⟨st0, hst0⟩ := hlt j hj2 o hN
        refine ⟨st0, ?_⟩
        rw [listModify_get?, if_neg (fun he => hjs he.symm)]
        exact hst0
    have hmap2 : ∀ j o, s + 1 ≤ j → N.outputOrder.get? j = some o →
        strFind (strInsert (strErase node2.outputMap o_s.name)
          (mkU (N.name ++ "_" ++ o_s.name) stb.2).1 s) o.name = some j := by
      intro j o hj hN
      have hmem : o ∈ N.outputOrder := List.get?_mem hN
      have hne1 : o.name ≠ (mkU (N.name ++ "_" ++ o_s.name) stb.2).1 := by
        intro he
        rcases horig (N.name ++ "_" ++ o_s.name) stb.2 with h | h
        · exact hscfN o_s hosmem (by rw [← h, ← he]; exact List.mem_map_of_mem _ hmem)
        · exact h (he ▸ hNnames o hmem)
      have hne2 : o.name ≠ o_s.name := by
        intro he
        have h1 := hmapN j o hN
        rw [he, hmapN s o_s hNs] at h1
        injection h1 with h2
        omega
      rw [strFind_strInsert_ne _ _ _ _ hne1, strFind_strErase_ne _ _ _ hne2]
      exact hmap j o (by omega) hN
    have hnames2 : (listModify node2.outputOrder s
        (fun o => { o with name := (mkU (N.name ++ "_" ++ o_s.name) stb.2).1 })).map
          (fun o => o.name) =
        (NEW ++ [(mkU (N.name ++ "_" ++ o_s.name) stb.2).1]) ++
          (N.outputOrder.map (fun o => o.name)).drop (s + 1) := by
      rw [listModify_map_outName, hnames, hdropc, ← hNlen, set_append_length,
        List.append_cons]
    have hst2' : (mkU (N.name ++ "_" ++ o_s.name) stb.2).2 =
        PREV ++ (NEW ++ [(mkU (N.name ++ "_" ++ o_s.name) stb.2).1]) := by
      rw [hset, hst2, List.append_assoc]
    have hnd' : (mkU (N.name ++ "_" ++ o_s.name) stb.2).2.Nodup := by
      rw [hset]
      exact nodup_snoc stb.2 (mkU (N.name ++ "_" ++ o_s.name) stb.2).1 hnd (hfresh _ _)
    have hgn2 : (stb.1.updateNode nid (fun n => n.renameOutput o_s.name
        (mkU (N.name ++ "_" ++ o_s.name) stb.2).1)).graphNode = stb.1.graphNode := by
      rw [updateNode_ne0_char _ _ _ hnid0]
    have hno2 : (stb.1.updateNode nid (fun n => n.renameOutput o_s.name
        (mkU (N.name ++ "_" ++ o_s.name) stb.2).1)).nodeOrder = stb.1.nodeOrder := by
      rw [updateNode_ne0_char _ _ _ hnid0]
    rw [List.range'_succ, List.foldl_cons, hchar]
    obtain ⟨NEW2, d1, d2, d3, d4, d5, d6⟩ := ihk (s + 1)
      (stb.1.updateNode nid (fun n => n.renameOutput o_s.name
        (mkU (N.name ++ "_" ++ o_s.name) stb.2).1),
       (mkU (N.name ++ "_" ++ o_s.name) stb.2).2)
      { node2 with
        outputOrder := listModify node2.outputOrder s
          (fun o => { o with name := (mkU (N.name ++ "_" ++ o_s.name) stb.2).1 }),
        outputMap := strInsert (strErase node2.outputMap o_s.name)
          (mkU (N.name ++ "_" ++ o_s.name) stb.2).1 s }
      PREV (NEW ++ [(mkU (N.name ++ "_" ++ o_s.name) stb.2).1])
      (by omega) hlive hname hlen2 hge2 hlt2 hmap2 hnames2 hst2' hnd'
    refine ⟨[(mkU (N.name ++ "_" ++ o_s.name) stb.2).1] ++ NEW2, ?_, d2, ?_, ?_, ?_, ?_⟩
    · rw [← List.append_assoc NEW [(mkU (N.name ++ "_" ++ o_s.name) stb.2).1] NEW2]
      exact d1
    · intro id hid
      rw [d3 id hid]
      exact getAnyNode_updateNode_other _ _ _ _ hid
    · rw [d4]
      exact hno2
    · rw [d5]
      exact hgn2
    · obtain ⟨node3, e1, e2, e3, e3n, e4, e5, e6⟩ := d6
      refine ⟨node3, e1, e2, e3, ?_, ?_, ?_, ?_⟩
      · rw [e3n, ← List.append_assoc NEW [(mkU (N.name ++ "_" ++ o_s.name) stb.2).1] NEW2]
        have hsk2 : s + 1 + k = s + (k + 1) := by omega
        rw [hsk2]
      · intro j hj
        exact e4 j (by omega)
      · intro j hj o hN
        exact e5 j (by omega) o hN
      · intro j o hj hN
        exact e6 j o (by omega) hN

theorem mem_join_of_mem {α : Type} :
    ∀ (L : List (List α)) (l : List α) (x : α), l ∈ L → x ∈ l → x ∈ L.join := by
  intro L
  induction L with
  | nil =>
    intro l x hl
    cases hl
  | cons a rest ih =>
    intro l x hl hx
    rw [join_cons_eq]
    rcases List.mem_cons.mp hl with rfl | hl2
    · exact List.mem_append_left _ hx
    · exact List.mem_append_right _ (ih l x hl2 hx)

theorem nodeOutNameBlock_congr (g1 g2 : SgNodeGraph) (id : NodeId)
    (h : g1.getAnyNode id = g2.getAnyNode id) :
    nodeOutNameBlock g1 id = nodeOutNameBlock g2 id := by
  unfold nodeOutNameBlock
  rw [h]

/-- Outer third-loop fold of `validateNames` over the node order: every
processed node's output-name block becomes the block of made-unique
compound results, appended in order to the shared set. -/
theorem vnNode_fold_inv (mkU : String → List String → String × List String)
    (g : SgNodeGraph)
    (hfresh : ∀ s st, (mkU s st).1 ∉ st)
    (hset : ∀ s st, (mkU s st).2 = st ++ [(mkU s st).1])
    (horig : ∀ s st, (mkU s st).1 = s ∨ (mkU s st).1 ∉ allPortNames g)
    (h0 : ∀ nid ∈ g.nodeOrder, nid ≠ 0)
    (hOrdNd : g.nodeOrder.Nodup)
    (hsome : ∀ nid ∈ g.nodeOrder, (g.getAnyNode nid).isSome = true)
    (hmapg : ∀ nid ∈ g.nodeOrder, ∀ N, g.getAnyNode nid = some N →
      ∀ j o, N.outputOrder.get? j = some o → strFind N.outputMap o.name = some j)
    (hscf : ∀ nid ∈ g.nodeOrder, ∀ N, g.getAnyNode nid = some N →
      ∀ o ∈ N.outputOrder,
        (N.name ++ "_" ++ o.name) ∉ N.outputOrder.map (fun o2 => o2.name)) :
    ∀ (todo DONEN : List NodeId) (st : SgNodeGraph × List String)
      (PREV0 DONEJ : List String) (GFIX : SgNode),
    g.nodeOrder = DONEN ++ todo →
    (∀ m ∈ todo, st.1.getAnyNode m = g.getAnyNode m) →
    st.1.nodeOrder = g.nodeOrder →
    st.1.graphNode = GFIX →
    (DONEN.map (nodeOutNameBlock st.1)).join = DONEJ →
    st.2 = PREV0 ++ DONEJ →
    st.2.Nodup →
    ∃ DONEJ2,
      (todo.foldl (vnNodeStep mkU) st).2 = PREV0 ++ (DONEJ ++ DONEJ2) ∧
      (todo.foldl (vnNodeStep mkU) st).2.Nodup ∧
      (todo.foldl (vnNodeStep mkU) st).1.nodeOrder = g.nodeOrder ∧
      (todo.foldl (vnNodeStep mkU) st).1.graphNode = GFIX ∧
      ((DONEN ++ todo).map (nodeOutNameBlock (todo.foldl (vnNodeStep mkU) st).1)).join =
        DONEJ ++ DONEJ2 ∧
      (∀ id, id ∉ todo →
        (todo.foldl (vnNodeStep mkU) st).1.getAnyNode id = st.1.getAnyNode id) ∧
      (∀ nid ∈ todo, ∀ N, g.getAnyNode nid = some N →
        ∃ node3, (todo.foldl (vnNodeStep mkU) st).1.getAnyNode nid = some node3 ∧
          node3.name = N.name ∧
          node3.outputOrder.length = N.outputOrder.length ∧
          ∀ j o, N.outputOrder.get? j = some o →
            ∃ st0, node3.outputOrder.get? j =
              some { o with name := (mkU (N.name ++ "_" ++ o.name) st0).1 }) := by
  intro todo
  induction todo with
  | nil =>
    intro DONEN st PREV0 DONEJ GFIX ho hTun hno hgn hPJ hst2 hnd
    refine ⟨[], ?_, hnd, hno, hgn, ?_, fun id _ => rfl, ?_⟩
    · rw [List.append_nil]
      exact hst2
    · rw [List.append_nil, List.append_nil]
      exact hPJ
    · intro nid hmem
      cases hmem
  | cons nid rest ih =>
    intro DONEN st PREV0 DONEJ GFIX ho hTun hno hgn hPJ hst2 hnd
    have hmem : nid ∈ g.nodeOrder := by
      rw [ho]
      exact List.mem_append_right _ (List.mem_cons_self _ _)
    obtain ⟨N, hN⟩ := Option.isSome_iff_exists.mp (hsome nid hmem)
    have hstN : st.1.getAnyNode nid = some N := by
      rw [hTun nid (List.mem_cons_self _ _)]
      exact hN
    have hnid0 : nid ≠ 0 := h0 nid hmem
    have hnd2 := hOrdNd
    rw [ho, List.nodup_append] at hnd2
    have hFn : nid ∉ rest := (List.nodup_cons.mp hnd2.2.1).1
    have hPn : nid ∉ DONEN := fun hp => hnd2.2.2 hp (List.mem_cons_self _ _)
    have hblkg : nodeOutNameBlock g nid = N.outputOrder.map (fun o => o.name) :=
      nodeOutNameBlock_of_get g nid N hN
    have hintblk : nodeOutNameBlock g nid ∈ g.nodeOrder.map (nodeOutNameBlock g) :=
      List.mem_map_of_mem _ hmem
    have hNnamesN : ∀ o ∈ N.outputOrder, o.name ∈ allPortNames g := by
      intro o hoN
      apply mem_allPortNames_int
      show o.name ∈ interiorOutNames g
      apply mem_join_of_mem (g.nodeOrder.map (nodeOutNameBlock g))
        (N.outputOrder.map (fun o => o.name)) o.name
      · rw [← hblkg]
        exact hintblk
      · exact List.mem_map_of_mem _ hoN
    have hstep : vnNodeStep mkU st nid =
        (List.range N.outputOrder.length).foldl (vnNodeOutStep mkU nid) st :=
      vnNodeStep_char mkU st nid N hstN
    obtain ⟨NEW2, c1, c2, c3, c4, c5, c6⟩ :=
      vnNodeOut_fold_inv mkU g nid N hfresh hset horig hnid0 hNnamesN
        (hmapg nid hmem N hN) (hscf nid hmem N hN)
        N.outputOrder.length 0 st N st.2 [] (by omega) hstN rfl rfl
        (fun j _ => rfl) (fun j hj o _ => absurd hj (by omega))
        (fun j o _ hNo => hmapg nid hmem N hN j o hNo)
        (by rw [List.drop_zero, List.nil_append])
        (List.append_nil st.2).symm hnd
    obtain ⟨node3, e1, e2, e3, e3n, e4, e5, e6⟩ := c6
    have hblk3 : node3.outputOrder.map (fun o => o.name) = NEW2 := by
      rw [e3n]
      have hnil : (N.outputOrder.map (fun o => o.name)).drop (0 + N.outputOrder.length) =
          [] := by
        apply List.drop_eq_nil_of_le
        rw [List.length_map]
        omega
      rw [hnil, List.append_nil, List.nil_append]
    rw [List.foldl_cons, hstep, List.range_eq_range']
    have hTun2 : ∀ m ∈ rest,
        ((List.range' 0 N.outputOrder.length).foldl (vnNodeOutStep mkU nid) st).1.getAnyNode
          m = g.getAnyNode m := by
      intro m hm
      have hmne : m ≠ nid := fun he => hFn (he ▸ hm)
      rw [c3 m hmne]
      exact hTun m (List.mem_cons_of_mem _ hm)
    have hno2 : ((List.range' 0 N.outputOrder.length).foldl
        (vnNodeOutStep mkU nid) st).1.nodeOrder = g.nodeOrder := by
      rw [c4]
      exact hno
    have hgn2 : ((List.range' 0 N.outputOrder.length).foldl
        (vnNodeOutStep mkU nid) st).1.graphNode = GFIX := by
      rw [c5]
      exact hgn
    have hPJ2 : ((DONEN ++ [nid]).map (nodeOutNameBlock
        ((List.range' 0 N.outputOrder.length).foldl (vnNodeOutStep mkU nid) st).1)).join =
        DONEJ ++ NEW2 := by
      rw [List.map_append, join_append_eq]
      have hD : DONEN.map (nodeOutNameBlock
          ((List.range' 0 N.outputOrder.length).foldl (vnNodeOutStep mkU nid) st).1) =
          DONEN.map (nodeOutNameBlock st.1) :=
        List.map_congr_left (fun id hid => nodeOutNameBlock_congr _ _ id
          (c3 id (fun he => hPn (he ▸ hid))))
      rw [hD, hPJ]
      congr 1
      show nodeOutNameBlock
        ((List.range' 0 N.outputOrder.length).foldl (vnNodeOutStep mkU nid) st).1 nid ++
          ([] : List String) = NEW2
      rw [List.append_nil, nodeOutNameBlock_of_get _ nid node3 e1]
      exact hblk3
    have hst2b : ((List.range' 0 N.outputOrder.length).foldl
        (vnNodeOutStep mkU nid) st).2 = PREV0 ++ (DONEJ ++ NEW2) := by
      rw [c1, List.nil_append, hst2, List.append_assoc]
    obtain ⟨DONEJ2, d1, d2, d3, d4, d5, d6, d7⟩ := ih (DONEN ++ [nid])
      ((List.range' 0 N.outputOrder.length).foldl (vnNodeOutStep mkU nid) st)
      PREV0 (DONEJ ++ NEW2) GFIX (by rw [ho, List.append_cons]) hTun2 hno2 hgn2
      hPJ2 hst2b c2
    refine ⟨NEW2 ++ DONEJ2, ?_, d2, d3, d4, ?_, ?_, ?_⟩
    · rw [← List.append_assoc DONEJ NEW2 DONEJ2]
      exact d1
    · rw [List.append_cons DONEN nid rest, ← List.append_assoc DONEJ NEW2 DONEJ2]
      exact d5
    · intro id hid
      have hid1 : id ≠ nid := fun he => hid (he ▸ List.mem_cons_self _ _)
      have hid2 : id ∉ rest := fun hm => hid (List.mem_cons_of_mem _ hm)
      rw [d6 id hid2]
      exact c3 id hid1
    · intro m hm N2 hN2
      rcases List.mem_cons.mp hm with rfl | hm2
      · have hNN : N2 = N := by
          rw [hN] at hN2
          injection hN2 with hx
          exact hx.symm
        rw [hNN]
        refine ⟨node3, ?_, e2, e3, ?_⟩
        · rw [d6 m hFn]
          exact e1
        · intro j o hNo
          have hjlt : j < N.outputOrder.length := (List.get?_eq_some.mp hNo).1
          exact e5 j (by omega) o hNo
      · exact d7 m hm2 N2 hN2

theorem wfNames_spec (g : SgNodeGraph) (h : wfNamesB g = true) :
    (∀ j o, g.graphNode.outputOrder.get? j = some o →
      strFind g.graphNode.outputMap o.name = some j) ∧
    (∀ p ∈ g.graphNode.inputMap, p.1 ∈ g.graphNode.inputOrder.map (fun i => i.name)) ∧
    g.nodeOrder.Nodup ∧
    (∀ nid ∈ g.nodeOrder, nid ≠ 0) ∧
    (∀ nid ∈ g.nodeOrder, (g.getAnyNode nid).isSome = true) ∧
    (∀ nid ∈ g.nodeOrder, ∀ N, g.getAnyNode nid = some N →
      ∀ j o, N.outputOrder.get? j = some o → strFind N.outputMap o.name = some j) := by
  unfold wfNamesB at h
  rw [Bool.and_eq_true, Bool.and_eq_true, Bool.and_eq_true] at h
  obtain ⟨⟨⟨hA, hB⟩, hC⟩, hD⟩ := h
  rw [List.all_eq_true] at hA hB hD
  refine ⟨?_, ?_, of_decide_eq_true hC, ?_, ?_, ?_⟩
  · intro j o hjo
    have hjlt : j < g.graphNode.outputOrder.length := (List.get?_eq_some.mp hjo).1
    have h5 := hA j (List.mem_range.mpr hjlt)
    rw [hjo] at h5
    have h6 : (strFind g.graphNode.outputMap o.name == some j) = true := h5
    exact eq_of_beq h6
  · intro p hp
    exact of_decide_eq_true (hB p hp)
  · intro nid hnid
    have h2 := hD nid hnid
    rw [Bool.and_eq_true, Bool.and_eq_true] at h2
    exact of_decide_eq_true h2.1.1
  · intro nid hnid
    have h2 := hD nid hnid
    rw [Bool.and_eq_true, Bool.and_eq_true] at h2
    exact h2.1.2
  · intro nid hnid N hN j o hNo
    have h2 := hD nid hnid
    rw [Bool.and_eq_true, Bool.and_eq_true] at h2
    have h3 := h2.2
    rw [hN] at h3
    have h4 : ((List.range N.outputOrder.length).all fun idx =>
        (N.outputOrder.get? idx).all fun o => strFind N.outputMap o.name == some idx) =
        true := h3
    rw [List.all_eq_true] at h4
    have hjlt : j < N.outputOrder.length := (List.get?_eq_some.mp hNo).1
    have h5 := h4 j (List.mem_range.mpr hjlt)
    rw [hNo] at h5
    have h6 : (strFind N.outputMap o.name == some j) = true := h5
    exact eq_of_beq h6

theorem selfCompoundsFresh_spec (g : SgNodeGraph) (h : selfCompoundsFreshB g = true) :
    ∀ nid ∈ g.nodeOrder, ∀ N, g.getAnyNode nid = some N →
      ∀ o ∈ N.outputOrder,
        (N.name ++ "_" ++ o.name) ∉ N.outputOrder.map (fun o2 => o2.name) := by
  unfold selfCompoundsFreshB at h
  rw [List.all_eq_true] at h
  intro nid hnid N hN o hoN
  have h2 := h nid hnid
  rw [hN] at h2
  have h3 : (N.outputOrder.all fun o =>
      decide ((N.name ++ "_" ++ o.name) ∉ N.outputOrder.map (fun o2 => o2.name))) = true := h2
  rw [List.all_eq_true] at h3
  exact of_decide_eq_true (h3 o hoN)

/-- C7 (amended): after `validateNames`, the collection of port names —
output sockets, input sockets, and every interior node's outputs — is
duplicate-free, and every interior-node output carries the made-unique
compound `<nodeName>_<outputName>`.  The syntax service's `makeUnique`
is abstracted as `mkU`, required to return a name outside the shared
set (recording it there) that is either the request itself or fresh for
the graph's original names.  Original names may collide arbitrarily
across nodes and sockets; only a node whose compound name collides with
one of the same node's own output names is excluded (the
counterexample shows that corner mis-targets the in-place rename). -/
theorem claim7_theorem (mkU : String → List String → String × List String)
    (g : SgNodeGraph)
    (hfresh : ∀ s st, (mkU s st).1 ∉ st)
    (hset : ∀ s st, (mkU s st).2 = st ++ [(mkU s st).1])
    (horig : ∀ s st, (mkU s st).1 = s ∨ (mkU s st).1 ∉ allPortNames g)
    (hwf : wfNamesB g = true)
    (hscf : selfCompoundsFreshB g = true) :
    (allPortNames (validateNames mkU g)).Nodup ∧
    ∀ nid ∈ g.nodeOrder, ∀ N, g.getAnyNode nid = some N →
      ∃ node3, (validateNames mkU g).getAnyNode nid = some node3 ∧
        node3.name = N.name ∧
        node3.outputOrder.length = N.outputOrder.length ∧
        ∀ j o, N.outputOrder.get? j = some o →
          ∃ st0, node3.outputOrder.get? j =
            some { o with name := (mkU (N.name ++ "_" ++ o.name) st0).1 } := by
  obtain ⟨hgmap, hkeys, hOrdNd, h0, hsome, hmapg⟩ := wfNames_spec g hwf
  have hscf2 := selfCompoundsFresh_spec g hscf
  obtain ⟨R1, a1, a2, a3, a4, a5, a6, a7⟩ :=
    vnSockOut_fold_inv mkU g hfresh hset horig hgmap
      g.graphNode.outputOrder.length 0 (g, []) [] []
      (by omega) rfl rfl rfl rfl rfl (fun j _ => rfl)
      (fun j o _ hO => hgmap j o hO)
      (by rw [List.drop_zero, List.nil_append]) rfl List.nodup_nil
  rw [List.nil_append, List.nil_append] at a1
  rw [List.nil_append] at a2
  obtain ⟨R2, b1, b2, b3, b4, b5, b6, b7⟩ :=
    vnSockIn_fold_inv mkU g hfresh hset horig hkeys
      g.graphNode.inputOrder.length 0
      ((List.range' 0 g.graphNode.outputOrder.length).foldl (vnSockOutStep mkU) (g, []))
      R1 [] (by omega) a5 a6 a7 (by rw [a4]) (fun j _ => by rw [a4])
      (by rw [a4, List.drop_zero, List.nil_append])
      (by rw [List.append_nil]; exact a1) a3
  rw [List.nil_append] at b1 b2
  have hTun : ∀ m ∈ g.nodeOrder,
      ((List.range' 0 g.graphNode.inputOrder.length).foldl (vnSockInStep mkU)
        ((List.range' 0 g.graphNode.outputOrder.length).foldl
          (vnSockOutStep mkU) (g, []))).1.getAnyNode m = g.getAnyNode m := by
    intro m hm
    have hm0 := h0 m hm
    unfold SgNodeGraph.getAnyNode
    rw [if_neg hm0, if_neg hm0, b6]
  obtain ⟨R3, c1, c2, c3, c4, c5, c6, c7⟩ :=
    vnNode_fold_inv mkU g hfresh hset horig h0 hOrdNd hsome hmapg hscf2
      g.nodeOrder []
      ((List.range' 0 g.graphNode.inputOrder.length).foldl (vnSockInStep mkU)
        ((List.range' 0 g.graphNode.outputOrder.length).foldl (vnSockOutStep mkU) (g, [])))
      (R1 ++ R2) []
      ((List.range' 0 g.graphNode.inputOrder.length).foldl (vnSockInStep mkU)
        ((List.range' 0 g.graphNode.outputOrder.length).foldl
          (vnSockOutStep mkU) (g, []))).1.graphNode
      (List.nil_append g.nodeOrder).symm hTun b7 rfl rfl
      (by rw [List.append_nil]; exact b1) b3
  rw [List.nil_append] at c1 c5
  rw [List.nil_append] at c5
  have hvn : validateNames mkU g =
      (g.nodeOrder.foldl (vnNodeStep mkU)
        ((List.range' 0 g.graphNode.inputOrder.length).foldl (vnSockInStep mkU)
          ((List.range' 0 g.graphNode.outputOrder.length).foldl
            (vnSockOutStep mkU) (g, [])))).1 := by
    show (((List.range ((List.range g.graphNode.outputOrder.length).foldl
        (vnSockOutStep mkU) (g, [])).1.graphNode.inputOrder.length).foldl (vnSockInStep mkU)
        ((List.range g.graphNode.outputOrder.length).foldl
          (vnSockOutStep mkU) (g, []))).1.nodeOrder.foldl (vnNodeStep mkU)
        ((List.range ((List.range g.graphNode.outputOrder.length).foldl
          (vnSockOutStep mkU) (g, [])).1.graphNode.inputOrder.length).foldl (vnSockInStep mkU)
          ((List.range g.graphNode.outputOrder.length).foldl
            (vnSockOutStep mkU) (g, [])))).1 = _
    simp only [List.range_eq_range']
    rw [a4, b7]
  constructor
  · have hout3 : (g.nodeOrder.foldl (vnNodeStep mkU)
        ((List.range' 0 g.graphNode.inputOrder.length).foldl (vnSockInStep mkU)
          ((List.range' 0 g.graphNode.outputOrder.length).foldl
            (vnSockOutStep mkU) (g, [])))).1.graphNode.outputOrder.map
        (fun o => o.name) = R1 := by
      rw [c4, b4]
      exact a2
    have hin3 : (g.nodeOrder.foldl (vnNodeStep mkU)
        ((List.range' 0 g.graphNode.inputOrder.length).foldl (vnSockInStep mkU)
          ((List.range' 0 g.graphNode.outputOrder.length).foldl
            (vnSockOutStep mkU) (g, [])))).1.graphNode.inputOrder.map
        (fun i => i.name) = R2 := by
      rw [c4]
      exact b2
    have hint3 : interiorOutNames (g.nodeOrder.foldl (vnNodeStep mkU)
        ((List.range' 0 g.graphNode.inputOrder.length).foldl (vnSockInStep mkU)
          ((List.range' 0 g.graphNode.outputOrder.length).foldl
            (vnSockOutStep mkU) (g, [])))).1 = R3 := by
      unfold interiorOutNames
      rw [c3]
      exact c5
    have hAP : allPortNames (g.nodeOrder.foldl (vnNodeStep mkU)
        ((List.range' 0 g.graphNode.inputOrder.length).foldl (vnSockInStep mkU)
          ((List.range' 0 g.graphNode.outputOrder.length).foldl
            (vnSockOutStep mkU) (g, [])))).1 = R1 ++ R2 ++ R3 := by
      unfold allPortNames
      rw [hout3, hin3, hint3]
    rw [hvn, hAP, ← c1]
    exact c2
  · intro nid hnid N hN
    rw [hvn]
    exact c7 nid hnid N hN

theorem strLen_le_sum_of_mem :
    ∀ (st : List String) (x : String), x ∈ st → x.length ≤ (st.map String.length).sum := by
  intro st
  induction st with
  | nil =>
    intro x hx
    cases hx
  | cons a rest ih =>
    intro x hx
    rw [List.map_cons, List.sum_cons]
    rcases List.mem_cons.mp hx with rfl | hx2
    · exact Nat.le_add_right _ _
    · exact Nat.le_trans (ih x hx2) (Nat.le_add_left _ _)

theorem mkUniqueFresh_fresh : ∀ s st, (mkUniqueFresh s st).1 ∉ st := by
  intro s st hmem
  have h1 := strLen_le_sum_of_mem st _ hmem
  have h2 : (mkUniqueFresh s st).1.length =
      s.data.length + ((st.map String.length).sum + 1) + 2 := by
    show ('u' :: '_' ::
      (s.data ++ List.replicate ((st.map String.length).sum + 1) 'x')).length = _
    rw [List.length_cons, List.length_cons, List.length_append, List.length_replicate]
  omega

theorem mkUniqueFresh_not_c7 :
    ∀ s st, (mkUniqueFresh s st).1 = s ∨ (mkUniqueFresh s st).1 ∉ allPortNames c7Graph := by
  intro s st
  right
  intro hmem
  have hlist : allPortNames c7Graph = ["uv", "out", "rgb", "a"] := rfl
  rw [hlist] at hmem
  have h0 : (mkUniqueFresh s st).1.data.get? 0 = some 'u' := rfl
  have h1 : (mkUniqueFresh s st).1.data.get? 1 = some '_' := rfl
  rcases List.mem_cons.mp hmem with he | hmem
  · rw [he] at h1
    exact absurd h1 (by decide)
  rcases List.mem_cons.mp hmem with he | hmem
  · rw [he] at h0
    exact absurd h0 (by decide)
  rcases List.mem_cons.mp hmem with he | hmem
  · rw [he] at h0
    exact absurd h0 (by decide)
  rcases List.mem_cons.mp hmem with he | hmem
  · rw [he] at h0
    exact absurd h0 (by decide)
  · cases hmem

/-- Witness for C7: the concrete `mkUniqueFresh` satisfies the
`makeUnique` contract on the fixture, the fixture is well-formed with
self-compound-free nodes, and the claim follows for it. -/
theorem claim7_witness :
    wfNamesB c7Graph = true ∧
    selfCompoundsFreshB c7Graph = true ∧
    ((allPortNames (validateNames mkUniqueFresh c7Graph)).Nodup ∧
     ∀ nid ∈ c7Graph.nodeOrder, ∀ N, c7Graph.getAnyNode nid = some N →
       ∃ node3, (validateNames mkUniqueFresh c7Graph).getAnyNode nid = some node3 ∧
         node3.name = N.name ∧
         node3.outputOrder.length = N.outputOrder.length ∧
         ∀ j o, N.outputOrder.get? j = some o →
           ∃ st0, node3.outputOrder.get? j =
             some { o with name := (mkUniqueFresh (N.name ++ "_" ++ o.name) st0).1 }) :=
  ⟨rfl, rfl, claim7_theorem mkUniqueFresh c7Graph mkUniqueFresh_fresh (fun s st => rfl)
    mkUniqueFresh_not_c7 rfl rfl⟩

theorem mkUEcho_fresh : ∀ s st, (mkUEcho s st).1 ∉ st := by
  intro s st
  unfold mkUEcho
  by_cases h : s ∈ st
  · rw [if_pos h]
    exact mkUniqueFresh_fresh s st
  · rw [if_neg h]
    exact h

theorem mkUEcho_set : ∀ s st, (mkUEcho s st).2 = st ++ [(mkUEcho s st).1] := by
  intro s st
  unfold mkUEcho
  by_cases h : s ∈ st
  · rw [if_pos h]
    rfl
  · rw [if_neg h]

theorem mkUEcho_not_c7x :
    ∀ s st, (mkUEcho s st).1 = s ∨ (mkUEcho s st).1 ∉ allPortNames c7xGraph := by
  intro s st
  unfold mkUEcho
  by_cases h : s ∈ st
  · rw [if_pos h]
    right
    intro hmem
    have hlist : allPortNames c7xGraph = ["x", "A_x"] := rfl
    rw [hlist] at hmem
    have h0 : (mkUniqueFresh s st).1.data.get? 0 = some 'u' := rfl
    rcases List.mem_cons.mp hmem with he | hmem2
    · rw [he] at h0
      exact absurd h0 (by decide)
    rcases List.mem_cons.mp hmem2 with he | hmem3
    · rw [he] at h0
      exact absurd h0 (by decide)
    · cases hmem3
  · rw [if_neg h]
    left
    rfl

/-- Counterexample for C7, the unqualified claim: on `c7xGraph` — whose
node `A` has outputs `x` and `A_x`, so `x`'s compound name is the other
output's name — the conforming `makeUnique` model `mkUEcho` (it honours
the shared set, records its results there, and echoes fresh requests)
leaves output 1 with its original name `A_x`: the first rename re-keys
the map entry `A_x` onto output 0, so the second `renameOutput` hits
output 0 instead, and output 1 never receives its made-unique compound
`A_A_x` — under no shared-set state is its final name a `makeUnique`
result of its compound.  The store premises (`wfNamesB`) hold, so only
the self-compound corner is at fault. -/
theorem claim7_counterexample :
    (∀ s st, (mkUEcho s st).1 ∉ st) ∧
    (∀ s st, (mkUEcho s st).2 = st ++ [(mkUEcho s st).1]) ∧
    (∀ s st, (mkUEcho s st).1 = s ∨ (mkUEcho s st).1 ∉ allPortNames c7xGraph) ∧
    wfNamesB c7xGraph = true ∧
    ∃ N o, c7xGraph.getAnyNode 1 = some N ∧ N.outputOrder.get? 1 = some o ∧
      ∀ node3, (validateNames mkUEcho c7xGraph).getAnyNode 1 = some node3 →
        ∀ o3, node3.outputOrder.get? 1 = some o3 →
          ∀ st0, o3.name ≠ (mkUEcho (N.name ++ "_" ++ o.name) st0).1 := by
  refine ⟨mkUEcho_fresh, mkUEcho_set, mkUEcho_not_c7x, rfl,
    mkNode "A" clTEXTURE [] [mkOutput "x" "float" [], mkOutput "A_x" "float" []],
    mkOutput "A_x" "float" [], rfl, rfl, ?_⟩
  intro node3 hn3 o3 ho3 st0
  have hcomp : ((validateNames mkUEcho c7xGraph).getAnyNode 1).map
      (fun n => (n.outputOrder.get? 1).map (fun o => o.name)) = some (some "A_x") := rfl
  rw [hn3] at hcomp
  have hcomp2 : (node3.outputOrder.get? 1).map (fun o => o.name) = some "A_x" :=
    Option.some.inj hcomp
  rw [ho3] at hcomp2
  have hname : o3.name = "A_x" := Option.some.inj hcomp2
  rw [hname]
  show ("A_x" : String) ≠ (mkUEcho ("A" ++ "_" ++ "A_x") st0).1
  intro he
  unfold mkUEcho at he
  by_cases hmem : ("A" ++ "_" ++ "A_x") ∈ st0
  · rw [if_pos hmem] at he
    have h0 : (mkUniqueFresh ("A" ++ "_" ++ "A_x") st0).1.data.get? 0 = some 'u' := rfl
    rw [← he] at h0
    exact absurd h0 (by decide)
  · rw [if_neg hmem] at he
    have h1 : (("A" ++ "_" ++ "A_x", st0 ++ ["A" ++ "_" ++ "A_x"]) : String × List String).1 =
        "A" ++ "_" ++ "A_x" := rfl
    rw [h1] at he
    exact absurd he (by decide)

theorem sum_map_ones {α : Type} : ∀ (l : List α), (l.map (fun _ => (1 : Nat))).sum = l.length := by
  intro l
  induction l with
  | nil => rfl
  | cons a rest ih =>
    rw [List.map_cons, List.sum_cons, ih, List.length_cons]
    omega

theorem sum_map_le_of_nodup_subset {α : Type} :
    ∀ (S K : List α) (f : α → Nat), S.Nodup → K.Nodup → (∀ x ∈ S, x ∈ K) →
      (S.map f).sum ≤ (K.map f).sum := by
  intro S
  induction S with
  | nil =>
    intro K f _ _ _
    exact Nat.zero_le _
  | cons a S2 ih =>
    intro K f hS hK hsub
    obtain ⟨K1, K2, hKd⟩ := List.append_of_mem (hsub a (List.mem_cons_self _ _))
    have hK2 := hK
    rw [hKd, List.nodup_append] at hK2
    have hKK : (K1 ++ K2).Nodup := by
      rw [List.nodup_append]
      exact ⟨hK2.1, (List.nodup_cons.mp hK2.2.1).2,
        fun x hx1 hx2 => hK2.2.2 hx1 (List.mem_cons_of_mem _ hx2)⟩
    have hsub2 : ∀ x ∈ S2, x ∈ K1 ++ K2 := by
      intro x hx
      have hxa : x ≠ a := fun he => (List.nodup_cons.mp hS).1 (he ▸ hx)
      have := hsub x (List.mem_cons_of_mem _ hx)
      rw [hKd] at this
      rcases List.mem_append.mp this with h | h
      · exact List.mem_append_left _ h
      · rcases List.mem_cons.mp h with h | h
        · exact absurd h hxa
        · exact List.mem_append_right _ h
    have hIH := ih (K1 ++ K2) f (List.nodup_cons.mp hS).2 hKK hsub2
    have hKsum : (K.map f).sum = f a + ((K1 ++ K2).map f).sum := by
      rw [hKd, List.map_append, List.map_cons, List.sum_append, List.sum_cons,
        List.map_append, List.sum_append]
      omega
    rw [List.map_cons, List.sum_cons, hKsum]
    omega

theorem length_le_of_nodup_subset {α : Type} (S K : List α)
    (hS : S.Nodup) (hK : K.Nodup) (hsub : ∀ x ∈ S, x ∈ K) : S.length ≤ K.length := by
  have := sum_map_le_of_nodup_subset S K (fun _ => (1 : Nat)) hS hK hsub
  rw [sum_map_ones, sum_map_ones] at this
  exact this

theorem mem_of_nodup_subset_length {α : Type} (S K : List α)
    (hS : S.Nodup) (hK : K.Nodup) (hsub : ∀ x ∈ S, x ∈ K)
    (hlen : K.length ≤ S.length) : ∀ k ∈ K, k ∈ S := by
  intro k hk
  by_contra hks
  have hS2 : (k :: S).Nodup := List.nodup_cons.mpr ⟨hks, hS⟩
  have hsub2 : ∀ x ∈ k :: S, x ∈ K := by
    intro x hx
    rcases List.mem_cons.mp hx with rfl | hx2
    · exact hk
    · exact hsub x hx2
  have := length_le_of_nodup_subset (k :: S) K hS2 hK hsub2
  rw [List.length_cons] at this
  omega

theorem findMap_map_snd {α β : Type} (f : α → β) :
    ∀ (l : List (Nat × α)) (k : Nat),
      findMap (l.map (fun p => (p.1, f p.2))) k = (findMap l k).map f := by
  intro l
  induction l with
  | nil =>
    intro k
    rfl
  | cons p rest ih =>
    intro k
    obtain ⟨a, b⟩ := p
    simp only [List.map_cons, findMap]
    by_cases h : a = k
    · rw [if_pos h, if_pos h]
      rfl
    · rw [if_neg h, if_neg h]
      exact ih k

theorem findMap_of_mem_nodup {α : Type} :
    ∀ (m : List (Nat × α)) (k : Nat) (v : α), (k, v) ∈ m → (m.map Prod.fst).Nodup →
      findMap m k = some v := by
  intro m
  induction m with
  | nil =>
    intro k v h
    cases h
  | cons p rest ih =>
    intro k v hmem hnd
    obtain ⟨a, b⟩ := p
    rw [List.map_cons, List.nodup_cons] at hnd
    rcases List.mem_cons.mp hmem with he | hmem2
    · injection he with h1 h2
      simp only [findMap]
      rw [if_pos h1.symm]
      rw [h2]
    · have hak : a ≠ k := by
        intro he
        exact hnd.1 (by rw [he]; exact List.mem_map.mpr ⟨(k, v), hmem2, rfl⟩)
      simp only [findMap]
      rw [if_neg hak]
      exact ih k v hmem2 hnd.2

theorem refCnt_cons (d : InRef) (R : List InRef) (v : NodeId) :
    refCnt (d :: R) v = refCnt R v + (if d.1 = v then 1 else 0) := by
  unfold refCnt
  rw [List.countP_cons]
  by_cases h : d.1 = v <;> simp [h]

theorem degLookup_mapUpdate_same (D : List (NodeId × Int)) (w : NodeId) (f : Int → Int)
    (c : Int) (h : findMap D w = some c) : degLookup (mapUpdate D w f) w = f c := by
  unfold degLookup
  rw [findMap_mapUpdate_same, h]
  rfl

theorem degLookup_mapUpdate_other (D : List (NodeId × Int)) (w v : NodeId) (f : Int → Int)
    (h : v ≠ w) : degLookup (mapUpdate D w f) v = degLookup D v := by
  unfold degLookup
  rw [findMap_mapUpdate_other _ _ _ _ h]

theorem degDecr_char (D : List (NodeId × Int)) (w : NodeId) (c : Int)
    (h : findMap D w = some c) : degDecr D w = mapUpdate D w (fun x => x - 1) := by
  unfold degDecr
  rw [h]

theorem foldl_join_eq {α β : Type} (f : β → α → β) :
    ∀ (L : List (List α)) (b : β),
      L.foldl (fun b2 l => l.foldl f b2) b = L.join.foldl f b := by
  intro L
  induction L with
  | nil =>
    intro b
    rfl
  | cons a rest ih =>
    intro b
    rw [List.foldl_cons, join_cons_eq, List.foldl_append, ih]

theorem kahnProcessNode_char (g : SgNodeGraph) (st : List (NodeId × Int) × List NodeId)
    (nid : NodeId) (node : SgNode) (h : g.getAnyNode nid = some node) :
    kahnProcessNode g st nid = (refsOf node).foldl kahnDecrOne st := by
  unfold kahnProcessNode
  simp only [h]
  rw [← List.foldl_map (fun o : SgOutput => o.connections)
    (fun st2 l => l.foldl kahnDecrOne st2)]
  exact foldl_join_eq kahnDecrOne _ st

theorem kahnInit_char :
    ∀ (l : List (NodeId × SgNode)) (st : List (NodeId × Int) × List NodeId),
      l.foldl (fun st p => (st.1 ++ [(p.1, (p.2.interiorInDegree : Int))],
        if (p.2.interiorInDegree : Int) = 0 then st.2 ++ [p.1] else st.2)) st =
      (st.1 ++ l.map (fun p => (p.1, (p.2.interiorInDegree : Int))),
       st.2 ++ (l.filter (fun p => decide ((p.2.interiorInDegree : Int) = 0))).map Prod.fst) := by
  intro l
  induction l with
  | nil =>
    intro st
    simp
  | cons p rest ih =>
    intro st
    rw [List.foldl_cons, ih]
    by_cases h : p.2.interiorInDegree = 0 <;>
      simp [h, Nat.cast_eq_zero, List.filter_cons, List.append_assoc]

theorem kahnInit_eq (g : SgNodeGraph) :
    kahnInit g = (g.nodeMap.map (fun p => (p.1, (p.2.interiorInDegree : Int))),
      (g.nodeMap.filter (fun p => decide ((p.2.interiorInDegree : Int) = 0))).map Prod.fst) := by
  have h := kahnInit_char g.nodeMap ([], [])
  rw [List.nil_append, List.nil_append] at h
  unfold kahnInit
  exact h

theorem isSome_findMap_mapUpdate {α : Type} (m : List (Nat × α)) (id v : Nat) (f : α → α) :
    (findMap (mapUpdate m id f) v).isSome = (findMap m v).isSome := by
  by_cases h : v = id
  · subst h
    rw [findMap_mapUpdate_same]
    cases findMap m v <;> rfl
  · rw [findMap_mapUpdate_other _ _ _ _ h]

theorem degLookup_decr_le (D : List (NodeId × Int)) (w x : NodeId) :
    degLookup (mapUpdate D w (fun y => y - 1)) x ≤ degLookup D x := by
  by_cases h : x = w
  · subst h
    unfold degLookup
    rw [findMap_mapUpdate_same]
    cases findMap D x with
    | none => exact Int.le_refl 0
    | some c =>
      show c - 1 ≤ c
      omega
  · rw [degLookup_mapUpdate_other _ _ _ _ h]

theorem kahnDecrOne_zero (st : List (NodeId × Int) × List NodeId) (d : InRef)
    (h : d.1 = 0) : kahnDecrOne st d = st := by
  unfold kahnDecrOne
  rw [if_pos h]

theorem kahnDecrOne_enq (st : List (NodeId × Int) × List NodeId) (d : InRef) (c : Int)
    (h0 : d.1 ≠ 0) (hc : findMap st.1 d.1 = some c) (hle : c - 1 ≤ 0) :
    kahnDecrOne st d = (mapUpdate st.1 d.1 (fun x => x - 1), st.2 ++ [d.1]) := by
  unfold kahnDecrOne
  rw [if_neg h0]
  simp only [degDecr_char st.1 d.1 c hc,
    degLookup_mapUpdate_same st.1 d.1 (fun x => x - 1) c hc]
  rw [if_pos hle]

theorem kahnDecrOne_noenq (st : List (NodeId × Int) × List NodeId) (d : InRef) (c : Int)
    (h0 : d.1 ≠ 0) (hc : findMap st.1 d.1 = some c) (hgt : ¬ (c - 1 ≤ 0)) :
    kahnDecrOne st d = (mapUpdate st.1 d.1 (fun x => x - 1), st.2) := by
  unfold kahnDecrOne
  rw [if_neg h0]
  simp only [degDecr_char st.1 d.1 c hc,
    degLookup_mapUpdate_same st.1 d.1 (fun x => x - 1) c hc]
  rw [if_neg hgt]

theorem kahnDecr_fold_inv (g : SgNodeGraph) (done : List NodeId) (u : NodeId)
    (rest : List NodeId)
    (hW2 : ∀ v ∈ keysOf g, v ≠ 0) :
    ∀ (R2 : List InRef) (D1 : List (NodeId × Int)) (batch1 : List NodeId),
    (∀ d ∈ R2, d.1 ≠ 0 → d.1 ∈ keysOf g) →
    (∀ v ∈ keysOf g, (findMap D1 v).isSome = true) →
    (∀ v ∈ keysOf g, (refCnt R2 v : Int) ≤ degLookup D1 v) →
    (∀ x ∈ rest, degLookup D1 x ≤ 0) →
    (∀ x ∈ done, degLookup D1 x ≤ 0) →
    degLookup D1 u ≤ 0 →
    batch1.Nodup →
    (∀ x ∈ batch1, x ∈ keysOf g ∧ degLookup D1 x ≤ 0 ∧ x ∉ done ∧ x ≠ u ∧ x ∉ rest) →
    (∀ v ∈ keysOf g,
      degLookup (R2.foldl kahnDecrOne (D1, rest ++ batch1)).1 v =
        degLookup D1 v - (refCnt R2 v : Int)) ∧
    (∀ v ∈ keysOf g,
      (findMap (R2.foldl kahnDecrOne (D1, rest ++ batch1)).1 v).isSome = true) ∧
    (∃ batch2, (R2.foldl kahnDecrOne (D1, rest ++ batch1)).2 = rest ++ batch2 ∧
      batch2.Nodup ∧
      (∀ x ∈ batch2, x ∈ keysOf g ∧
        degLookup (R2.foldl kahnDecrOne (D1, rest ++ batch1)).1 x ≤ 0 ∧
        x ∉ done ∧ x ≠ u ∧ x ∉ rest)) ∧
    (∀ x, degLookup (R2.foldl kahnDecrOne (D1, rest ++ batch1)).1 x ≤ degLookup D1 x) := by
  intro R2
  induction R2 with
  | nil =>
    intro D1 batch1 _ hsome _ _ _ _ hbnd hbp
    refine ⟨?_, hsome, ⟨batch1, rfl, hbnd, ?_⟩, fun x => Int.le_refl _⟩
    · intro v _
      show degLookup D1 v = degLookup D1 v - ((0 : Nat) : Int)
      omega
    · intro x hx
      exact ⟨(hbp x hx).1, (hbp x hx).2.1, (hbp x hx).2.2⟩
  | cons d R2' ih =>
    intro D1 batch1 hR2 hsome hbound hrest hdone hu hbnd hbp
    by_cases hd0 : d.1 = 0
    · rw [List.foldl_cons, kahnDecrOne_zero _ _ hd0]
      have hcnt : ∀ v ∈ keysOf g, refCnt (d :: R2') v = refCnt R2' v := by
        intro v hv
        rw [refCnt_cons, if_neg (fun he => hW2 v hv (by rw [← he, hd0]))]
        omega
      obtain ⟨c1, c2, c3, c4⟩ := ih D1 batch1
        (fun e he h0 => hR2 e (List.mem_cons_of_mem _ he) h0) hsome
        (fun v hv => by have hb := hbound v hv; rw [hcnt v hv] at hb; exact hb)
        hrest hdone hu hbnd hbp
      refine ⟨?_, c2, c3, c4⟩
      intro v hv
      rw [c1 v hv, hcnt v hv]
    · have hw : d.1 ∈ keysOf g := hR2 d (List.mem_cons_self _ _) hd0
      obtain ⟨c, hc⟩ := Option.isSome_iff_exists.mp (hsome d.1 hw)
      have hdl : degLookup D1 d.1 = c := by
        unfold degLookup
        rw [hc]
      have hbound1 := hbound d.1 hw
      rw [refCnt_cons, if_pos rfl] at hbound1
      have hbc : ((refCnt R2' d.1 + 1 : Nat) : Int) ≤ c := by
        rw [← hdl]
        exact hbound1
      have hc1 : (1 : Int) ≤ c := by
        push_cast at hbc
        omega
      have hmono : ∀ x, degLookup (mapUpdate D1 d.1 (fun y => y - 1)) x ≤ degLookup D1 x :=
        degLookup_decr_le D1 d.1
      have hsome2 : ∀ v ∈ keysOf g,
          (findMap (mapUpdate D1 d.1 (fun y => y - 1)) v).isSome = true := by
        intro v hv
        rw [isSome_findMap_mapUpdate]
        exact hsome v hv
      have hdlnew : degLookup (mapUpdate D1 d.1 (fun y => y - 1)) d.1 = c - 1 :=
        degLookup_mapUpdate_same D1 d.1 (fun y => y - 1) c hc
      have hdlother : ∀ v, v ≠ d.1 →
          degLookup (mapUpdate D1 d.1 (fun y => y - 1)) v = degLookup D1 v :=
        fun v hv => degLookup_mapUpdate_other D1 d.1 v (fun y => y - 1) hv
      have hbound2 : ∀ v ∈ keysOf g,
          (refCnt R2' v : Int) ≤ degLookup (mapUpdate D1 d.1 (fun y => y - 1)) v := by
        intro v hv
        by_cases hvw : v = d.1
        · subst hvw
          rw [hdlnew]
          have hthis := hbound d.1 hv
          rw [refCnt_cons, if_pos rfl, hdl] at hthis
          push_cast at hthis
          push_cast
          omega
        · rw [hdlother v hvw]
          have hthis := hbound v hv
          rw [refCnt_cons, if_neg (fun he => hvw he.symm)] at hthis
          push_cast at hthis
          push_cast
          omega
      have hrest2 : ∀ x ∈ rest, degLookup (mapUpdate D1 d.1 (fun y => y - 1)) x ≤ 0 :=
        fun x hx => Int.le_trans (hmono x) (hrest x hx)
      have hdone2 : ∀ x ∈ done, degLookup (mapUpdate D1 d.1 (fun y => y - 1)) x ≤ 0 :=
        fun x hx => Int.le_trans (hmono x) (hdone x hx)
      have hu2 : degLookup (mapUpdate D1 d.1 (fun y => y - 1)) u ≤ 0 :=
        Int.le_trans (hmono u) hu
      have hbp2 : ∀ x ∈ batch1, x ∈ keysOf g ∧
          degLookup (mapUpdate D1 d.1 (fun y => y - 1)) x ≤ 0 ∧
          x ∉ done ∧ x ≠ u ∧ x ∉ rest := by
        intro x hx
        exact ⟨(hbp x hx).1, Int.le_trans (hmono x) (hbp x hx).2.1, (hbp x hx).2.2⟩
      by_cases henq : c - 1 ≤ 0
      · have hcd : c = 1 := by
          have hbc2 := hbc
          push_cast at hbc2
          omega
        have hcnt0 : refCnt R2' d.1 = 0 := by
          have hbc2 := hbc
          push_cast at hbc2
          omega
        rw [List.foldl_cons, kahnDecrOne_enq (D1, rest ++ batch1) d c hd0 hc henq]
        have hdpos : degLookup D1 d.1 = 1 := by
          rw [hdl, hcd]
        have hdnotdone : d.1 ∉ done := fun hx => by
          have := hdone d.1 hx
          omega
        have hdnotu : d.1 ≠ u := fun hx => by
          rw [← hx] at hu
          omega
        have hdnotrest : d.1 ∉ rest := fun hx => by
          have := hrest d.1 hx
          omega
        have hdnotbatch : d.1 ∉ batch1 := fun hx => by
          have := (hbp d.1 hx).2.1
          omega
        have happ : (rest ++ batch1) ++ [d.1] = rest ++ (batch1 ++ [d.1]) :=
          List.append_assoc _ _ _
        rw [happ]
        have hbnd2 : (batch1 ++ [d.1]).Nodup := by
          rw [List.nodup_append]
          refine ⟨hbnd, List.nodup_singleton _, ?_⟩
          intro x hx hy
          rw [List.mem_singleton] at hy
          exact hdnotbatch (hy ▸ hx)
        have hbp3 : ∀ x ∈ batch1 ++ [d.1], x ∈ keysOf g ∧
            degLookup (mapUpdate D1 d.1 (fun y => y - 1)) x ≤ 0 ∧
            x ∉ done ∧ x ≠ u ∧ x ∉ rest := by
          intro x hx
          rcases List.mem_append.mp hx with hx | hx
          · exact hbp2 x hx
          · rw [List.mem_singleton] at hx
            subst hx
            refine ⟨hw, ?_, hdnotdone, hdnotu, hdnotrest⟩
            rw [hdlnew, hcd]
            omega
        obtain ⟨c1, c2, c3, c4⟩ := ih (mapUpdate D1 d.1 (fun y => y - 1)) (batch1 ++ [d.1])
          (fun e he h0 => hR2 e (List.mem_cons_of_mem _ he) h0)
          hsome2 hbound2 hrest2 hdone2 hu2 hbnd2 hbp3
        refine ⟨?_, c2, c3, ?_⟩
        · intro v hv
          rw [c1 v hv]
          by_cases hvw : v = d.1
          · subst hvw
            rw [hdlnew, hdl, refCnt_cons, if_pos rfl, hcnt0, hcd]
            omega
          · rw [hdlother v hvw, refCnt_cons, if_neg (fun he => hvw he.symm)]
            omega
        · intro x
          exact Int.le_trans (c4 x) (hmono x)
      · rw [List.foldl_cons, kahnDecrOne_noenq (D1, rest ++ batch1) d c hd0 hc henq]
        obtain ⟨c1, c2, c3, c4⟩ := ih (mapUpdate D1 d.1 (fun y => y - 1)) batch1
          (fun e he h0 => hR2 e (List.mem_cons_of_mem _ he) h0)
          hsome2 hbound2 hrest2 hdone2 hu2 hbnd hbp2
        refine ⟨?_, c2, c3, ?_⟩
        · intro v hv
          rw [c1 v hv]
          by_cases hvw : v = d.1
          · subst hvw
            rw [hdlnew, hdl, refCnt_cons, if_pos rfl]
            push_cast
            omega
          · rw [hdlother v hvw, refCnt_cons, if_neg (fun he => hvw he.symm)]
            omega
        · intro x
          exact Int.le_trans (c4 x) (hmono x)

theorem edgeCount_eq (g : SgNodeGraph) (u v : NodeId) (nu : SgNode)
    (h : findMap g.nodeMap u = some nu) : edgeCount g u v = refCnt (refsOf nu) v := by
  unfold edgeCount
  rw [h]

theorem edgesFrom_append_single (g : SgNodeGraph) (S : List NodeId) (u v : NodeId) :
    edgesFrom g (S ++ [u]) v = edgesFrom g S v + edgeCount g u v := by
  unfold edgesFrom
  rw [List.map_append, List.sum_append, List.map_cons, List.sum_cons, List.map_nil,
    List.sum_nil]
  omega

theorem edgesFrom_bound (g : SgNodeGraph) (S : List NodeId) (w v : NodeId)
    (hS : S.Nodup) (hsub : ∀ x ∈ S, x ∈ keysOf g) (hw : w ∈ keysOf g) (hwS : w ∉ S)
    (hK : (keysOf g).Nodup) :
    edgesFrom g S v + edgeCount g w v ≤ totalInto g v := by
  have h2 : (w :: S).Nodup := List.nodup_cons.mpr ⟨hwS, hS⟩
  have h3 : ∀ x ∈ w :: S, x ∈ keysOf g := by
    intro x hx
    rcases List.mem_cons.mp hx with rfl | hx2
    · exact hw
    · exact hsub x hx2
  have h4 := sum_map_le_of_nodup_subset (w :: S) (keysOf g)
    (fun u => edgeCount g u v) h2 hK h3
  rw [List.map_cons, List.sum_cons] at h4
  unfold edgesFrom totalInto edgesFrom at *
  omega

theorem kahnLoop_zero (g : SgNodeGraph) (D : List (NodeId × Int)) (q done : List NodeId) :
    kahnLoop g 0 D q done = done := rfl

theorem kahnLoop_nilq (g : SgNodeGraph) (fuel : Nat) (D : List (NodeId × Int))
    (done : List NodeId) : kahnLoop g (fuel + 1) D [] done = done := rfl

theorem kahnLoop_succ_cons (g : SgNodeGraph) (fuel : Nat) (D : List (NodeId × Int))
    (u : NodeId) (rest done : List NodeId) :
    kahnLoop g (fuel + 1) D (u :: rest) done =
      kahnLoop g fuel (kahnProcessNode g (D, rest) u).1
        (kahnProcessNode g (D, rest) u).2 (done ++ [u]) := rfl

theorem kahnLoop_inv (g : SgNodeGraph)
    (hW1 : (keysOf g).Nodup)
    (hW2 : ∀ v ∈ keysOf g, v ≠ 0)
    (hW3 : ∀ v ∈ keysOf g, nodeIndeg g v = totalInto g v)
    (hW4 : ∀ u nu, findMap g.nodeMap u = some nu → ∀ d ∈ refsOf nu, d.1 ≠ 0 →
      d.1 ∈ keysOf g) :
    ∀ (fuel : Nat) (D : List (NodeId × Int)) (q done : List NodeId),
    (∀ x ∈ done, x ∈ keysOf g) →
    (∀ x ∈ q, x ∈ keysOf g) →
    (done ++ q).Nodup →
    (∀ v ∈ keysOf g, (findMap D v).isSome = true) →
    (∀ v ∈ keysOf g, degLookup D v = (nodeIndeg g v : Int) - (edgesFrom g done v : Int)) →
    (∀ x, x ∈ done ∨ x ∈ q → degLookup D x ≤ 0) →
    (∀ p v, done.get? p = some v → ∀ w ∈ keysOf g, 0 < edgeCount g w v →
      w ∈ done.take p) →
    (kahnLoop g fuel D q done).Nodup ∧
    (∀ x ∈ kahnLoop g fuel D q done, x ∈ keysOf g) ∧
    (∀ p v, (kahnLoop g fuel D q done).get? p = some v →
      ∀ w ∈ keysOf g, 0 < edgeCount g w v → w ∈ (kahnLoop g fuel D q done).take p) := by
  intro fuel
  induction fuel with
  | zero =>
    intro D q done hdk hqk hnd _ _ _ hord
    rw [kahnLoop_zero]
    exact ⟨(List.sublist_append_left done q).nodup hnd, hdk, hord⟩
  | succ fuel ih =>
    intro D q done hdk hqk hnd hsome hdeg hle hord
    cases q with
    | nil =>
      rw [kahnLoop_nilq]
      rw [List.append_nil] at hnd
      exact ⟨hnd, hdk, hord⟩
    | cons u rest =>
      have huk : u ∈ keysOf g := hqk u (List.mem_cons_self _ _)
      have hu0 : u ≠ 0 := hW2 u huk
      obtain ⟨nu, hnu⟩ := findMap_isSome_of_mem_keys g.nodeMap u huk
      have hget : g.getAnyNode u = some nu := by
        unfold SgNodeGraph.getAnyNode
        rw [if_neg hu0]
        exact hnu
      have hundone : u ∉ done := by
        intro hx
        rw [List.nodup_append] at hnd
        exact hnd.2.2 hx (List.mem_cons_self _ _)
      have hdonend : done.Nodup := (List.sublist_append_left done _).nodup hnd
      have hbound0 : ∀ v ∈ keysOf g, (refCnt (refsOf nu) v : Int) ≤ degLookup D v := by
        intro v hv
        rw [← edgeCount_eq g u v nu hnu, hdeg v hv]
        have := edgesFrom_bound g done u v hdonend hdk huk hundone hW1
        have h3 := hW3 v hv
        have h4 := edgesFrom_bound g done u v hdonend hdk huk hundone hW1
        -- bound for target v, not u: redo with v
        have h5 := edgesFrom_bound g done u v hdonend hdk huk hundone hW1
        omega
      have hrest0 : ∀ x ∈ rest, degLookup D x ≤ 0 :=
        fun x hx => hle x (Or.inr (List.mem_cons_of_mem _ hx))
      have hdone0 : ∀ x ∈ done, degLookup D x ≤ 0 :=
        fun x hx => hle x (Or.inl hx)
      have hu0' : degLookup D u ≤ 0 := hle u (Or.inr (List.mem_cons_self _ _))
      obtain ⟨c1, c2, c3, c4⟩ := kahnDecr_fold_inv g done u rest hW2 (refsOf nu) D []
        (fun d hd h0 => hW4 u nu hnu d hd h0) hsome hbound0 hrest0 hdone0 hu0'
        List.nodup_nil (fun x hx => absurd hx (List.not_mem_nil x))
      rw [List.append_nil] at c1 c2 c3 c4
      obtain ⟨batch2, hb1, hb2, hb3⟩ := c3
      have hstep : kahnProcessNode g (D, rest) u = (refsOf nu).foldl kahnDecrOne (D, rest) :=
        kahnProcessNode_char g (D, rest) u nu hget
      rw [kahnLoop_succ_cons, hstep, hb1]
      -- re-established invariants
      have hdk2 : ∀ x ∈ done ++ [u], x ∈ keysOf g := by
        intro x hx
        rcases List.mem_append.mp hx with hx | hx
        · exact hdk x hx
        · rw [List.mem_singleton] at hx
          exact hx ▸ huk
      have hqk2 : ∀ x ∈ rest ++ batch2, x ∈ keysOf g := by
        intro x hx
        rcases List.mem_append.mp hx with hx | hx
        · exact hqk x (List.mem_cons_of_mem _ hx)
        · exact (hb3 x hx).1
      have hnd2 : ((done ++ [u]) ++ (rest ++ batch2)).Nodup := by
        have he : (done ++ [u]) ++ (rest ++ batch2) = (done ++ u :: rest) ++ batch2 := by
          simp [List.append_assoc]
        rw [he, List.nodup_append]
        refine ⟨hnd, hb2, ?_⟩
        intro x hx hy
        obtain ⟨_, hy2, hy3, hy4, hy5⟩ := hb3 x hy
        rcases List.mem_append.mp hx with hx | hx
        · exact hy3 hx
        · rcases List.mem_cons.mp hx with rfl | hx
          · exact hy4 rfl
          · exact hy5 hx
      have hdeg2 : ∀ v ∈ keysOf g,
          degLookup ((refsOf nu).foldl kahnDecrOne (D, rest)).1 v =
            (nodeIndeg g v : Int) - (edgesFrom g (done ++ [u]) v : Int) := by
        intro v hv
        rw [c1 v hv, hdeg v hv, ← edgeCount_eq g u v nu hnu]
        rw [edgesFrom_append_single]
        push_cast
        omega
      have hle2 : ∀ x, x ∈ done ++ [u] ∨ x ∈ rest ++ batch2 →
          degLookup ((refsOf nu).foldl kahnDecrOne (D, rest)).1 x ≤ 0 := by
        intro x hx
        rcases hx with hx | hx
        · rcases List.mem_append.mp hx with hx | hx
          · exact Int.le_trans (c4 x) (hdone0 x hx)
          · rw [List.mem_singleton] at hx
            subst hx
            exact Int.le_trans (c4 x) hu0'
        · rcases List.mem_append.mp hx with hx | hx
          · exact Int.le_trans (c4 x) (hrest0 x hx)
          · exact (hb3 x hx).2.1
      have hord2 : ∀ p v, (done ++ [u]).get? p = some v → ∀ w ∈ keysOf g,
          0 < edgeCount g w v → w ∈ (done ++ [u]).take p := by
        intro p v hp w hwk hwe
        by_cases hplen : p < done.length
        · rw [List.get?_append hplen] at hp
          rw [List.take_append_of_le_length (Nat.le_of_lt hplen)]
          exact hord p v hp w hwk hwe
        · have hpe : p = done.length := by
            have hlt : p < (done ++ [u]).length := (List.get?_eq_some.mp hp).1
            rw [List.length_append, List.length_singleton] at hlt
            omega
          subst hpe
          have hv : v = u := by
            rw [List.get?_concat_length] at hp
            injection hp with h2
            exact h2.symm
          subst hv
          rw [List.take_left]
          by_contra hwd
          have hb := edgesFrom_bound g done w v hdonend hdk hwk hwd hW1
          have hu2 := hdeg v huk
          have hu3 := hu0'
          rw [hu2] at hu3
          have h3 := hW3 v huk
          omega
      obtain ⟨d1, d2, d3⟩ := ih ((refsOf nu).foldl kahnDecrOne (D, rest)).1
        (rest ++ batch2) (done ++ [u]) hdk2 hqk2 hnd2 c2 hdeg2 hle2 hord2
      exact ⟨d1, d2, d3⟩

/-- C5: under graph well-formedness — duplicate-free interior ids, no
interior id 0, every seeded in-degree equal to the number of downstream
references into the node (socket refs excluded), reference targets
resolving to interior nodes, and connections mirrored by downstream
references — `topologicalSort` succeeds with a duplicate-free order
containing exactly the interior nodes in which every interior driver
precedes its consumer; and it raises the cycle error exactly when the
Kahn run ordered fewer nodes than the node map holds. -/
theorem claim5_theorem (g : SgNodeGraph)
    (hW1 : (keysOf g).Nodup)
    (hW2 : ∀ v ∈ keysOf g, v ≠ 0)
    (hW3 : ∀ v ∈ keysOf g, nodeIndeg g v = totalInto g v)
    (hW4 : ∀ u nu, findMap g.nodeMap u = some nu → ∀ d ∈ refsOf nu, d.1 ≠ 0 →
      d.1 ∈ keysOf g)
    (hW5 : ∀ v nv i input u j, findMap g.nodeMap v = some nv →
      nv.inputOrder.get? i = some input → input.connection = some (u, j) → u ≠ 0 →
      ∃ nu, findMap g.nodeMap u = some nu ∧ (v, i) ∈ refsOf nu) :
    (∀ g', topologicalSort g = Except.ok g' →
      g'.nodeOrder.Nodup ∧
      (∀ v, v ∈ g'.nodeOrder ↔ v ∈ keysOf g) ∧
      (∀ v nv i input u j, findMap g.nodeMap v = some nv →
        nv.inputOrder.get? i = some input → input.connection = some (u, j) → u ≠ 0 →
        ∃ p, g'.nodeOrder.get? p = some v ∧ u ∈ g'.nodeOrder.take p)) ∧
    ((∃ e, topologicalSort g = Except.error e) ↔
      (kahnOrder g).length < g.nodeMap.length) := by
  have hinit := kahnInit_eq g
  have hD0 : (kahnInit g).1 =
      g.nodeMap.map (fun p => (p.1, (p.2.interiorInDegree : Int))) := by
    rw [hinit]
  have hq0 : (kahnInit g).2 =
      (g.nodeMap.filter (fun p => decide ((p.2.interiorInDegree : Int) = 0))).map Prod.fst := by
    rw [hinit]
  have hqk : ∀ x ∈ (kahnInit g).2, x ∈ keysOf g := by
    intro x hx
    rw [hq0] at hx
    obtain ⟨p, hp, hpx⟩ := List.mem_map.mp hx
    exact hpx ▸ List.mem_map.mpr ⟨p, List.mem_of_mem_filter hp, rfl⟩
  have hqnd : (([] : List NodeId) ++ (kahnInit g).2).Nodup := by
    show ((kahnInit g).2).Nodup
    rw [hq0]
    exact ((List.filter_sublist g.nodeMap).map Prod.fst).nodup hW1
  have hsome0 : ∀ v ∈ keysOf g, (findMap (kahnInit g).1 v).isSome = true := by
    intro v hv
    rw [hD0, findMap_map_snd (fun n : SgNode => (n.interiorInDegree : Int)) g.nodeMap v]
    obtain ⟨nv, hnv⟩ := findMap_isSome_of_mem_keys g.nodeMap v hv
    rw [hnv]
    rfl
  have hdeg0 : ∀ v ∈ keysOf g, degLookup (kahnInit g).1 v =
      (nodeIndeg g v : Int) - (edgesFrom g [] v : Int) := by
    intro v hv
    obtain ⟨nv, hnv⟩ := findMap_isSome_of_mem_keys g.nodeMap v hv
    unfold degLookup
    rw [hD0, findMap_map_snd (fun n : SgNode => (n.interiorInDegree : Int)) g.nodeMap v, hnv]
    have h2 : nodeIndeg g v = nv.interiorInDegree := by
      unfold nodeIndeg
      rw [hnv]
    rw [h2]
    show (nv.interiorInDegree : Int) = (nv.interiorInDegree : Int) - ((0 : Nat) : Int)
    omega
  have hle0 : ∀ x, x ∈ ([] : List NodeId) ∨ x ∈ (kahnInit g).2 →
      degLookup (kahnInit g).1 x ≤ 0 := by
    intro x hx
    rcases hx with hx | hx
    · cases hx
    · rw [hq0] at hx
      obtain ⟨p, hp, hpx⟩ := List.mem_map.mp hx
      obtain ⟨hpm, hpc⟩ := List.mem_filter.mp hp
      have hfm : findMap g.nodeMap p.1 = some p.2 := by
        apply findMap_of_mem_nodup g.nodeMap p.1 p.2 ?_ hW1
        show (p.1, p.2) ∈ g.nodeMap
        exact hpm
      unfold degLookup
      rw [← hpx, hD0,
        findMap_map_snd (fun n : SgNode => (n.interiorInDegree : Int)) g.nodeMap p.1, hfm]
      have := of_decide_eq_true hpc
      show (p.2.interiorInDegree : Int) ≤ 0
      omega
  obtain ⟨hres1, hres2, hres3⟩ := kahnLoop_inv g hW1 hW2 hW3 hW4
    (g.nodeMap.length + g.totalConnRefs + 1) (kahnInit g).1 (kahnInit g).2 []
    (fun x hx => absurd hx (List.not_mem_nil x)) hqk hqnd hsome0 hdeg0 hle0
    (fun p v hp => by cases hp)
  have hko : kahnOrder g = kahnLoop g (g.nodeMap.length + g.totalConnRefs + 1)
      (kahnInit g).1 (kahnInit g).2 [] := rfl
  rw [← hko] at hres1 hres2 hres3
  have hkeyslen : (keysOf g).length = g.nodeMap.length := List.length_map _ _
  have hlen : (kahnOrder g).length ≤ g.nodeMap.length := by
    rw [← hkeyslen]
    exact length_le_of_nodup_subset _ _ hres1 hW1 hres2
  have hts : topologicalSort g =
      if (kahnOrder g).length = g.nodeMap.length
      then Except.ok { g with nodeOrder := kahnOrder g }
      else Except.error ("Encountered a cycle in graph: " ++ g.graphNode.name) := rfl
  constructor
  · intro g' hok
    rw [hts] at hok
    by_cases hc : (kahnOrder g).length = g.nodeMap.length
    · rw [if_pos hc] at hok
      injection hok with hok2
      have hord : g'.nodeOrder = kahnOrder g := by
        rw [← hok2]
      have hcompl : ∀ k ∈ keysOf g, k ∈ kahnOrder g := by
        apply mem_of_nodup_subset_length _ _ hres1 hW1 hres2
        rw [hkeyslen]
        omega
      refine ⟨hord ▸ hres1, ?_, ?_⟩
      · intro v
        rw [hord]
        exact ⟨fun hv => hres2 v hv, fun hv => hcompl v hv⟩
      · intro v nv i input u j hfm hin hconn hu0
        obtain ⟨nu, hnu, href⟩ := hW5 v nv i input u j hfm hin hconn hu0
        have huk : u ∈ keysOf g := findMap_mem_keys hnu
        have hvk : v ∈ keysOf g := findMap_mem_keys hfm
        have hec : 0 < edgeCount g u v := by
          rw [edgeCount_eq g u v nu hnu]
          unfold refCnt
          rw [List.countP_pos]
          exact ⟨(v, i), href, by simp⟩
        obtain ⟨p, hp⟩ := List.get?_of_mem (hcompl v hvk)
        refine ⟨p, ?_, ?_⟩
        · rw [hord]
          exact hp
        · rw [hord]
          exact hres3 p v hp u huk hec
    · rw [if_neg hc] at hok
      cases hok
  · constructor
    · intro ⟨e, he⟩
      rw [hts] at he
      by_cases hc : (kahnOrder g).length = g.nodeMap.length
      · rw [if_pos hc] at he
        cases he
      · omega
    · intro hlt
      refine ⟨"Encountered a cycle in graph: " ++ g.graphNode.name, ?_⟩
      rw [hts, if_neg (by omega)]

theorem c5_key_cases (u : NodeId) (nu : SgNode)
    (h : findMap c5Graph.nodeMap u = some nu) :
    (u = 1 ∧ nu = mkNode "a" clTEXTURE [mkInput "uv" "vector2" none (some (0, 0))]
      [mkOutput "o1" "color3" [(2, 0)]]) ∨
    (u = 2 ∧ nu = mkNode "b" clTEXTURE [mkInput "in" "color3" none (some (1, 0))]
      [mkOutput "o2" "color3" [(0, 0)]]) := by
  have h2 : (if 1 = u then some (mkNode "a" clTEXTURE
      [mkInput "uv" "vector2" none (some (0, 0))] [mkOutput "o1" "color3" [(2, 0)]])
    else if 2 = u then some (mkNode "b" clTEXTURE
      [mkInput "in" "color3" none (some (1, 0))] [mkOutput "o2" "color3" [(0, 0)]])
    else none) = some nu := h
  by_cases e1 : 1 = u
  · rw [if_pos e1] at h2
    injection h2 with h3
    exact Or.inl ⟨e1.symm, h3.symm⟩
  · rw [if_neg e1] at h2
    by_cases e2 : 2 = u
    · rw [if_pos e2] at h2
      injection h2 with h3
      exact Or.inr ⟨e2.symm, h3.symm⟩
    · rw [if_neg e2] at h2
      cases h2

theorem c5_W4 : ∀ u nu, findMap c5Graph.nodeMap u = some nu →
    ∀ d ∈ refsOf nu, d.1 ≠ 0 → d.1 ∈ keysOf c5Graph := by
  intro u nu h d hd h0
  rcases c5_key_cases u nu h with ⟨_, hn⟩ | ⟨_, hn⟩
  · subst hn
    have hr : refsOf (mkNode "a" clTEXTURE [mkInput "uv" "vector2" none (some (0, 0))]
        [mkOutput "o1" "color3" [(2, 0)]]) = [(2, 0)] := rfl
    rw [hr, List.mem_singleton] at hd
    subst hd
    decide
  · subst hn
    have hr : refsOf (mkNode "b" clTEXTURE [mkInput "in" "color3" none (some (1, 0))]
        [mkOutput "o2" "color3" [(0, 0)]]) = [(0, 0)] := rfl
    rw [hr, List.mem_singleton] at hd
    subst hd
    exact absurd rfl h0

theorem c5_W5 : ∀ v nv i input u j, findMap c5Graph.nodeMap v = some nv →
    nv.inputOrder.get? i = some input → input.connection = some (u, j) → u ≠ 0 →
    ∃ nu, findMap c5Graph.nodeMap u = some nu ∧ (v, i) ∈ refsOf nu := by
  intro v nv i input u j h hin hconn hu0
  rcases c5_key_cases v nv h with ⟨hv, hn⟩ | ⟨hv, hn⟩
  · subst hn
    cases i with
    | zero =>
      have hin2 : some (mkInput "uv" "vector2" none (some (0, 0))) = some input := hin
      injection hin2 with h3
      have hconn2 : (some ((0 : NodeId), (0 : Nat)) : Option OutRef) = some (u, j) := by
        rw [← h3] at hconn
        exact hconn
      injection hconn2 with h4
      injection h4 with h5 h6
      exact absurd h5.symm hu0
    | succ n =>
      have hin2 : (none : Option SgInput) = some input := hin
      cases hin2
  · subst hn
    cases i with
    | zero =>
      have hin2 : some (mkInput "in" "color3" none (some (1, 0))) = some input := hin
      injection hin2 with h3
      have hconn2 : (some ((1 : NodeId), (0 : Nat)) : Option OutRef) = some (u, j) := by
        rw [← h3] at hconn
        exact hconn
      injection hconn2 with h4
      injection h4 with h5 h6
      subst hv
      refine ⟨mkNode "a" clTEXTURE [mkInput "uv" "vector2" none (some (0, 0))]
        [mkOutput "o1" "color3" [(2, 0)]], ?_, ?_⟩
      · rw [← h5]
        rfl
      · show ((2 : NodeId), (0 : Nat)) ∈ refsOf (mkNode "a" clTEXTURE
          [mkInput "uv" "vector2" none (some (0, 0))] [mkOutput "o1" "color3" [(2, 0)]])
        decide
    | succ n =>
      have hin2 : (none : Option SgInput) = some input := hin
      cases hin2

/-- Witness for C5: the two-node chain fixture satisfies the
well-formedness premises, and the claim follows for it. -/
theorem claim5_witness :
    (keysOf c5Graph).Nodup ∧
    ((∀ g', topologicalSort c5Graph = Except.ok g' →
      g'.nodeOrder.Nodup ∧
      (∀ v, v ∈ g'.nodeOrder ↔ v ∈ keysOf c5Graph) ∧
      (∀ v nv i input u j, findMap c5Graph.nodeMap v = some nv →
        nv.inputOrder.get? i = some input → input.connection = some (u, j) → u ≠ 0 →
        ∃ p, g'.nodeOrder.get? p = some v ∧ u ∈ g'.nodeOrder.take p)) ∧
    ((∃ e, topologicalSort c5Graph = Except.error e) ↔
      (kahnOrder c5Graph).length < c5Graph.nodeMap.length)) :=
  ⟨by decide, claim5_theorem c5Graph (by decide) (by decide) (by decide) c5_W4 c5_W5⟩

end MaterialXSg
